import Mathlib

/-!
# airzombie: the poll / decode / publish cycle

A shallow embedding of `airzombie.go` (package `main`): `doLog`, `pushInflux`, `airzoneWorker`,
`parseArgs` and `main`, together with models of the library functions they call
(`strconv.Itoa`, `strconv.Atoi`, `strconv.ParseInt`, `strconv.ParseFloat`, `encoding/json.Unmarshal`,
and the point / batch / client functions of `influxdb1-client/v2`).

Conventions.

* Go `int` is the 64-bit signed integer; values are `Int`, range checks are explicit.
* Go `[]byte` and device-supplied `string` data are lists of byte values (`List Nat`).
  Program constants (format strings, tag keys, URLs) are Lean strings.
* Go `error` values are their message text.
* Effects are recorded in order in a trace of events carried by the `World`.
* Answers of the outside world (clock, file system, network, library validation) are read from
  an environment, never invented by the model.
-/

namespace Airzombie

/-! ## Numbers -/

/-- Go `float64` values: finite values are `(-1)^neg * mant * 2^exp`, kept in IEEE-754 binary64
normal form (`2^52 ≤ mant < 2^53` with `-1074 ≤ exp ≤ 971`, or `mant < 2^52` with `exp = -1074`,
or zero with `mant = 0`, `exp = 0`). -/
inductive F64 where
  | finite (neg : Bool) (mant : Nat) (exp : Int)
  | inf (neg : Bool)
  | nan
  deriving DecidableEq, Repr

/-- The zero value of `float64`. -/
def F64.zero : F64 := .finite false 0 0

/-- The real number a finite `float64` denotes (0 for infinities and NaN). -/
def F64.toRat : F64 → ℚ
  | .finite neg mant exp => (if neg then -1 else 1) * (mant : ℚ) * (2 : ℚ) ^ exp
  | .inf _ => 0
  | .nan => 0

/-- The `Err` of a `*strconv.NumError`: `ErrSyntax` or `ErrRange`. -/
inductive NumError where
  | errSyntax
  | errRange
  deriving DecidableEq, Repr

/-- The test `'0' <= c && c <= '9'`. -/
def isDigit (c : Char) : Bool := 48 ≤ c.toNat && c.toNat ≤ 57

/-- The digit loop of `strconv.formatBits` in base 10: the decimal digits of `n`, most significant
first, pushed in front of `acc`. `fuel` bounds the number of digits. -/
def fmtUint : Nat → Nat → List Char → List Char
  | 0, _, acc => acc
  | fuel + 1, n, acc =>
    if n < 10 then Nat.digitChar n :: acc
    else fmtUint fuel (n / 10) (Nat.digitChar (n % 10) :: acc)

/-- `strconv.Itoa(i)`, that is `FormatInt(int64(i), 10)`: a minus sign for negative values, then the
decimal digits of the magnitude. -/
def Itoa (i : Int) : String :=
  if i < 0 then String.mk ('-' :: fmtUint (i.natAbs + 1) i.natAbs [])
  else String.mk (fmtUint (i.natAbs + 1) i.natAbs [])

/-- The loop of `strconv.ParseUint(s, 10, 64)`: digits are accumulated left to right; a non-digit
byte is `ErrSyntax`; an accumulator that would leave `uint64` is `ErrRange`, reported at the digit
where it happens. -/
def parseUintLoop : List Char → Nat → Except NumError Nat
  | [], n => .ok n
  | c :: cs, n =>
    if isDigit c then
      if n ≥ (2 ^ 64 - 1) / 10 + 1 then .error .errRange
      else if n * 10 + (c.toNat - 48) ≥ 2 ^ 64 then .error .errRange
      else parseUintLoop cs (n * 10 + (c.toNat - 48))
    else .error .errSyntax

/-- `strconv.ParseUint(s, 10, 64)`. -/
def ParseUint (s : List Char) : Except NumError Nat :=
  match s with
  | [] => .error .errSyntax
  | _ => parseUintLoop s 0

/-- `strconv.ParseInt(s, 10, 64)`: an optional sign, then `ParseUint`, then the signed range
check against `1 << 63`. -/
def ParseInt (s : List Char) : Except NumError Int :=
  match s with
  | [] => .error .errSyntax
  | c :: rest =>
    let neg := c = '-'
    let digits := if c = '+' ∨ c = '-' then rest else s
    match ParseUint digits with
    | .error e => .error e
    | .ok un =>
      if ¬ neg ∧ un ≥ 2 ^ 63 then .error .errRange
      else if neg ∧ un > 2 ^ 63 then .error .errRange
      else .ok (if neg then -(un : Int) else (un : Int))

/-- `strconv.Atoi(s)`: `ParseInt(s, 10, 0)` with a 64-bit `int`. -/
def Atoi (s : String) : Except NumError Int := ParseInt s.data

/-- Number of binary digits of `n`, by repeated halving; `fuel` bounds the number of steps. -/
def bitLenAux : Nat → Nat → Nat
  | 0, _ => 0
  | fuel + 1, n => if n = 0 then 0 else bitLenAux fuel (n / 2) + 1

/-- Number of binary digits of `n` (`bits.Len`). -/
def bitLen (n : Nat) : Nat := bitLenAux n n

/-- Leading decimal digits: value accumulated so far, number of digits read, and the rest. -/
def readDigits : List Char → Nat → Nat → Nat × Nat × List Char
  | [], v, k => (v, k, [])
  | c :: cs, v, k =>
    if isDigit c then readDigits cs (v * 10 + (c.toNat - 48)) (k + 1) else (v, k, c :: cs)

/-- The decimal part of `strconv.readFloat`: sign, digits with an optional point, optional
exponent. The result `(neg, m, e)` stands for `(-1)^neg * m * 10^e`. Hexadecimal literals,
underscores, `inf` and `nan` are left out: no JSON number literal has them. -/
def readFloat (s : List Char) : Option (Bool × Nat × Int) :=
  let (neg, s1) : Bool × List Char :=
    match s with
    | '+' :: r => (false, r)
    | '-' :: r => (true, r)
    | _ => (false, s)
  let (ip, ni, s2) := readDigits s1 0 0
  let (m, nf, s3) : Nat × Nat × List Char :=
    match s2 with
    | '.' :: r => readDigits r ip 0
    | _ => (ip, 0, s2)
  if ni + nf = 0 then none
  else
    match s3 with
    | [] => some (neg, m, -(nf : Int))
    | c :: r =>
      if c = 'e' ∨ c = 'E' then
        let (eneg, r1) : Bool × List Char :=
          match r with
          | '+' :: t => (false, t)
          | '-' :: t => (true, t)
          | _ => (false, r)
        match readDigits r1 0 0 with
        | (ev, ne, []) =>
          if ne = 0 then none
          else some (neg, m, (if eneg then -(ev : Int) else (ev : Int)) - (nf : Int))
        | _ => none
      else none

/-- Correct rounding of `(-1)^neg * m * 10^e` to binary64 (nearest, ties to even), as
`strconv.ParseFloat(s, 64)` does: an overflow to infinity is `ErrRange`, an underflow gives zero
without error. -/
def roundF64 (neg : Bool) (m : Nat) (e : Int) : Except NumError F64 :=
  if m = 0 then .ok (.finite neg 0 0)
  else
    let num := if e ≥ 0 then m * 10 ^ e.toNat else m
    let den := if e ≥ 0 then 1 else 10 ^ (-e).toNat
    -- floor (log2 (num / den)) is `l0` or `l0 - 1`
    let l0 : Int := (bitLen num : Int) - (bitLen den : Int)
    let ge : Bool := if l0 ≥ 0 then num ≥ den * 2 ^ l0.toNat else num * 2 ^ (-l0).toNat ≥ den
    let l : Int := if ge then l0 else l0 - 1
    let k : Int := max (l - 52) (-1074)
    let n1 := if k ≥ 0 then num else num * 2 ^ (-k).toNat
    let d1 := if k ≥ 0 then den * 2 ^ k.toNat else den
    let q0 := n1 / d1
    let r := n1 % d1
    let q := if 2 * r > d1 ∨ (2 * r = d1 ∧ q0 % 2 = 1) then q0 + 1 else q0
    let (q, k) : Nat × Int := if q = 2 ^ 53 then (2 ^ 52, k + 1) else (q, k)
    if k > 971 then .error .errRange
    else if q = 0 then .ok (.finite neg 0 0)
    else .ok (.finite neg q k)

/-- `strconv.ParseFloat(s, 64)` on decimal literals. -/
def ParseFloat (s : List Char) : Except NumError F64 :=
  match readFloat s with
  | none => .error .errSyntax
  | some (neg, m, e) => roundF64 neg m e

/-! ## encoding/json: the scanner

`checkValid` runs the scanner state machine over the bytes. The states below are the functions
`stateBeginValue`, `stateInString`, ... of `scanner.go`; bytes are written by their code. The
scan codes returned by the step functions are not kept: `checkValid` only looks at whether an
error was recorded. -/

/-- Go `[]byte`, and the content of a Go `string` that holds data. -/
abbrev Bytes := List Nat

/-- The entries of the scanner's `parseState` stack. -/
inductive ParseState where
  | parseObjectKey
  | parseObjectValue
  | parseArrayValue
  deriving DecidableEq, Repr

/-- The value of the scanner's `step` field: which state function handles the next byte. -/
inductive ScanStep where
  | stateBeginValueOrEmpty | stateBeginValue | stateBeginStringOrEmpty | stateBeginString
  | stateEndValue | stateEndTop
  | stateInString | stateInStringEsc
  | stateInStringEscU | stateInStringEscU1 | stateInStringEscU12 | stateInStringEscU123
  | stateNeg | state1 | state0 | stateDot | stateDot0 | stateE | stateESign | stateE0
  | stateT | stateTr | stateTru | stateF | stateFa | stateFal | stateFals
  | stateN | stateNu | stateNul
  | stateError
  deriving DecidableEq, Repr

/-- The `scanner` of `scanner.go`; the top of `parseState` is the head of the list. -/
structure Scanner where
  step : ScanStep
  parseState : List ParseState
  err : Option String
  endTop : Bool
  deriving DecidableEq, Repr

/-- The constant `maxNestingDepth`. -/
def maxNestingDepth : Nat := 10000

/-- The method `reset`. -/
def Scanner.reset : Scanner :=
  { step := .stateBeginValue, parseState := [], err := none, endTop := false }

/-- The method `error`: record a syntax error and switch to the error state. -/
def Scanner.error (s : Scanner) (context : String) : Scanner :=
  { s with step := .stateError, err := some context }

/-- The method `pushParseState`, followed by the switch to `next` that its callers do first. -/
def Scanner.pushParseState (s : Scanner) (p : ParseState) (next : ScanStep) : Scanner :=
  let s1 := { s with step := next, parseState := p :: s.parseState }
  if s1.parseState.length ≤ maxNestingDepth then s1 else s1.error "exceeded max depth"

/-- The method `popParseState`. -/
def Scanner.popParseState (s : Scanner) : Scanner :=
  let rest := s.parseState.tail
  if rest.length = 0 then { s with parseState := rest, step := .stateEndTop, endTop := true }
  else { s with parseState := rest, step := .stateEndValue }

/-- `isSpace`: space, tab, carriage return, line feed. -/
def isSpace (c : Nat) : Bool := c = 32 || c = 9 || c = 13 || c = 10

/-- `'0' <= c && c <= '9'` on a byte. -/
def isDigitByte (c : Nat) : Bool := 48 ≤ c && c ≤ 57

/-- A hexadecimal digit byte. -/
def isHexByte (c : Nat) : Bool :=
  (48 ≤ c && c ≤ 57) || (97 ≤ c && c ≤ 102) || (65 ≤ c && c ≤ 70)

/-- State after the top-level value: only space may follow. -/
def stateEndTop (s : Scanner) (c : Nat) : Scanner :=
  if ¬ isSpace c then s.error "after top-level value" else s

/-- State after a complete value. -/
def stateEndValue (s : Scanner) (c : Nat) : Scanner :=
  match s.parseState with
  | [] => stateEndTop { s with step := .stateEndTop, endTop := true } c
  | ps :: rest =>
    if isSpace c then { s with step := .stateEndValue }
    else
      match ps with
      | .parseObjectKey =>
        if c = 58 then -- ':'
          { s with parseState := .parseObjectValue :: rest, step := .stateBeginValue }
        else s.error "after object key"
      | .parseObjectValue =>
        if c = 44 then -- ','
          { s with parseState := .parseObjectKey :: rest, step := .stateBeginString }
        else if c = 125 then -- closing brace
          s.popParseState
        else s.error "after object key:value pair"
      | .parseArrayValue =>
        if c = 44 then { s with step := .stateBeginValue }
        else if c = 93 then -- ']'
          s.popParseState
        else s.error "after array element"

/-- State at the beginning of a value. -/
def stateBeginValue (s : Scanner) (c : Nat) : Scanner :=
  if isSpace c then s
  else if c = 123 then s.pushParseState .parseObjectKey .stateBeginStringOrEmpty -- opening brace
  else if c = 91 then s.pushParseState .parseArrayValue .stateBeginValueOrEmpty -- '['
  else if c = 34 then { s with step := .stateInString } -- '"'
  else if c = 45 then { s with step := .stateNeg } -- '-'
  else if c = 48 then { s with step := .state0 } -- '0'
  else if c = 116 then { s with step := .stateT } -- 't'
  else if c = 102 then { s with step := .stateF } -- 'f'
  else if c = 110 then { s with step := .stateN } -- 'n'
  else if 49 ≤ c ∧ c ≤ 57 then { s with step := .state1 }
  else s.error "looking for beginning of value"

/-- State after `[`. -/
def stateBeginValueOrEmpty (s : Scanner) (c : Nat) : Scanner :=
  if isSpace c then s
  else if c = 93 then stateEndValue s c
  else stateBeginValue s c

/-- State after `,` inside an object: a key string must follow. -/
def stateBeginString (s : Scanner) (c : Nat) : Scanner :=
  if isSpace c then s
  else if c = 34 then { s with step := .stateInString }
  else s.error "looking for beginning of object key string"

/-- State after the opening brace of an object. -/
def stateBeginStringOrEmpty (s : Scanner) (c : Nat) : Scanner :=
  if isSpace c then s
  else if c = 125 then
    stateEndValue { s with parseState := .parseObjectValue :: s.parseState.tail } c
  else stateBeginString s c

/-- State inside a quoted string. -/
def stateInString (s : Scanner) (c : Nat) : Scanner :=
  if c = 34 then { s with step := .stateEndValue }
  else if c = 92 then { s with step := .stateInStringEsc } -- backslash
  else if c < 32 then s.error "in string literal"
  else s

/-- State after a backslash inside a string. -/
def stateInStringEsc (s : Scanner) (c : Nat) : Scanner :=
  if c = 98 ∨ c = 102 ∨ c = 110 ∨ c = 114 ∨ c = 116 ∨ c = 92 ∨ c = 47 ∨ c = 34 then
    { s with step := .stateInString }
  else if c = 117 then { s with step := .stateInStringEscU } -- 'u'
  else s.error "in string escape code"

/-- The four states that read the hexadecimal digits of a `\u` escape. -/
def stateInStringEscHex (next : ScanStep) (s : Scanner) (c : Nat) : Scanner :=
  if isHexByte c then { s with step := next }
  else s.error "in \\u hexadecimal character escape"

/-- State after `0` in a number. -/
def state0 (s : Scanner) (c : Nat) : Scanner :=
  if c = 46 then { s with step := .stateDot } -- '.'
  else if c = 101 ∨ c = 69 then { s with step := .stateE } -- 'e', 'E'
  else stateEndValue s c

/-- State after a non-zero integer in a number. -/
def state1 (s : Scanner) (c : Nat) : Scanner :=
  if isDigitByte c then { s with step := .state1 } else state0 s c

/-- State after `-` in a number. -/
def stateNeg (s : Scanner) (c : Nat) : Scanner :=
  if c = 48 then { s with step := .state0 }
  else if 49 ≤ c ∧ c ≤ 57 then { s with step := .state1 }
  else s.error "in numeric literal"

/-- State after the decimal point. -/
def stateDot (s : Scanner) (c : Nat) : Scanner :=
  if isDigitByte c then { s with step := .stateDot0 }
  else s.error "after decimal point in numeric literal"

/-- State after the digits that follow the decimal point. -/
def stateDot0 (s : Scanner) (c : Nat) : Scanner :=
  if isDigitByte c then s
  else if c = 101 ∨ c = 69 then { s with step := .stateE }
  else stateEndValue s c

/-- State after the exponent sign, or after `e` when no sign follows. -/
def stateESign (s : Scanner) (c : Nat) : Scanner :=
  if isDigitByte c then { s with step := .stateE0 }
  else s.error "in exponent of numeric literal"

/-- State after `e` in a number. -/
def stateE (s : Scanner) (c : Nat) : Scanner :=
  if c = 43 ∨ c = 45 then { s with step := .stateESign } else stateESign s c

/-- State after at least one exponent digit. -/
def stateE0 (s : Scanner) (c : Nat) : Scanner :=
  if isDigitByte c then s else stateEndValue s c

/-- The states inside `true`, `false` and `null`: exactly the byte `want` is accepted. -/
def stateLit (want : Nat) (next : ScanStep) (context : String) (s : Scanner) (c : Nat) :
    Scanner :=
  if c = want then { s with step := next } else s.error context

/-- The call `s.step(s, c)`: dispatch on the current state function. -/
def Scanner.stepByte (s : Scanner) (c : Nat) : Scanner :=
  match s.step with
  | .stateBeginValueOrEmpty => stateBeginValueOrEmpty s c
  | .stateBeginValue => stateBeginValue s c
  | .stateBeginStringOrEmpty => stateBeginStringOrEmpty s c
  | .stateBeginString => stateBeginString s c
  | .stateEndValue => stateEndValue s c
  | .stateEndTop => stateEndTop s c
  | .stateInString => stateInString s c
  | .stateInStringEsc => stateInStringEsc s c
  | .stateInStringEscU => stateInStringEscHex .stateInStringEscU1 s c
  | .stateInStringEscU1 => stateInStringEscHex .stateInStringEscU12 s c
  | .stateInStringEscU12 => stateInStringEscHex .stateInStringEscU123 s c
  | .stateInStringEscU123 => stateInStringEscHex .stateInString s c
  | .stateNeg => stateNeg s c
  | .state1 => state1 s c
  | .state0 => state0 s c
  | .stateDot => stateDot s c
  | .stateDot0 => stateDot0 s c
  | .stateE => stateE s c
  | .stateESign => stateESign s c
  | .stateE0 => stateE0 s c
  | .stateT => stateLit 114 .stateTr "in literal true (expecting 'r')" s c
  | .stateTr => stateLit 117 .stateTru "in literal true (expecting 'u')" s c
  | .stateTru => stateLit 101 .stateEndValue "in literal true (expecting 'e')" s c
  | .stateF => stateLit 97 .stateFa "in literal false (expecting 'a')" s c
  | .stateFa => stateLit 108 .stateFal "in literal false (expecting 'l')" s c
  | .stateFal => stateLit 115 .stateFals "in literal false (expecting 's')" s c
  | .stateFals => stateLit 101 .stateEndValue "in literal false (expecting 'e')" s c
  | .stateN => stateLit 117 .stateNu "in literal null (expecting 'u')" s c
  | .stateNu => stateLit 108 .stateNul "in literal null (expecting 'l')" s c
  | .stateNul => stateLit 108 .stateEndValue "in literal null (expecting 'l')" s c
  | .stateError => s

/-- The method `eof`: `none` when the input ended on a complete top-level value, the syntax
error otherwise. -/
def Scanner.eof (s : Scanner) : Option String :=
  match s.err with
  | some e => some e
  | none =>
    if s.endTop then none
    else
      let s1 := s.stepByte 32
      if s1.endTop then none
      else
        match s1.err with
        | some e => some e
        | none => some "unexpected end of JSON input"

/-- `checkValid(data, scan)`: `none` for valid JSON, the message of the `*SyntaxError`
otherwise. Once an error is recorded the scanner stays in `stateError`, so feeding the remaining
bytes changes nothing and the error is read after the loop. -/
def checkValid (data : Bytes) : Option String :=
  (data.foldl Scanner.stepByte Scanner.reset).eof

/-! ## encoding/json: values and the decoder's walk over the input

The decoder of `decode.go` walks the validated bytes once more; `parseValue` is that walk,
producing the tree of values it meets. String contents are unquoted on the way
(`unquoteBytes`), number literals are kept as text. -/

/-- A JSON value as the decoder meets it. -/
inductive JSON where
  | null
  | bool (b : Bool)
  | num (lit : List Char)
  | str (s : Bytes)
  | arr (xs : List JSON)
  | obj (ms : List (Bytes × JSON))

/-- Bytes of a string constant (ASCII constants only are used). -/
def strBytes (s : String) : Bytes := s.toList.map Char.toNat

/-- Skip white space, as `d.scanWhile(scanSkipSpace)` does. -/
def dropSpace : Bytes → Bytes
  | [] => []
  | c :: r => if isSpace c then dropSpace r else c :: r

/-- The string case of `rescanLiteral`, after the opening quote: the raw bytes up to the closing
quote (a backslash takes the next byte with it) and the bytes after the quote. -/
def scanString : Bytes → Option (Bytes × Bytes)
  | [] => none
  | c :: r =>
    if c = 34 then some ([], r)
    else if c = 92 then
      match r with
      | [] => none
      | e :: r1 => (scanString r1).map (fun p => (92 :: e :: p.1, p.2))
    else (scanString r).map (fun p => (c :: p.1, p.2))

/-- The bytes a number literal is made of: digits, `.`, `e`, `E`, `+`, `-`. -/
def isNumByte (c : Nat) : Bool :=
  isDigitByte c || c = 46 || c = 101 || c = 69 || c = 43 || c = 45

/-- The number case of `rescanLiteral`: the longest run of number bytes, and what follows. -/
def scanNumber : Bytes → Bytes × Bytes
  | [] => ([], [])
  | c :: r =>
    if isNumByte c then
      let p := scanNumber r
      (c :: p.1, p.2)
    else ([], c :: r)

/-- A continuation byte of UTF-8. -/
def isCont (b : Nat) : Bool := 128 ≤ b && b ≤ 191

/-- Size of the well-formed UTF-8 sequence at the head of `s`, or 0 when `utf8.DecodeRune` would
report `(RuneError, 1)`. -/
def utf8Size : Bytes → Nat
  | [] => 0
  | b0 :: r =>
    if b0 < 128 then 1
    else if 194 ≤ b0 ∧ b0 ≤ 223 then
      match r with
      | b1 :: _ => if isCont b1 then 2 else 0
      | _ => 0
    else if 224 ≤ b0 ∧ b0 ≤ 239 then
      match r with
      | b1 :: b2 :: _ =>
        let lo := if b0 = 224 then 160 else 128
        let hi := if b0 = 237 then 159 else 191
        if lo ≤ b1 ∧ b1 ≤ hi ∧ isCont b2 then 3 else 0
      | _ => 0
    else if 240 ≤ b0 ∧ b0 ≤ 244 then
      match r with
      | b1 :: b2 :: b3 :: _ =>
        let lo := if b0 = 240 then 144 else 128
        let hi := if b0 = 244 then 143 else 191
        if lo ≤ b1 ∧ b1 ≤ hi ∧ isCont b2 ∧ isCont b3 then 4 else 0
      | _ => 0
    else 0

/-- `utf8.EncodeRune` for a rune that is not a surrogate. -/
def encodeRune (r : Nat) : Bytes :=
  if r < 128 then [r]
  else if r < 2048 then [192 + r / 64, 128 + r % 64]
  else if r < 65536 then [224 + r / 4096, 128 + r / 64 % 64, 128 + r % 64]
  else [240 + r / 262144, 128 + r / 4096 % 64, 128 + r / 64 % 64, 128 + r % 64]

/-- Value of a hexadecimal digit byte. -/
def hexVal (c : Nat) : Option Nat :=
  if 48 ≤ c ∧ c ≤ 57 then some (c - 48)
  else if 97 ≤ c ∧ c ≤ 102 then some (c - 97 + 10)
  else if 65 ≤ c ∧ c ≤ 70 then some (c - 65 + 10)
  else none

/-- `getu4`: the rune of a leading `\uXXXX`, or `none` (Go returns -1). -/
def getu4 : Bytes → Option Nat
  | 92 :: 117 :: a :: b :: c :: d :: _ =>
    match hexVal a, hexVal b, hexVal c, hexVal d with
    | some a, some b, some c, some d => some (((a * 16 + b) * 16 + c) * 16 + d)
    | _, _, _, _ => none
  | _ => none

/-- The bytes U+FFFD is encoded as. -/
def replacementChar : Bytes := [239, 191, 189]

/-- The loop of `unquoteBytes` over the bytes between the quotes: escapes are resolved, a
surrogate pair of `\u` escapes becomes one rune, a lone surrogate and every malformed UTF-8 byte
become U+FFFD. `none` is the `ok = false` return. -/
def unquoteLoop : Nat → Bytes → Option Bytes
  | 0, s => if s = [] then some [] else none
  | _ + 1, [] => some []
  | fuel + 1, c :: r =>
    if c = 92 then
      match r with
      | [] => none
      | e :: r1 =>
        if e = 34 ∨ e = 92 ∨ e = 47 ∨ e = 39 then (unquoteLoop fuel r1).map (e :: ·)
        else if e = 98 then (unquoteLoop fuel r1).map (8 :: ·)
        else if e = 102 then (unquoteLoop fuel r1).map (12 :: ·)
        else if e = 110 then (unquoteLoop fuel r1).map (10 :: ·)
        else if e = 114 then (unquoteLoop fuel r1).map (13 :: ·)
        else if e = 116 then (unquoteLoop fuel r1).map (9 :: ·)
        else if e = 117 then
          match getu4 (c :: r) with
          | none => none
          | some rr =>
            let r6 := r.drop 5
            if 55296 ≤ rr ∧ rr < 57344 then
              match getu4 r6 with
              | some rr1 =>
                if rr < 56320 ∧ 56320 ≤ rr1 ∧ rr1 < 57344 then
                  (unquoteLoop fuel (r6.drop 6)).map
                    (encodeRune ((rr - 55296) * 1024 + (rr1 - 56320) + 65536) ++ ·)
                else (unquoteLoop fuel r6).map (replacementChar ++ ·)
              | none => (unquoteLoop fuel r6).map (replacementChar ++ ·)
            else (unquoteLoop fuel r6).map (encodeRune rr ++ ·)
        else none
    else if c = 34 ∨ c < 32 then none
    else if c < 128 then (unquoteLoop fuel r).map (c :: ·)
    else
      let n := utf8Size (c :: r)
      if n = 0 then (unquoteLoop fuel r).map (replacementChar ++ ·)
      else (unquoteLoop fuel ((c :: r).drop n)).map ((c :: r).take n ++ ·)

/-- `unquoteBytes` applied to a quoted literal whose content (without the quotes) is `raw`. -/
def unquoteBytes (raw : Bytes) : Option Bytes := unquoteLoop raw.length raw

mutual
/-- The method `value` of the decoder, as a reader: the next value and the bytes after it. -/
def parseValue : Nat → Bytes → Option (JSON × Bytes)
  | 0, _ => none
  | fuel + 1, data =>
    match dropSpace data with
    | [] => none
    | c :: r =>
      if c = 123 then
        match parseMembers fuel r [] with
        | some (ms, r1) => some (.obj ms, r1)
        | none => none
      else if c = 91 then
        match parseElems fuel r [] with
        | some (xs, r1) => some (.arr xs, r1)
        | none => none
      else if c = 34 then
        match scanString r with
        | some (raw, r1) =>
          match unquoteBytes raw with
          | some s => some (.str s, r1)
          | none => none
        | none => none
      else if c = 116 then some (.bool true, r.drop 3)
      else if c = 102 then some (.bool false, r.drop 4)
      else if c = 110 then some (.null, r.drop 3)
      else if c = 45 ∨ isDigitByte c then
        let p := scanNumber (c :: r)
        some (.num (p.1.map Char.ofNat), p.2)
      else none
/-- The loop of the method `array`: the elements up to the closing bracket. -/
def parseElems : Nat → Bytes → List JSON → Option (List JSON × Bytes)
  | 0, _, _ => none
  | fuel + 1, data, acc =>
    match dropSpace data with
    | 93 :: r => some (acc.reverse, r)
    | d =>
      match parseValue fuel d with
      | none => none
      | some (x, r) =>
        match dropSpace r with
        | 44 :: r1 => parseElems fuel r1 (x :: acc)
        | 93 :: r1 => some ((x :: acc).reverse, r1)
        | _ => none
/-- The loop of the method `object`: the members up to the closing brace. -/
def parseMembers : Nat → Bytes → List (Bytes × JSON) → Option (List (Bytes × JSON) × Bytes)
  | 0, _, _ => none
  | fuel + 1, data, acc =>
    match dropSpace data with
    | 125 :: r => some (acc.reverse, r)
    | 34 :: d =>
      match scanString d with
      | none => none
      | some (raw, r) =>
        match unquoteBytes raw with
        | none => none
        | some key =>
          match dropSpace r with
          | 58 :: r1 =>
            match parseValue fuel r1 with
            | none => none
            | some (x, r2) =>
              match dropSpace r2 with
              | 44 :: r3 => parseMembers fuel r3 ((key, x) :: acc)
              | 125 :: r3 => some (((key, x) :: acc).reverse, r3)
              | _ => none
          | _ => none
    | _ => none
end

/-- The top-level value of a document. -/
def parseDocument (data : Bytes) : Option JSON :=
  (parseValue (2 * data.length + 2) data).map Prod.fst

/-! ## The data model of `airzombie.go` -/

/-- A Go slice: `elems` is `s[0:len(s)]`; `spare` is what the backing array holds behind the
length (`s[len(s):cap(s)]`, as far as it was ever written). Only the decoder can see `spare`:
it decodes into the backing array without clearing it. -/
structure Slice (α : Type) where
  elems : List α
  spare : List α

/-- The nil slice. -/
def Slice.nil {α : Type} : Slice α := { elems := [], spare := [] }

/-- A value of type `interface{}` as `encoding/json` produces it: `nil`, `bool`, `float64`,
`string`, `[]interface{}` or `map[string]interface{}` (keys in order of first insertion). -/
inductive Iface where
  | nil
  | bool (b : Bool)
  | float64 (f : F64)
  | string (s : Bytes)
  | slice (xs : List Iface)
  | map (ms : List (Bytes × Iface))

/-- The element type of `AirzoneSystem.Data`. -/
structure Zone where
  SystemID : Int
  ZoneID : Int
  Name : Bytes
  On : Int
  MaxTemp : F64
  MinTemp : F64
  Setpoint : F64
  RoomTemp : F64
  ColdStages : Int
  ColdStage : Int
  HeatStages : Int
  HeatStage : Int
  Humidity : Int
  Speed : Int
  Units : Int
  Errors : Slice Iface
  Modes : Slice Int
  Mode : Int

/-- The zero value of the element type. -/
def Zone.zero : Zone :=
  { SystemID := 0, ZoneID := 0, Name := [], On := 0, MaxTemp := F64.zero, MinTemp := F64.zero,
    Setpoint := F64.zero, RoomTemp := F64.zero, ColdStages := 0, ColdStage := 0, HeatStages := 0,
    HeatStage := 0, Humidity := 0, Speed := 0, Units := 0, Errors := Slice.nil,
    Modes := Slice.nil, Mode := 0 }

/-- The type `AirzoneSystem`. -/
structure AirzoneSystem where
  Data : Slice Zone

/-- The composite literal `AirzoneSystem{}`. -/
def AirzoneSystem.zero : AirzoneSystem := { Data := Slice.nil }

/-! ## encoding/json: storing values into the Go types -/

/-- A `*json.UnmarshalTypeError`: the description of the JSON value and the Go type it could not
be stored in (the anonymous struct type is abbreviated). -/
structure UnmarshalTypeError where
  value : String
  goType : String
  deriving DecidableEq, Repr

/-- The error returned by `json.Unmarshal`. -/
inductive JsonError where
  | syntaxError (msg : String)
  | typeError (e : UnmarshalTypeError)
  deriving DecidableEq, Repr

/-- The decoder's `savedError`. -/
abbrev Saved := Option UnmarshalTypeError

/-- The method `saveError`: only the first error is kept. -/
def saveError (sv : Saved) (e : UnmarshalTypeError) : Saved :=
  match sv with
  | some e0 => some e0
  | none => some e

/-- The assignment `m[key] = v` on a map kept as an association list. -/
def mapPut (k : Bytes) (v : Iface) : List (Bytes × Iface) → List (Bytes × Iface)
  | [] => [(k, v)]
  | (k1, v1) :: ms => if k1 = k then (k1, v) :: ms else (k1, v1) :: mapPut k v ms

mutual
/-- The method `valueInterface`: a JSON value as an `interface{}`. A number that
`convertNumber` cannot turn into a `float64` is saved as an error and becomes `nil`. -/
def valueInterface : JSON → Saved → Iface × Saved
  | .null, sv => (.nil, sv)
  | .bool b, sv => (.bool b, sv)
  | .num lit, sv =>
    match ParseFloat lit with
    | .ok f => (.float64 f, sv)
    | .error _ => (.nil, saveError sv ⟨"number " ++ String.mk lit, "float64"⟩)
  | .str s, sv => (.string s, sv)
  | .arr xs, sv => let r := arrayInterface xs sv; (.slice r.1, r.2)
  | .obj ms, sv => let r := objectInterface ms sv []; (.map r.1, r.2)
/-- The method `arrayInterface`. -/
def arrayInterface : List JSON → Saved → List Iface × Saved
  | [], sv => ([], sv)
  | x :: xs, sv =>
    let a := valueInterface x sv
    let b := arrayInterface xs a.2
    (a.1 :: b.1, b.2)
/-- The method `objectInterface`; `acc` is the map filled so far. -/
def objectInterface : List (Bytes × JSON) → Saved → List (Bytes × Iface) →
    List (Bytes × Iface) × Saved
  | [], sv, acc => (acc, sv)
  | (k, x) :: ms, sv, acc =>
    let a := valueInterface x sv
    objectInterface ms a.2 (mapPut k a.1 acc)
end

/-- Storing a value in a field of kind `int`. `null` leaves it as it is; a number is parsed by
`strconv.ParseInt`; anything else is a type error and leaves it as it is. -/
def storeInt (j : JSON) (cur : Int) (sv : Saved) : Int × Saved :=
  match j with
  | .null => (cur, sv)
  | .num lit =>
    match ParseInt lit with
    | .ok n => (n, sv)
    | .error _ => (cur, saveError sv ⟨"number " ++ String.mk lit, "int"⟩)
  | .bool _ => (cur, saveError sv ⟨"bool", "int"⟩)
  | .str _ => (cur, saveError sv ⟨"string", "int"⟩)
  | .arr _ => (cur, saveError sv ⟨"array", "int"⟩)
  | .obj _ => (cur, saveError sv ⟨"object", "int"⟩)

/-- Storing a value in a field of kind `float64`. -/
def storeFloat (j : JSON) (cur : F64) (sv : Saved) : F64 × Saved :=
  match j with
  | .null => (cur, sv)
  | .num lit =>
    match ParseFloat lit with
    | .ok f => (f, sv)
    | .error _ => (cur, saveError sv ⟨"number " ++ String.mk lit, "float64"⟩)
  | .bool _ => (cur, saveError sv ⟨"bool", "float64"⟩)
  | .str _ => (cur, saveError sv ⟨"string", "float64"⟩)
  | .arr _ => (cur, saveError sv ⟨"array", "float64"⟩)
  | .obj _ => (cur, saveError sv ⟨"object", "float64"⟩)

/-- Storing a value in a field of kind `string`. -/
def storeString (j : JSON) (cur : Bytes) (sv : Saved) : Bytes × Saved :=
  match j with
  | .null => (cur, sv)
  | .str s => (s, sv)
  | .num _ => (cur, saveError sv ⟨"number", "string"⟩)
  | .bool _ => (cur, saveError sv ⟨"bool", "string"⟩)
  | .arr _ => (cur, saveError sv ⟨"array", "string"⟩)
  | .obj _ => (cur, saveError sv ⟨"object", "string"⟩)

/-- Storing a value in an element of a `[]interface{}`. A literal goes through `literalStore`
(a number that does not convert is an error and leaves the element), arrays and objects through
`arrayInterface` and `objectInterface`. -/
def storeIface (j : JSON) (cur : Iface) (sv : Saved) : Iface × Saved :=
  match j with
  | .num lit =>
    match ParseFloat lit with
    | .ok f => (.float64 f, sv)
    | .error _ => (cur, saveError sv ⟨"number " ++ String.mk lit, "float64"⟩)
  | _ => valueInterface j sv

/-- The loop of the method `array` on a slice: element `i` is decoded into slot `i` of the
backing array (a slot never written holds the zero value). Returns the decoded elements, what is
left of the backing array behind them, and the saved error. -/
def storeElems {α : Type} (store : JSON → α → Saved → α × Saved) (zero : α) :
    List JSON → List α → Saved → List α × List α × Saved
  | [], backing, sv => ([], backing, sv)
  | x :: xs, backing, sv =>
    let r := store x (backing.headD zero) sv
    let rest := storeElems store zero xs backing.tail r.2
    (r.1 :: rest.1, rest.2.1, rest.2.2)

/-- Storing a value in a slice whose elements are stored by `store`: an array fills the slice
(the empty array gives a fresh empty slice), `null` gives the nil slice, anything else is a
type error. -/
def storeSlice {α : Type} (store : JSON → α → Saved → α × Saved) (zero : α) (ty : String)
    (j : JSON) (cur : Slice α) (sv : Saved) : Slice α × Saved :=
  match j with
  | .null => (Slice.nil, sv)
  | .arr [] => (Slice.nil, sv)
  | .arr xs =>
    let r := storeElems store zero xs (cur.elems ++ cur.spare) sv
    ({ elems := r.1, spare := r.2.1 }, r.2.2)
  | .num _ => (cur, saveError sv ⟨"number", ty⟩)
  | .bool _ => (cur, saveError sv ⟨"bool", ty⟩)
  | .str _ => (cur, saveError sv ⟨"string", ty⟩)
  | .obj _ => (cur, saveError sv ⟨"object", ty⟩)

/-- `foldName`, as far as names made of ASCII letters are concerned: ASCII letters are
upper-cased, U+017F (long s) folds to `S` and U+212A (Kelvin sign) to `K`. Every other
multi-byte rune folds to a rune outside ASCII; its bytes are kept here, which are outside ASCII
as well, so equality with the folded name of a struct field is decided the same way. -/
def foldName : Bytes → Bytes
  | [] => []
  | 197 :: 191 :: r => 83 :: foldName r
  | 226 :: 132 :: 170 :: r => 75 :: foldName r
  | c :: r => (if 97 ≤ c ∧ c ≤ 122 then c - 32 else c) :: foldName r

/-- The struct fields of the element type, in declaration order. -/
inductive ZField where
  | SystemID | ZoneID | Name | On | MaxTemp | MinTemp | Setpoint | RoomTemp
  | ColdStages | ColdStage | HeatStages | HeatStage | Humidity | Speed | Units
  | Errors | Modes | Mode
  deriving DecidableEq, Repr

/-- The JSON name of each field, from its `json:"..."` tag. -/
def ZField.name : ZField → String
  | .SystemID => "systemID"
  | .ZoneID => "zoneID"
  | .Name => "name"
  | .On => "on"
  | .MaxTemp => "maxTemp"
  | .MinTemp => "minTemp"
  | .Setpoint => "setpoint"
  | .RoomTemp => "roomTemp"
  | .ColdStages => "coldStages"
  | .ColdStage => "coldStage"
  | .HeatStages => "heatStages"
  | .HeatStage => "heatStage"
  | .Humidity => "humidity"
  | .Speed => "speed"
  | .Units => "units"
  | .Errors => "errors"
  | .Modes => "modes"
  | .Mode => "mode"

/-- The cached field list of the element type. -/
def zoneFields : List ZField :=
  [.SystemID, .ZoneID, .Name, .On, .MaxTemp, .MinTemp, .Setpoint, .RoomTemp, .ColdStages,
   .ColdStage, .HeatStages, .HeatStage, .Humidity, .Speed, .Units, .Errors, .Modes, .Mode]

/-- The field an object key selects: the field with exactly that name, else the field whose
folded name equals the folded key. -/
def matchZoneField (key : Bytes) : Option ZField :=
  match zoneFields.find? (fun f => strBytes f.name = key) with
  | some f => some f
  | none => zoneFields.find? (fun f => foldName (strBytes f.name) = foldName key)

/-- Does an object key select the field `Data` (tag `json:"data"`) of `AirzoneSystem`? -/
def matchesData (key : Bytes) : Bool :=
  strBytes "data" = key || foldName (strBytes "data") = foldName key

/-- Decoding a member value into the selected field of a zone. -/
def storeZoneField (f : ZField) (j : JSON) (z : Zone) (sv : Saved) : Zone × Saved :=
  match f with
  | .SystemID => let r := storeInt j z.SystemID sv; ({ z with SystemID := r.1 }, r.2)
  | .ZoneID => let r := storeInt j z.ZoneID sv; ({ z with ZoneID := r.1 }, r.2)
  | .Name => let r := storeString j z.Name sv; ({ z with Name := r.1 }, r.2)
  | .On => let r := storeInt j z.On sv; ({ z with On := r.1 }, r.2)
  | .MaxTemp => let r := storeFloat j z.MaxTemp sv; ({ z with MaxTemp := r.1 }, r.2)
  | .MinTemp => let r := storeFloat j z.MinTemp sv; ({ z with MinTemp := r.1 }, r.2)
  | .Setpoint => let r := storeFloat j z.Setpoint sv; ({ z with Setpoint := r.1 }, r.2)
  | .RoomTemp => let r := storeFloat j z.RoomTemp sv; ({ z with RoomTemp := r.1 }, r.2)
  | .ColdStages => let r := storeInt j z.ColdStages sv; ({ z with ColdStages := r.1 }, r.2)
  | .ColdStage => let r := storeInt j z.ColdStage sv; ({ z with ColdStage := r.1 }, r.2)
  | .HeatStages => let r := storeInt j z.HeatStages sv; ({ z with HeatStages := r.1 }, r.2)
  | .HeatStage => let r := storeInt j z.HeatStage sv; ({ z with HeatStage := r.1 }, r.2)
  | .Humidity => let r := storeInt j z.Humidity sv; ({ z with Humidity := r.1 }, r.2)
  | .Speed => let r := storeInt j z.Speed sv; ({ z with Speed := r.1 }, r.2)
  | .Units => let r := storeInt j z.Units sv; ({ z with Units := r.1 }, r.2)
  | .Errors =>
    let r := storeSlice storeIface Iface.nil "[]interface {}" j z.Errors sv
    ({ z with Errors := r.1 }, r.2)
  | .Modes =>
    let r := storeSlice storeInt 0 "[]int" j z.Modes sv
    ({ z with Modes := r.1 }, r.2)
  | .Mode => let r := storeInt j z.Mode sv; ({ z with Mode := r.1 }, r.2)

/-- One member of a zone object: stored in the field its key selects, skipped when the key
selects none. -/
def storeZoneMember (acc : Zone × Saved) (m : Bytes × JSON) : Zone × Saved :=
  match matchZoneField m.1 with
  | some f => storeZoneField f m.2 acc.1 acc.2
  | none => acc

/-- Storing a value in an element of `Data` (kind `struct`): the members of an object are
stored one after the other into the element as it is; `null` leaves it; anything else is a type
error. -/
def storeZone (j : JSON) (cur : Zone) (sv : Saved) : Zone × Saved :=
  match j with
  | .obj ms => ms.foldl storeZoneMember (cur, sv)
  | .null => (cur, sv)
  | .num _ => (cur, saveError sv ⟨"number", "struct"⟩)
  | .bool _ => (cur, saveError sv ⟨"bool", "struct"⟩)
  | .str _ => (cur, saveError sv ⟨"string", "struct"⟩)
  | .arr _ => (cur, saveError sv ⟨"array", "struct"⟩)

/-- One member of the top-level object. -/
def storeSystemMember (acc : AirzoneSystem × Saved) (m : Bytes × JSON) :
    AirzoneSystem × Saved :=
  if matchesData m.1 then
    let r := storeSlice storeZone Zone.zero "[]struct" m.2 acc.1.Data acc.2
    ({ Data := r.1 }, r.2)
  else acc

/-- Storing the top-level value in an `AirzoneSystem`. -/
def storeSystem (j : JSON) (cur : AirzoneSystem) (sv : Saved) : AirzoneSystem × Saved :=
  match j with
  | .obj ms => ms.foldl storeSystemMember (cur, sv)
  | .null => (cur, sv)
  | .num _ => (cur, saveError sv ⟨"number", "main.AirzoneSystem"⟩)
  | .bool _ => (cur, saveError sv ⟨"bool", "main.AirzoneSystem"⟩)
  | .str _ => (cur, saveError sv ⟨"string", "main.AirzoneSystem"⟩)
  | .arr _ => (cur, saveError sv ⟨"array", "main.AirzoneSystem"⟩)

/-- The outcome of `json.Unmarshal(data, &v)`: the value `v` holds afterwards and the error
returned, or the decoder's panic "JSON decoder out of sync" when its walk over validated input
fails. -/
inductive UnmarshalResult where
  | returned (v : AirzoneSystem) (err : Option JsonError)
  | phasePanic

/-- `json.Unmarshal(data, &v)` for `v` of type `AirzoneSystem`: a syntax error is returned before
anything is stored; otherwise the document is stored into `v` and the first type error met, if
any, is returned. -/
def Unmarshal (data : Bytes) (v : AirzoneSystem) : UnmarshalResult :=
  match checkValid data with
  | some msg => .returned v (some (.syntaxError msg))
  | none =>
    match parseDocument data with
    | none => .phasePanic
    | some j =>
      let r := storeSystem j v none
      .returned r.1 (r.2.map JsonError.typeError)

/-! ## The world around the program -/

/-- The package-level variables `parseArgs` fills from the command line. -/
structure Config where
  influxURL : String
  influxDB : String
  influxUSER : String
  influxPASS : String
  airzoneIP : String
  cnfLogfile : String
  cnfDaemon : Bool
  deriving DecidableEq, Repr

/-- A `*os.File` the program writes to: `os.Stdout`, or the file `os.OpenFile` returned. -/
inductive File where
  | stdout
  | opened (path : String)
  deriving DecidableEq, Repr

/-- A value of a field map passed to `client.NewPoint`. -/
inductive FieldValue where
  | float (f : F64)
  | int (n : Int)
  deriving DecidableEq, Repr

/-- A `*client.Point`: the four arguments `client.NewPoint` was given. The maps are kept as
lists of key/value pairs in the order of the map literal. The time is in nanoseconds since the
Unix epoch. -/
structure Point where
  name : String
  tags : List (String × String)
  fields : List (String × FieldValue)
  time : Nat
  deriving DecidableEq, Repr

/-- A `client.BatchPoints`: its configuration and the points added so far, in order. -/
structure BatchPoints where
  database : String
  precision : String
  points : List Point
  deriving DecidableEq, Repr

/-- The method `AddPoint`. -/
def BatchPoints.AddPoint (bp : BatchPoints) (p : Point) : BatchPoints :=
  { bp with points := bp.points ++ [p] }

/-- A `client.HTTPConfig`; the timeout is in seconds. -/
structure HTTPConfig where
  Addr : String
  Username : String
  Password : String
  Timeout : Nat
  deriving DecidableEq, Repr

/-- A `client.BatchPointsConfig`. -/
structure BatchPointsConfig where
  Database : String
  Precision : String
  deriving DecidableEq, Repr

/-- An operand of a formatted print. -/
inductive Arg where
  | str (s : String)
  | int (n : Int)
  | time (t : Nat)
  | err (msg : String)
  | jsonErr (e : JsonError)
  | point (p : Point)
  deriving DecidableEq, Repr

/-- A format string: a constant, possibly with bytes read from the device appended to it. -/
structure Format where
  text : String
  appended : Bytes
  deriving DecidableEq, Repr

/-- The calls the program makes into its libraries, as they appear in the trace. Calls of
`time.Now` are counted in the `World` instead; conversions such as `strconv.Itoa` are not
recorded. -/
inductive Event where
  | fprintf (dst : File) (format : Format) (args : List Arg)
  | openFile (path : String)
  | newRequest (url : String) (body : Bytes)
  | httpDo (url : String) (userAgent : String)
  | readAll
  | unmarshal (body : Bytes)
  | newHTTPClient (conf : HTTPConfig)
  | newBatchPoints (conf : BatchPointsConfig)
  | newPoint (name : String) (tags : List (String × String))
      (fields : List (String × FieldValue)) (time : Nat)
  | write (bp : BatchPoints)
  | close
  | sleep (seconds : Nat)
  deriving DecidableEq, Repr

/-- The state the program runs in: how often the clock was read, the package-level variable
`logfile`, and the calls made so far (oldest first). -/
structure World where
  reads : Nat
  logfile : File
  trace : List Event
  deriving DecidableEq, Repr

/-- What the surroundings answer, whenever asked. Library functions that only inspect their
arguments are functions of these arguments; `none` stands for a nil error. -/
structure Env where
  /-- The value of the `n`-th call of `time.Now()` (counting from 0). -/
  now : Nat → Nat
  /-- The error of `os.OpenFile` on the log file when the clock has been read `n` times. -/
  openFile : Nat → Option String
  /-- The error of `http.NewRequest(http.MethodPost, url, ...)`. -/
  newRequest : String → Option String
  /-- The error of `client.NewHTTPClient(conf)`; the client returned with it is nil. -/
  newHTTPClient : HTTPConfig → Option String
  /-- The error of `client.NewBatchPoints(conf)`. -/
  newBatchPoints : BatchPointsConfig → Option String
  /-- The error of `client.NewPoint(name, tags, fields, t)`. -/
  newPoint : String → List (String × String) → List (String × FieldValue) → Nat → Option String

/-- What the network answers during one cycle. -/
structure Net where
  /-- The error of `spaceClient.Do(req)`. -/
  doResult : Option String
  /-- The result of `ioutil.ReadAll(resp.Body)`. -/
  readResult : Except String Bytes
  /-- The error of `c.Write(bp)`. -/
  writeResult : Option String

/-- How a function ends: it returns, or it panics (no function of the program recovers, so a
panic ends the process). -/
inductive Outcome where
  | ok (w : World)
  | panic (w : World) (msg : String)
  deriving DecidableEq, Repr

/-- Record a call. -/
def World.emit (w : World) (e : Event) : World := { w with trace := w.trace ++ [e] }

/-! ## `airzombie.go` -/

/-- The function `doLog`: reads the clock, switches `logfile` from standard output to the
configured file on first use (staying on standard output when the file cannot be opened), then
prints the time stamp and the formatted message to `logfile`. -/
def doLog (cfg : Config) (env : Env) (format : Format) (a : List Arg) (w : World) : World :=
  let t := env.now w.reads
  let w1 : World := { w with reads := w.reads + 1 }
  let w2 : World :=
    if cfg.cnfLogfile ≠ "" ∧ w1.logfile = File.stdout then
      let w3 := (w1.emit (.fprintf .stdout ⟨"INFO: Creating log file '%s'\n", []⟩
        [.str cfg.cnfLogfile])).emit (.openFile cfg.cnfLogfile)
      match env.openFile w1.reads with
      | some err =>
        (w3.emit (.fprintf .stdout
          ⟨"ERROR: Can't open log file '%s' for writing, logging to Stdout\n", []⟩
          [.str cfg.cnfLogfile])).emit (.fprintf .stdout ⟨"ERROR: %s\n", []⟩ [.err err])
      | none =>
        { w3.emit (.fprintf .stdout ⟨"INFO: log file '%s' is ready for writing\n", []⟩
            [.str cfg.cnfLogfile]) with logfile := File.opened cfg.cnfLogfile }
    else w1
  (w2.emit (.fprintf w2.logfile ⟨"%s ", []⟩ [.time t])).emit (.fprintf w2.logfile format a)

/-- The tag map built for a reading. -/
def pointTags (z : Zone) : List (String × String) :=
  [("systemid", Itoa z.SystemID), ("zoneid", Itoa z.ZoneID)]

/-- The field map built for a reading. -/
def pointFields (z : Zone) : List (String × FieldValue) :=
  [("roomtemp", .float z.RoomTemp), ("humidity", .int z.Humidity), ("setpoint", .float z.Setpoint)]

/-- The `for` loop of `pushInflux` over the readings still to do: `some bp` when every point was
built and added, `none` when `client.NewPoint` failed and the function returns. -/
def pushLoop (cfg : Config) (env : Env) : List Zone → BatchPoints → World →
    Option BatchPoints × World
  | [], bp, w => (some bp, w)
  | z :: zs, bp, w =>
    let tags := pointTags z
    let fields := pointFields z
    let t := env.now w.reads
    let w1 : World := { w with reads := w.reads + 1 }
    let w2 := w1.emit (.newPoint "metrics" tags fields t)
    match env.newPoint "metrics" tags fields t with
    | some err =>
      (none, doLog cfg env ⟨"ERROR: Can't create InfluxDB points: %s\n", []⟩ [.err err] w2)
    | none =>
      let pt : Point := { name := "metrics", tags := tags, fields := fields, time := t }
      let w3 := doLog cfg env ⟨"InfluxDB points %v\n", []⟩ [.point pt] w2
      pushLoop cfg env zs (bp.AddPoint pt) w3

/-- The function `pushInflux`. When `client.NewHTTPClient` fails the error is logged and
execution goes on to `defer c.Close()` with `c` nil, a nil dereference. On every return after
that statement the deferred `c.Close()` runs. -/
def pushInflux (cfg : Config) (env : Env) (net : Net) (az : AirzoneSystem) (w : World) :
    Outcome :=
  let w1 := doLog cfg env ⟨"pushInflux call\n", []⟩ [] w
  let conf : HTTPConfig :=
    { Addr := cfg.influxURL, Username := cfg.influxUSER, Password := cfg.influxPASS,
      Timeout := 10 }
  let w2 := w1.emit (.newHTTPClient conf)
  match env.newHTTPClient conf with
  | some err =>
    let w3 := doLog cfg env ⟨"ERROR: Can't create HTTP client to influxdb :%s\n", []⟩
      [.err err] w2
    .panic w3 "runtime error: invalid memory address or nil pointer dereference"
  | none =>
    let bconf : BatchPointsConfig := { Database := cfg.influxDB, Precision := "s" }
    let w3 := w2.emit (.newBatchPoints bconf)
    match env.newBatchPoints bconf with
    | some err =>
      .ok ((doLog cfg env ⟨"ERROR: Can't create batchpoint : %s\n", []⟩ [.err err] w3).emit
        .close)
    | none =>
      let bp : BatchPoints := { database := cfg.influxDB, precision := "s", points := [] }
      let w4 := doLog cfg env ⟨"Report contains %d zones\n", []⟩
        [.int az.Data.elems.length] w3
      match pushLoop cfg env az.Data.elems bp w4 with
      | (none, w5) => .ok (w5.emit .close)
      | (some bp1, w5) =>
        let w6 := w5.emit (.write bp1)
        match net.writeResult with
        | some err =>
          .ok ((doLog cfg env ⟨"ERROR: Can't send batch '%s'\n", []⟩ [.err err] w6).emit
            .close)
        | none => .ok ((doLog cfg env ⟨"Transmission OK\n", []⟩ [] w6).emit .close)

/-- The request body `airzoneWorker` marshals once: `json.Marshal` of the map
`systemid: 1, zoneid: 0` (keys in sorted order; marshalling this map cannot fail). -/
def pay : Bytes := strBytes "\x7b\"systemid\":1,\"zoneid\":0\x7d"

/-- The URL `airzoneWorker` posts to. -/
def url (cfg : Config) : String := "http://" ++ cfg.airzoneIP ++ ":3000/api/v1/hvac"

/-- The code at the label `end`: log the pause and sleep 60 seconds. -/
def cycleEnd (cfg : Config) (env : Env) (w : World) : Outcome :=
  .ok ((doLog cfg env ⟨"Pause for 60 sec\n", []⟩ [] w).emit (.sleep 60))

/-- One iteration of the `for` loop of `airzoneWorker`. -/
def airzoneCycle (cfg : Config) (env : Env) (net : Net) (w : World) : Outcome :=
  let w1 := doLog cfg env ⟨"Connecting Airzone interface\n", []⟩ [] w
  let w2 := w1.emit (.newRequest (url cfg) pay)
  match env.newRequest (url cfg) with
  | some err => cycleEnd cfg env (doLog cfg env ⟨"Error creating POST Request %s\n", []⟩
      [.err err] w2)
  | none =>
    let w3 := w2.emit (.httpDo (url cfg) "AirZombie")
    match net.doResult with
    | some err => cycleEnd cfg env (doLog cfg env ⟨"Error sending POST Request %s\n", []⟩
        [.err err] w3)
    | none =>
      let w4 := w3.emit .readAll
      match net.readResult with
      | .error err => cycleEnd cfg env (doLog cfg env ⟨"Error reading POST Request %s\n", []⟩
          [.err err] w4)
      | .ok body =>
        let w5 := doLog cfg env ⟨"Airzone Response", body⟩ [] w4
        let w6 := w5.emit (.unmarshal body)
        match Unmarshal body AirzoneSystem.zero with
        | .phasePanic => .panic w6 "JSON decoder out of sync - data changing underfoot?"
        | .returned _ (some err) =>
          cycleEnd cfg env (doLog cfg env ⟨"Error unmarshalling POST Response %s\n", []⟩
            [.jsonErr err] w6)
        | .returned airSystem none =>
          if airSystem.Data.elems.length > 0 then
            let w7 := doLog cfg env ⟨"# of zones found in answer: %d\n", []⟩
              [.int airSystem.Data.elems.length] w6
            match pushInflux cfg env net airSystem w7 with
            | .ok w8 => cycleEnd cfg env w8
            | .panic w8 msg => .panic w8 msg
          else
            cycleEnd cfg env (doLog cfg env ⟨"Json answer Data structure is empty", []⟩ [] w6)

/-- The function `airzoneWorker`, observed for `n` iterations of its endless loop, the first of
which is cycle number `k`; `nets k` is what the network answers during cycle `k`. The result
`ok w` means that these iterations completed and the loop is entering the next one. -/
def airzoneWorker (cfg : Config) (env : Env) (nets : Nat → Net) : Nat → Nat → World → Outcome
  | 0, _, w => .ok w
  | n + 1, k, w =>
    match airzoneCycle cfg env (nets k) w with
    | .ok w1 => airzoneWorker cfg env nets n (k + 1) w1
    | .panic w1 msg => .panic w1 msg

/-- The function `parseArgs`, after `flag.Parse()` has filled the configuration. -/
def parseArgs (cfg : Config) (env : Env) (w : World) : World :=
  doLog cfg env ⟨"- Airzone IP: %s\n", []⟩ [.str cfg.airzoneIP]
    (doLog cfg env ⟨"Config:\n  - InfluxDB backend: Url:%s Db:%s\n", []⟩
      [.str cfg.influxURL, .str cfg.influxDB] w)

/-- The function `main`, observed for `n` iterations of the worker's loop. -/
def main (cfg : Config) (env : Env) (nets : Nat → Net) (n : Nat) : Outcome :=
  let w0 : World := { reads := 0, logfile := File.stdout, trace := [] }
  let w1 := parseArgs cfg env w0
  let w2 := doLog cfg env ⟨"Starting Airzombie Gateway \n", []⟩ [] w1
  airzoneWorker cfg env nets n 0 w2

/-! ## Reading a trace -/

/-- The batches handed to `c.Write`, in order. -/
def writes : List Event → List BatchPoints
  | [] => []
  | .write bp :: es => bp :: writes es
  | _ :: es => writes es

/-- The durations slept, in order. -/
def sleeps : List Event → List Nat
  | [] => []
  | .sleep s :: es => s :: sleeps es
  | _ :: es => sleeps es

/-- The bodies handed to `json.Unmarshal`, in order. -/
def unmarshals : List Event → List Bytes
  | [] => []
  | .unmarshal b :: es => b :: unmarshals es
  | _ :: es => unmarshals es

/-- Is the event a call into the InfluxDB client library? `pushInflux` is the only function
that makes such calls. -/
def Event.isInflux : Event → Bool
  | .newHTTPClient _ => true
  | .newBatchPoints _ => true
  | .newPoint _ _ _ _ => true
  | .write _ => true
  | .close => true
  | _ => false

/-- The calls into the InfluxDB client library, in order. -/
def influxCalls : List Event → List Event
  | [] => []
  | e :: es => if e.isInflux then e :: influxCalls es else influxCalls es

/-- Was a message with the constant format `text` printed? -/
def logged (text : String) : List Event → Bool
  | [] => false
  | .fprintf _ f _ :: es => f.text = text || logged text es
  | _ :: es => logged text es

/-- The formats `doLog` prints on its own account. -/
def doLogTexts : List String :=
  ["%s ", "INFO: Creating log file '%s'\n",
   "ERROR: Can't open log file '%s' for writing, logging to Stdout\n", "ERROR: %s\n",
   "INFO: log file '%s' is ready for writing\n"]

/-- Does acquisition fail in a cycle: creating the request, sending it (time-out included), or
reading the body returns an error. -/
def acquisitionFails (cfg : Config) (env : Env) (net : Net) : Prop :=
  env.newRequest (url cfg) ≠ none ∨ net.doResult ≠ none ∨ ∃ e, net.readResult = .error e

/-- What `doLog` prints before the time stamp when it is called in world `w`, and the value of
`logfile` afterwards. -/
def logPrelude (cfg : Config) (env : Env) (w : World) : List Event × File :=
  if cfg.cnfLogfile ≠ "" ∧ w.logfile = File.stdout then
    match env.openFile (w.reads + 1) with
    | some err =>
      ([.fprintf .stdout ⟨"INFO: Creating log file '%s'\n", []⟩ [.str cfg.cnfLogfile],
        .openFile cfg.cnfLogfile,
        .fprintf .stdout ⟨"ERROR: Can't open log file '%s' for writing, logging to Stdout\n", []⟩
          [.str cfg.cnfLogfile],
        .fprintf .stdout ⟨"ERROR: %s\n", []⟩ [.err err]], File.stdout)
    | none =>
      ([.fprintf .stdout ⟨"INFO: Creating log file '%s'\n", []⟩ [.str cfg.cnfLogfile],
        .openFile cfg.cnfLogfile,
        .fprintf .stdout ⟨"INFO: log file '%s' is ready for writing\n", []⟩
          [.str cfg.cnfLogfile]], File.opened cfg.cnfLogfile)
  else ([], w.logfile)

/-- Everything one call of `doLog` adds to the trace. -/
def doLogEvents (cfg : Config) (env : Env) (f : Format) (a : List Arg) (w : World) :
    List Event :=
  (logPrelude cfg env w).1 ++
    [.fprintf (logPrelude cfg env w).2 ⟨"%s ", []⟩ [.time (env.now w.reads)],
     .fprintf (logPrelude cfg env w).2 f a]

/-- The points the loop of `pushInflux` builds for the readings `zs` when every
`client.NewPoint` succeeds and the clock has been read `r` times before the first of them: each
point takes one clock read, and the `doLog` that follows it takes another. -/
def pointsFrom (env : Env) : Nat → List Zone → List Point
  | _, [] => []
  | r, z :: zs =>
    { name := "metrics", tags := pointTags z, fields := pointFields z, time := env.now r } ::
      pointsFrom env (r + 2) zs

/-! ## Device payloads, as the interface description gives them

The response of the device is a JSON object with the key `data`: an array of zone objects whose
fields are integers, floats, strings and arrays as named in the field table. The definitions
below say which documents these are and which Go value each field of a zone object gives; they
are used to state what decoding does, not by the program. -/

/-- A Go value of one of the field types of a zone. -/
inductive ZValue where
  | int (n : Int)
  | float (f : F64)
  | string (s : Bytes)
  | ifaces (xs : List Iface)
  | ints (xs : List Int)

/-- The value of a field of a reading (for the two slices: their elements). -/
def Zone.get (z : Zone) : ZField → ZValue
  | .SystemID => .int z.SystemID
  | .ZoneID => .int z.ZoneID
  | .Name => .string z.Name
  | .On => .int z.On
  | .MaxTemp => .float z.MaxTemp
  | .MinTemp => .float z.MinTemp
  | .Setpoint => .float z.Setpoint
  | .RoomTemp => .float z.RoomTemp
  | .ColdStages => .int z.ColdStages
  | .ColdStage => .int z.ColdStage
  | .HeatStages => .int z.HeatStages
  | .HeatStage => .int z.HeatStage
  | .Humidity => .int z.Humidity
  | .Speed => .int z.Speed
  | .Units => .int z.Units
  | .Errors => .ifaces z.Errors.elems
  | .Modes => .ints z.Modes.elems
  | .Mode => .int z.Mode

/-- The integer an integer literal gives. -/
def intOf : JSON → Option Int
  | .num lit =>
    match ParseInt lit with
    | .ok n => some n
    | .error _ => none
  | _ => none

/-- The `float64` a number literal gives. -/
def floatOf : JSON → Option F64
  | .num lit =>
    match ParseFloat lit with
    | .ok f => some f
    | .error _ => none
  | _ => none

/-- The `interface{}` value a JSON value gives, when all numbers in it are in range. -/
def ifaceOf (j : JSON) : Option Iface :=
  match valueInterface j none with
  | (v, none) => some v
  | (_, some _) => none

/-- The values the elements of an array give, when each of them gives one. -/
def allOf {α : Type} (f : JSON → Option α) : List JSON → Option (List α)
  | [] => some []
  | x :: xs =>
    match f x, allOf f xs with
    | some a, some as => some (a :: as)
    | _, _ => none

/-- The Go value a member value gives for the field `f`, when it has the type the field table
names: an integer, a float, a string, an array of arbitrary values, an array of integers. -/
def literalValue (f : ZField) (j : JSON) : Option ZValue :=
  match f with
  | .Name =>
    match j with
    | .str s => some (.string s)
    | _ => none
  | .MaxTemp | .MinTemp | .Setpoint | .RoomTemp => (floatOf j).map .float
  | .Errors =>
    match j with
    | .arr xs => (allOf ifaceOf xs).map .ifaces
    | _ => none
  | .Modes =>
    match j with
    | .arr xs => (allOf intOf xs).map .ints
    | _ => none
  | _ => (intOf j).map .int

/-- The member value a zone object gives for the field `f`, if it has a member of that name. -/
def given (ms : List (Bytes × JSON)) (f : ZField) : Option JSON :=
  match ms.find? (fun m => m.1 = strBytes f.name) with
  | some m => some m.2
  | none => none

/-- The value a reading decoded from the zone object `ms` is expected to have in field `f`: the
value given, or the zero value when the object has no such member. -/
def expected (ms : List (Bytes × JSON)) (f : ZField) : ZValue :=
  match given ms f with
  | some j =>
    match literalValue f j with
    | some v => v
    | none => Zone.zero.get f
  | none => Zone.zero.get f

/-- A zone object of a valid payload: keys are distinct; a member named after a field has a
value of that field's type; any other member has a key that counts as unknown. -/
def ValidZoneObject (unknown : Bytes → Prop) (ms : List (Bytes × JSON)) : Prop :=
  (ms.map Prod.fst).Nodup ∧
    ∀ m ∈ ms, (∃ f, m.1 = strBytes f.name ∧ (literalValue f m.2).isSome) ∨ unknown m.1

/-- A valid payload with the zone objects `zones`: an object with one member `data`, the array
of the zone objects, among members whose keys count as unknown. -/
def ValidPayload (unknownTop unknownZone : Bytes → Prop) (doc : JSON)
    (zones : List (List (Bytes × JSON))) : Prop :=
  ∃ pre post, doc = .obj (pre ++ (strBytes "data", .arr (zones.map JSON.obj)) :: post) ∧
    (∀ m ∈ pre, unknownTop m.1) ∧ (∀ m ∈ post, unknownTop m.1) ∧
    ∀ ms ∈ zones, ValidZoneObject unknownZone ms

/-- Unknown in the plain sense: the key is not the name of a field of a zone. -/
def notAZoneField (k : Bytes) : Prop := ∀ f : ZField, k ≠ strBytes f.name

/-- Unknown in the plain sense, at the top level: the key is not `data`. -/
def notData (k : Bytes) : Prop := k ≠ strBytes "data"

/-- Unknown to the decoder: the key selects no field of a zone, not even when letter case is
ignored. -/
def selectsNoZoneField (k : Bytes) : Prop := matchZoneField k = none

/-- Unknown to the decoder, at the top level: the key does not select `Data`. -/
def selectsNoData (k : Bytes) : Prop := matchesData k = false

/-! ## Sample surroundings, for concrete runs -/

/-- A configuration with every flag given and no log file. -/
def sampleCfg : Config :=
  { influxURL := "http://127.0.0.1:8086", influxDB := "airzone", influxUSER := "user",
    influxPASS := "secret", airzoneIP := "192.168.1.25", cnfLogfile := "", cnfDaemon := false }

/-- The scheme test of `client.NewHTTPClient`: an address that starts with neither `http://`
nor `https://` is refused. -/
def schemeCheck (conf : HTTPConfig) : Option String :=
  if "http://".data.isPrefixOf conf.Addr.data ∨ "https://".data.isPrefixOf conf.Addr.data then
    none
  else some "Unsupported protocol scheme: , your address must start with http:// or https://"

/-- Surroundings in which the clock advances by one second from one reading to the next,
`client.NewHTTPClient` applies its scheme test, and every other library call succeeds. -/
def sampleEnv : Env :=
  { now := fun n => 1700000000000000000 + n * 1000000000, openFile := fun _ => none,
    newRequest := fun _ => none, newHTTPClient := schemeCheck,
    newBatchPoints := fun _ => none, newPoint := fun _ _ _ _ => none }

/-- The configuration of a run without the flag `-influx_url`: the address is empty. -/
def noUrlCfg : Config := { sampleCfg with influxURL := "" }

/-- A network on which the device answers with `body` and InfluxDB accepts the write. -/
def replies (body : Bytes) : Net :=
  { doResult := none, readResult := .ok body, writeResult := none }

/-- A network on which the request to the device times out. -/
def timesOut : Net :=
  { doResult := some "context deadline exceeded (Client.Timeout exceeded while awaiting headers)",
    readResult := .ok [], writeResult := none }

/-- The world at the start of `main`. -/
def startWorld : World := { reads := 0, logfile := File.stdout, trace := [] }

/-- The payload of the interface description's scenario: one zone. -/
def scenarioPayload : Bytes :=
  strBytes ("\x7b\"data\":[\x7b\"systemID\":1,\"zoneID\":0,\"on\":1,\"roomTemp\":21.5," ++
    "\"setpoint\":22.0,\"humidity\":45\x7d]\x7d")

/-- The scenario payload cut off after 60 of its 89 bytes. -/
def truncatedPayload : Bytes := scenarioPayload.take 60

/-- The payload with an empty `data` array. -/
def emptyDataPayload : Bytes := strBytes "\x7b\"data\":[]\x7d"

/-- The payload without a `data` key: the empty object. -/
def noDataPayload : Bytes := strBytes "\x7b\x7d"

/-- A payload whose zone object has, besides `systemID`, an extra member `SYSTEMID`. -/
def caseVariantPayload : Bytes :=
  strBytes "\x7b\"data\":[\x7b\"systemID\":1,\"SYSTEMID\":\"x\"\x7d]\x7d"

/-- A response with two readings. -/
def sampleSystem : AirzoneSystem :=
  { Data :=
      { elems :=
          [{ Zone.zero with SystemID := 1, ZoneID := 1, Humidity := 40 },
           { Zone.zero with SystemID := 1, ZoneID := 2, Humidity := 55 }],
        spare := [] } }

/-- The members of the zone object of the scenario payload. -/
def scenarioZone : List (Bytes × JSON) :=
  [(strBytes "systemID", .num ['1']), (strBytes "zoneID", .num ['0']),
   (strBytes "on", .num ['1']), (strBytes "roomTemp", .num ['2', '1', '.', '5']),
   (strBytes "setpoint", .num ['2', '2', '.', '0']), (strBytes "humidity", .num ['4', '5'])]

/-- The members of the zone object of `caseVariantPayload`. -/
def caseVariantZone : List (Bytes × JSON) :=
  [(strBytes "systemID", .num ['1']), (strBytes "SYSTEMID", .str (strBytes "x"))]

/-! ## Following the scanner -/

/-- The scanner after the bytes `xs`, started in `s`. -/
def run (s : Scanner) (xs : Bytes) : Scanner := xs.foldl Scanner.stepByte s

/-- The scanner has recorded a syntax error. -/
def Bad (s : Scanner) : Prop := s.step = .stateError ∧ s.err ≠ none

/-- The scanner, started in `s`, does not accept the input `data`. -/
def Rej (s : Scanner) (data : Bytes) : Prop := (run s data).eof ≠ none

/-- The scanner has just passed a complete value with the stack `σ` below it and `rest` still to
read: the next byte, and the space fed at the end of input, are handled by `stateEndValue`. -/
def PostValue (σ : List ParseState) (s : Scanner) (rest : Bytes) : Prop :=
  s.err = none ∧ s.parseState = σ ∧ (σ ≠ [] → s.endTop = false) ∧
    ∀ c, (rest.head? = some c ∨ c = 32) → s.stepByte c = stateEndValue s c

/-- What the decoder's walk and the scanner have to say about the same input: the scanner
rejects it, or the walk yields a value, having read a non-empty part `pre` of the input after
which the scanner has passed a complete value. -/
def Agree {α : Type} (σ : List ParseState) (s : Scanner) (data : Bytes)
    (res : Option (α × Bytes)) : Prop :=
  Rej s data ∨ ∃ j rest pre, res = some (j, rest) ∧ data = pre ++ rest ∧ pre ≠ [] ∧
    PostValue σ (run s pre) rest

/-- The raw content of a string literal the scanner lets through: no quote, no control byte, and
after a backslash one of the escape letters, or `u` and four hexadecimal digits. -/
def strValid : Bytes → Bool
  | [] => true
  | c :: r =>
    if c = 92 then
      match r with
      | [] => false
      | e :: r1 =>
        if e = 98 ∨ e = 102 ∨ e = 110 ∨ e = 114 ∨ e = 116 ∨ e = 92 ∨ e = 47 ∨ e = 34 then
          strValid r1
        else if e = 117 then
          match r1 with
          | a :: b :: c1 :: d :: r2 =>
            isHexByte a && isHexByte b && isHexByte c1 && isHexByte d && strValid r2
          | _ => false
        else false
    else if c = 34 ∨ c < 32 then false
    else strValid r

/-- The scanner state that expects `k` more hexadecimal digits of a `\u` escape. -/
def hexState : Nat → ScanStep
  | 0 => .stateInString
  | 1 => .stateInStringEscU123
  | 2 => .stateInStringEscU12
  | 3 => .stateInStringEscU1
  | _ => .stateInStringEscU

/-- The scanner states inside a number literal. -/
def isNumState : ScanStep → Bool
  | .stateNeg | .state0 | .state1 | .stateDot | .stateDot0 | .stateE | .stateESign
  | .stateE0 => true
  | _ => false

/-- The scanner states in which a number literal may end. -/
def isNumDone : ScanStep → Bool
  | .state0 | .state1 | .stateDot0 | .stateE0 => true
  | _ => false

/-- What a step inside a number literal keeps: no error, the same stack and flag. -/
def NumKeeps (s t : Scanner) : Prop :=
  isNumState t.step = true ∧ t.err = none ∧ t.parseState = s.parseState ∧ t.endTop = s.endTop

/-- The byte a state inside a literal name waits for, and the state after it. -/
def litNext : ScanStep → Nat × ScanStep
  | .stateT => (114, .stateTr)
  | .stateTr => (117, .stateTru)
  | .stateTru => (101, .stateEndValue)
  | .stateF => (97, .stateFa)
  | .stateFa => (108, .stateFal)
  | .stateFal => (115, .stateFals)
  | .stateFals => (101, .stateEndValue)
  | .stateN => (117, .stateNu)
  | .stateNu => (108, .stateNul)
  | .stateNul => (108, .stateEndValue)
  | q => (0, q)

/-- The number of bytes a state inside a literal name still waits for. -/
def litLeft : ScanStep → Nat
  | .stateT => 3
  | .stateTr => 2
  | .stateTru => 1
  | .stateF => 4
  | .stateFa => 3
  | .stateFal => 2
  | .stateFals => 1
  | .stateN => 3
  | .stateNu => 2
  | .stateNul => 1
  | _ => 0

/-- The scanner is about to read a value. -/
def ValueStart (s : Scanner) : Prop :=
  s.err = none ∧ s.endTop = false ∧
    (s.step = .stateBeginValue ∨ s.step = .stateBeginValueOrEmpty)

/-- The scanner is about to read an object key. -/
def KeyStart (s : Scanner) : Prop :=
  s.err = none ∧ s.endTop = false ∧
    (s.step = .stateBeginString ∨ s.step = .stateBeginStringOrEmpty)

/-- The walk agrees with the scanner on every value, given that much fuel. -/
def VOk (fuel : Nat) : Prop :=
  ∀ (data : Bytes) (σ : List ParseState) (s : Scanner), ValueStart s → s.parseState = σ →
    (s.step = .stateBeginValueOrEmpty → (dropSpace data).head? ≠ some 93) →
    2 * data.length + 1 ≤ fuel → Agree σ s data (parseValue fuel data)

/-- The walk agrees with the scanner on the elements of every array. -/
def EOk (fuel : Nat) : Prop :=
  ∀ (data : Bytes) (σ : List ParseState) (s : Scanner) (acc : List JSON), ValueStart s →
    s.parseState = .parseArrayValue :: σ →
    2 * data.length + 2 ≤ fuel → Agree σ s data (parseElems fuel data acc)

/-- The walk agrees with the scanner on the members of every object. -/
def MOk (fuel : Nat) : Prop :=
  ∀ (data : Bytes) (σ : List ParseState) (s : Scanner) (acc : List (Bytes × JSON)),
    KeyStart s → s.parseState = .parseObjectKey :: σ →
    2 * data.length + 2 ≤ fuel → Agree σ s data (parseMembers fuel data acc)

/-! # Theorems -/

set_option maxRecDepth 100000

/-! ## Traces: how the observers distribute -/

@[simp]
theorem writes_append (a b : List Event) : writes (a ++ b) = writes a ++ writes b := by
  induction a with
  | nil => rfl
  | cons e es ih => cases e <;> simp [writes, ih]

@[simp]
theorem sleeps_append (a b : List Event) : sleeps (a ++ b) = sleeps a ++ sleeps b := by
  induction a with
  | nil => rfl
  | cons e es ih => cases e <;> simp [sleeps, ih]

@[simp]
theorem unmarshals_append (a b : List Event) :
    unmarshals (a ++ b) = unmarshals a ++ unmarshals b := by
  induction a with
  | nil => rfl
  | cons e es ih => cases e <;> simp [unmarshals, ih]

@[simp]
theorem influxCalls_append (a b : List Event) :
    influxCalls (a ++ b) = influxCalls a ++ influxCalls b := by
  induction a with
  | nil => rfl
  | cons e es ih =>
    simp only [List.cons_append, influxCalls]
    split <;> simp [ih]

@[simp]
theorem logged_append (t : String) (a b : List Event) :
    logged t (a ++ b) = (logged t a || logged t b) := by
  induction a with
  | nil => simp [logged]
  | cons e es ih => cases e <;> simp [logged, ih, Bool.or_assoc]

/-! ## `doLog` -/

theorem doLog_eq (cfg : Config) (env : Env) (f : Format) (a : List Arg) (w : World) :
    doLog cfg env f a w =
      { reads := w.reads + 1, logfile := (logPrelude cfg env w).2,
        trace := w.trace ++ doLogEvents cfg env f a w } := by
  unfold doLog doLogEvents logPrelude
  simp only [World.emit]
  split
  · rename_i h
    split <;> simp [h.2]
  · simp

@[simp]
theorem doLog_reads (cfg : Config) (env : Env) (f : Format) (a : List Arg) (w : World) :
    (doLog cfg env f a w).reads = w.reads + 1 := by
  rw [doLog_eq]

@[simp]
theorem doLog_trace (cfg : Config) (env : Env) (f : Format) (a : List Arg) (w : World) :
    (doLog cfg env f a w).trace = w.trace ++ doLogEvents cfg env f a w := by
  rw [doLog_eq]

@[simp]
theorem writes_doLogEvents (cfg : Config) (env : Env) (f : Format) (a : List Arg) (w : World) :
    writes (doLogEvents cfg env f a w) = [] := by
  unfold doLogEvents logPrelude
  split
  · split <;> simp [writes]
  · simp [writes]

@[simp]
theorem sleeps_doLogEvents (cfg : Config) (env : Env) (f : Format) (a : List Arg) (w : World) :
    sleeps (doLogEvents cfg env f a w) = [] := by
  unfold doLogEvents logPrelude
  split
  · split <;> simp [sleeps]
  · simp [sleeps]

@[simp]
theorem unmarshals_doLogEvents (cfg : Config) (env : Env) (f : Format) (a : List Arg)
    (w : World) : unmarshals (doLogEvents cfg env f a w) = [] := by
  unfold doLogEvents logPrelude
  split
  · split <;> simp [unmarshals]
  · simp [unmarshals]

@[simp]
theorem influxCalls_doLogEvents (cfg : Config) (env : Env) (f : Format) (a : List Arg)
    (w : World) : influxCalls (doLogEvents cfg env f a w) = [] := by
  unfold doLogEvents logPrelude
  split
  · split <;> simp [influxCalls, Event.isInflux]
  · simp [influxCalls, Event.isInflux]

theorem logged_doLogEvents (t : String) (ht : t ∉ doLogTexts) (cfg : Config) (env : Env)
    (f : Format) (a : List Arg) (w : World) :
    logged t (doLogEvents cfg env f a w) = decide (f.text = t) := by
  simp only [doLogTexts, List.mem_cons, List.mem_singleton, not_or, List.not_mem_nil,
    or_false] at ht
  obtain ⟨h1, h2, h3, h4, h5⟩ := ht
  unfold doLogEvents logPrelude
  split
  · split <;> simp [logged, Ne.symm h1, Ne.symm h2, Ne.symm h3, Ne.symm h4, Ne.symm h5]
  · simp [logged, Ne.symm h1]

/-! ## One cycle -/

theorem cycleEnd_ok (cfg : Config) (env : Env) (w : World) :
    ∃ w1, cycleEnd cfg env w = .ok w1 ∧
      w1.trace = w.trace ++ (doLogEvents cfg env ⟨"Pause for 60 sec\n", []⟩ [] w ++ [.sleep 60]) := by
  refine ⟨_, rfl, ?_⟩
  simp [World.emit, doLog_trace]

theorem worker_step (cfg : Config) (env : Env) (nets : Nat → Net) (k : Nat) (w w1 : World)
    (h : airzoneCycle cfg env (nets k) w = .ok w1) (m : Nat) :
    airzoneWorker cfg env nets (m + 1) k w = airzoneWorker cfg env nets m (k + 1) w1 := by
  simp [airzoneWorker, h]

theorem acquisition_failure_cycle (cfg : Config) (env : Env) (net : Net) (w : World)
    (h : acquisitionFails cfg env net) :
    ∃ w1 evs, airzoneCycle cfg env net w = .ok w1 ∧ w1.trace = w.trace ++ evs ∧
      unmarshals evs = [] ∧ influxCalls evs = [] ∧ logged "pushInflux call\n" evs = false ∧
      sleeps evs = [60] ∧ evs.getLast? = some (.sleep 60) := by
  have ht : "pushInflux call\n" ∉ doLogTexts := by decide
  unfold airzoneCycle
  cases hreq : env.newRequest (url cfg) with
  | some e =>
    obtain ⟨w1, h1, h2⟩ := cycleEnd_ok cfg env (doLog cfg env ⟨"Error creating POST Request %s\n", []⟩
      [.err e] ((doLog cfg env ⟨"Connecting Airzone interface\n", []⟩ [] w).emit
        (.newRequest (url cfg) pay)))
    simp only [doLog_trace, World.emit, List.append_assoc] at h2
    exact ⟨w1, _, h1, h2, by
      simp [logged_doLogEvents _ ht, unmarshals, influxCalls, logged, sleeps, Event.isInflux,
          List.getLast?_cons, List.getLast?_append]⟩
  | none =>
    cases hdo : net.doResult with
    | some e =>
      obtain ⟨w1, h1, h2⟩ := cycleEnd_ok cfg env (doLog cfg env
        ⟨"Error sending POST Request %s\n", []⟩ [.err e]
        (((doLog cfg env ⟨"Connecting Airzone interface\n", []⟩ [] w).emit
          (.newRequest (url cfg) pay)).emit (.httpDo (url cfg) "AirZombie")))
      simp only [doLog_trace, World.emit, List.append_assoc] at h2
      exact ⟨w1, _, h1, h2, by
        simp [logged_doLogEvents _ ht, unmarshals, influxCalls, logged, sleeps, Event.isInflux,
          List.getLast?_cons, List.getLast?_append]⟩
    | none =>
      rcases h with h | h | ⟨e, h⟩
      · exact absurd hreq h
      · exact absurd hdo h
      · obtain ⟨w1, h1, h2⟩ := cycleEnd_ok cfg env (doLog cfg env
          ⟨"Error reading POST Request %s\n", []⟩ [.err e]
          ((((doLog cfg env ⟨"Connecting Airzone interface\n", []⟩ [] w).emit
            (.newRequest (url cfg) pay)).emit (.httpDo (url cfg) "AirZombie")).emit .readAll))
        simp only [doLog_trace, World.emit, List.append_assoc] at h2
        simp only [h]
        exact ⟨w1, _, h1, h2, by
          simp [logged_doLogEvents _ ht, unmarshals, influxCalls, logged, sleeps, Event.isInflux,
          List.getLast?_cons, List.getLast?_append]⟩

theorem unmarshal_syntax_error (body : Bytes) (msg : String) (v : AirzoneSystem)
    (h : checkValid body = some msg) :
    Unmarshal body v = .returned v (some (.syntaxError msg)) := by
  simp [Unmarshal, h]

/-- The cycle up to the call of `json.Unmarshal`, when acquisition succeeds. -/
theorem decode_error_cycle (cfg : Config) (env : Env) (net : Net) (w : World) (body : Bytes)
    (v : AirzoneSystem) (err : JsonError)
    (hreq : env.newRequest (url cfg) = none) (hdo : net.doResult = none)
    (hread : net.readResult = .ok body)
    (hdec : Unmarshal body AirzoneSystem.zero = .returned v (some err)) :
    ∃ w1 evs, airzoneCycle cfg env net w = .ok w1 ∧ w1.trace = w.trace ++ evs ∧
      unmarshals evs = [body] ∧
      logged "Error unmarshalling POST Response %s\n" evs = true ∧
      logged "Json answer Data structure is empty" evs = false ∧
      logged "pushInflux call\n" evs = false ∧ influxCalls evs = [] ∧
      sleeps evs = [60] ∧ evs.getLast? = some (.sleep 60) := by
  have ht : "pushInflux call\n" ∉ doLogTexts := by decide
  have ht1 : "Error unmarshalling POST Response %s\n" ∉ doLogTexts := by decide
  have ht2 : "Json answer Data structure is empty" ∉ doLogTexts := by decide
  unfold airzoneCycle
  simp only [hreq, hdo, hread, hdec]
  obtain ⟨w1, h1, h2⟩ := cycleEnd_ok cfg env (doLog cfg env
    ⟨"Error unmarshalling POST Response %s\n", []⟩ [.jsonErr err]
    ((doLog cfg env ⟨"Airzone Response", body⟩ []
      ((((doLog cfg env ⟨"Connecting Airzone interface\n", []⟩ [] w).emit
        (.newRequest (url cfg) pay)).emit (.httpDo (url cfg) "AirZombie")).emit .readAll)).emit
      (.unmarshal body)))
  simp only [doLog_trace, World.emit, List.append_assoc] at h2
  exact ⟨w1, _, h1, h2, by
    simp [logged_doLogEvents _ ht, logged_doLogEvents _ ht1, logged_doLogEvents _ ht2,
      unmarshals, influxCalls, logged, sleeps, Event.isInflux,
      List.getLast?_cons, List.getLast?_append]⟩

theorem empty_response_cycle (cfg : Config) (env : Env) (net : Net) (w : World) (body : Bytes)
    (v : AirzoneSystem)
    (hreq : env.newRequest (url cfg) = none) (hdo : net.doResult = none)
    (hread : net.readResult = .ok body)
    (hdec : Unmarshal body AirzoneSystem.zero = .returned v none)
    (hempty : v.Data.elems = []) :
    ∃ w1 evs, airzoneCycle cfg env net w = .ok w1 ∧ w1.trace = w.trace ++ evs ∧
      unmarshals evs = [body] ∧
      logged "Error unmarshalling POST Response %s\n" evs = false ∧
      logged "Json answer Data structure is empty" evs = true ∧
      logged "pushInflux call\n" evs = false ∧ influxCalls evs = [] ∧
      sleeps evs = [60] ∧ evs.getLast? = some (.sleep 60) := by
  have ht : "pushInflux call\n" ∉ doLogTexts := by decide
  have ht1 : "Error unmarshalling POST Response %s\n" ∉ doLogTexts := by decide
  have ht2 : "Json answer Data structure is empty" ∉ doLogTexts := by decide
  unfold airzoneCycle
  simp only [hreq, hdo, hread, hdec, hempty, List.length_nil, gt_iff_lt, lt_self_iff_false,
    if_false]
  obtain ⟨w1, h1, h2⟩ := cycleEnd_ok cfg env (doLog cfg env
    ⟨"Json answer Data structure is empty", []⟩ []
    ((doLog cfg env ⟨"Airzone Response", body⟩ []
      ((((doLog cfg env ⟨"Connecting Airzone interface\n", []⟩ [] w).emit
        (.newRequest (url cfg) pay)).emit (.httpDo (url cfg) "AirZombie")).emit .readAll)).emit
      (.unmarshal body)))
  simp only [doLog_trace, World.emit, List.append_assoc] at h2
  exact ⟨w1, _, h1, h2, by
    simp [logged_doLogEvents _ ht, logged_doLogEvents _ ht1, logged_doLogEvents _ ht2,
      unmarshals, influxCalls, logged, sleeps, Event.isInflux,
      List.getLast?_cons, List.getLast?_append]⟩

/-! ## `pushInflux` -/

theorem pushLoop_ok (cfg : Config) (env : Env) (zs : List Zone)
    (hp : ∀ z ∈ zs, ∀ t, env.newPoint "metrics" (pointTags z) (pointFields z) t = none)
    (bp : BatchPoints) (w : World) :
    ∃ w1 evs, pushLoop cfg env zs bp w =
        (some { bp with points := bp.points ++ pointsFrom env w.reads zs }, w1) ∧
      w1.reads = w.reads + 2 * zs.length ∧ w1.trace = w.trace ++ evs ∧
      writes evs = [] ∧ sleeps evs = [] ∧ unmarshals evs = [] := by
  induction zs generalizing bp w with
  | nil => exact ⟨w, [], by simp [pushLoop, pointsFrom], by simp, by simp, rfl, rfl, rfl⟩
  | cons z zs ih =>
    have hz := hp z (List.mem_cons_self _ _)
    obtain ⟨w1, evs, h1, h2, h3, h4, h5, h6⟩ := ih (fun y hy => hp y (List.mem_cons_of_mem _ hy))
      (bp.AddPoint ⟨"metrics", pointTags z, pointFields z, env.now w.reads⟩)
      (doLog cfg env ⟨"InfluxDB points %v\n", []⟩
        [.point ⟨"metrics", pointTags z, pointFields z, env.now w.reads⟩]
        (({ w with reads := w.reads + 1 } : World).emit
          (.newPoint "metrics" (pointTags z) (pointFields z) (env.now w.reads))))
    simp only [doLog_trace, doLog_reads, World.emit, List.append_assoc, BatchPoints.AddPoint]
      at h1 h2 h3
    refine ⟨w1, _, ?_, ?_, h3, ?_, ?_, ?_⟩
    · simp only [pushLoop, hz, BatchPoints.AddPoint, World.emit]
      rw [h1]
      simp [pointsFrom]
    · rw [h2, List.length_cons]; omega
    · simp [writes, h4]
    · simp [sleeps, h5]
    · simp [unmarshals, h6]

/-- The run of `pushInflux` when the client, the batch and every point are created and the
write is accepted. -/
theorem pushInflux_ok (cfg : Config) (env : Env) (net : Net) (az : AirzoneSystem) (w : World)
    (hc : env.newHTTPClient ⟨cfg.influxURL, cfg.influxUSER, cfg.influxPASS, 10⟩ = none)
    (hb : env.newBatchPoints ⟨cfg.influxDB, "s"⟩ = none)
    (hp : ∀ z ∈ az.Data.elems, ∀ t,
      env.newPoint "metrics" (pointTags z) (pointFields z) t = none)
    (hw : net.writeResult = none) :
    ∃ w1 evs, pushInflux cfg env net az w = .ok w1 ∧ w1.trace = w.trace ++ evs ∧
      writes evs = [⟨cfg.influxDB, "s", pointsFrom env (w.reads + 2) az.Data.elems⟩] ∧
      sleeps evs = [] ∧ unmarshals evs = [] := by
  obtain ⟨w1, evs, h1, -, h3, h4, h5, h6⟩ := pushLoop_ok cfg env az.Data.elems hp
    ⟨cfg.influxDB, "s", []⟩
    (doLog cfg env ⟨"Report contains %d zones\n", []⟩ [.int az.Data.elems.length]
      ((((doLog cfg env ⟨"pushInflux call\n", []⟩ [] w).emit
        (.newHTTPClient ⟨cfg.influxURL, cfg.influxUSER, cfg.influxPASS, 10⟩)).emit
        (.newBatchPoints ⟨cfg.influxDB, "s"⟩))))
  have hreads : (doLog cfg env ⟨"Report contains %d zones\n", []⟩ [.int az.Data.elems.length]
      ((((doLog cfg env ⟨"pushInflux call\n", []⟩ [] w).emit
        (.newHTTPClient ⟨cfg.influxURL, cfg.influxUSER, cfg.influxPASS, 10⟩)).emit
        (.newBatchPoints ⟨cfg.influxDB, "s"⟩)))).reads = w.reads + 2 := by
    simp [World.emit]
  rw [hreads] at h1
  simp only [doLog_trace, World.emit, List.append_assoc, List.nil_append] at h3
  obtain ⟨W, hW⟩ : ∃ W, W = (doLog cfg env ⟨"Transmission OK\n", []⟩ []
    (w1.emit (.write ⟨cfg.influxDB, "s", pointsFrom env (w.reads + 2) az.Data.elems⟩))).emit
      .close := ⟨_, rfl⟩
  have hrun : pushInflux cfg env net az w = .ok W := by
    unfold pushInflux
    simp only [hc, hb, hw, h1, hW, List.nil_append]
  have htr := congrArg World.trace hW
  simp only [doLog_trace, World.emit, h3, List.append_assoc] at htr
  exact ⟨W, _, hrun, htr, by simp [writes, sleeps, unmarshals, h4, h5, h6]⟩

theorem pointsFrom_tags (env : Env) (r : Nat) (zs : List Zone) :
    (pointsFrom env r zs).map Point.tags = zs.map pointTags := by
  induction zs generalizing r with
  | nil => rfl
  | cons z zs ih => simp [pointsFrom, ih]

theorem pointsFrom_name_fields (env : Env) (r : Nat) (zs : List Zone) :
    (pointsFrom env r zs).map (fun p => (p.name, p.fields)) =
      zs.map (fun z => ("metrics", pointFields z)) := by
  induction zs generalizing r with
  | nil => rfl
  | cons z zs ih => simp [pointsFrom, ih]

theorem pointsFrom_length (env : Env) (r : Nat) (zs : List Zone) :
    (pointsFrom env r zs).length = zs.length := by
  induction zs generalizing r with
  | nil => rfl
  | cons z zs ih => simp [pointsFrom, ih]

theorem pointsFrom_time (env : Env) (r : Nat) (zs : List Zone) (i : Nat) (h : i < zs.length) :
    ((pointsFrom env r zs).get? i).map Point.time = some (env.now (r + 2 * i)) := by
  induction zs generalizing r i with
  | nil => simp at h
  | cons z zs ih =>
    cases i with
    | zero => simp [pointsFrom]
    | succ j =>
      have hj : j < zs.length := by simpa using h
      have := ih (r + 2) j hj
      simp only [pointsFrom, List.get?_cons_succ]
      rw [this]
      congr 2
      omega

/-! ## `strconv.Itoa` and `strconv.Atoi` -/

theorem digitChar_facts (d : Nat) (h : d < 10) :
    isDigit (Nat.digitChar d) = true ∧ (Nat.digitChar d).toNat - 48 = d ∧
      Nat.digitChar d ≠ '+' ∧ Nat.digitChar d ≠ '-' := by
  interval_cases d <;> decide

theorem fmtUint_acc (fuel n : Nat) (acc : List Char) :
    fmtUint fuel n acc = fmtUint fuel n [] ++ acc := by
  induction fuel generalizing n acc with
  | zero => simp [fmtUint]
  | succ f ih =>
    simp only [fmtUint]
    split
    · simp
    · rw [ih, ih (n / 10) [Nat.digitChar (n % 10)]]
      simp

theorem fmtUint_fuel (f1 f2 n : Nat) (acc : List Char) (h1 : n < f1) (h2 : n < f2) :
    fmtUint f1 n acc = fmtUint f2 n acc := by
  induction f1 generalizing f2 n acc with
  | zero => omega
  | succ a ih =>
    cases f2 with
    | zero => omega
    | succ b =>
      simp only [fmtUint]
      split
      · rfl
      · exact ih b (n / 10) _ (by omega) (by omega)

theorem fmtUint_step (n : Nat) (h : 10 ≤ n) :
    fmtUint (n + 1) n [] = fmtUint (n / 10 + 1) (n / 10) [] ++ [Nat.digitChar (n % 10)] := by
  rw [fmtUint, if_neg (by omega), fmtUint_acc]
  rw [fmtUint_fuel n (n / 10 + 1) (n / 10) [] (by omega) (by omega)]

theorem parseUintLoop_snoc (xs : List Char) (c : Char) (v : Nat) :
    parseUintLoop (xs ++ [c]) v =
      match parseUintLoop xs v with
      | .ok m => parseUintLoop [c] m
      | .error e => .error e := by
  induction xs generalizing v with
  | nil => simp [parseUintLoop]
  | cons x xs ih =>
    simp only [List.cons_append, parseUintLoop]
    split
    · split
      · rfl
      · split
        · rfl
        · exact ih _
    · rfl

theorem parseUintLoop_fmtUint (n : Nat) (h : n < 2 ^ 64) :
    parseUintLoop (fmtUint (n + 1) n []) 0 = .ok n := by
  induction n using Nat.strongRecOn with
  | _ n ih =>
    by_cases hn : n < 10
    · obtain ⟨hd, hv, -, -⟩ := digitChar_facts n hn
      simp only [fmtUint, if_pos hn, parseUintLoop, hd, if_true, hv]
      rw [if_neg (by norm_num), if_neg (by omega)]
      simp
    · have hlt : n % 10 < 10 := Nat.mod_lt _ (by norm_num)
      obtain ⟨hd, hv, -, -⟩ := digitChar_facts (n % 10) hlt
      rw [fmtUint_step n (by omega), parseUintLoop_snoc, ih (n / 10) (by omega) (by omega)]
      simp only [parseUintLoop, hd, if_true, hv]
      rw [if_neg (by omega), if_neg (by omega)]
      congr 1
      omega

theorem fmtUint_head (n : Nat) :
    ∃ d r, d < 10 ∧ fmtUint (n + 1) n [] = Nat.digitChar d :: r := by
  induction n using Nat.strongRecOn with
  | _ n ih =>
    by_cases hn : n < 10
    · exact ⟨n, [], hn, by simp [fmtUint, hn]⟩
    · obtain ⟨d, r, hd, hr⟩ := ih (n / 10) (by omega)
      exact ⟨d, r ++ [Nat.digitChar (n % 10)], hd, by rw [fmtUint_step n (by omega), hr]; rfl⟩

/-- Parsing the decimal text of a non-negative `int` gives the integer back. -/
theorem Atoi_Itoa (i : Int) (h0 : 0 ≤ i) (h1 : i < 2 ^ 63) : Atoi (Itoa i) = .ok i := by
  obtain ⟨n, rfl⟩ := Int.eq_ofNat_of_zero_le h0
  have hn : n < 2 ^ 63 := by exact_mod_cast h1
  obtain ⟨d, r, hd, hr⟩ := fmtUint_head n
  obtain ⟨-, -, hp, hm⟩ := digitChar_facts d hd
  have hparse := parseUintLoop_fmtUint n (by omega)
  simp only [Itoa, Atoi, Int.natAbs_ofNat, if_neg (not_lt.mpr h0)]
  rw [hr] at hparse ⊢
  simp only [ParseInt, ParseUint, hp, hm, or_self, if_false, hparse]
  simp only [decide_eq_true_eq, decide_eq_false_iff_not] at *
  simp
  omega

/-! ## Decoding a valid payload -/

theorem matchZoneField_name (f : ZField) : matchZoneField (strBytes f.name) = some f := by
  cases f <;> rfl

theorem name_injective (f g : ZField) (h : strBytes f.name = strBytes g.name) : f = g := by
  have h1 := matchZoneField_name f
  rw [h, matchZoneField_name g] at h1
  exact (Option.some.inj h1).symm

theorem storeElems_int (xs : List JSON) (ns : List Int) (h : allOf intOf xs = some ns)
    (backing : List Int) :
    ∃ rest, storeElems storeInt 0 xs backing none = (ns, rest, none) := by
  induction xs generalizing ns backing with
  | nil =>
    simp only [allOf, Option.some.injEq] at h
    subst h
    exact ⟨backing, rfl⟩
  | cons x xs ih =>
    simp only [allOf] at h
    cases hx : intOf x with
    | none => simp [hx] at h
    | some a =>
      cases hxs : allOf intOf xs with
      | none => simp [hx, hxs] at h
      | some as =>
        simp only [hx, hxs, Option.some.injEq] at h
        subst h
        obtain ⟨rest, hrest⟩ := ih as hxs backing.tail
        have hs : storeInt x (backing.headD 0) none = (a, none) := by
          cases x <;> simp [intOf] at hx
          rename_i lit
          cases hp : ParseInt lit with
          | error e => simp [hp] at hx
          | ok n =>
            simp only [hp, Option.some.injEq] at hx
            simp [storeInt, hp, hx]
        refine ⟨rest, ?_⟩
        simp only [storeElems, hs, hrest]

theorem storeIface_of (j : JSON) (v : Iface) (h : ifaceOf j = some v) (cur : Iface) :
    storeIface j cur none = (v, none) := by
  unfold ifaceOf at h
  cases j with
  | num lit =>
    simp only [valueInterface] at h
    simp only [storeIface]
    cases hp : ParseFloat lit with
    | error e => simp [hp, saveError] at h
    | ok f => simp [hp] at h; simp [h]
  | null => simp only [storeIface]; split at h <;> simp_all
  | bool b => simp only [storeIface]; split at h <;> simp_all
  | str s => simp only [storeIface]; split at h <;> simp_all
  | arr xs => simp only [storeIface]; split at h <;> simp_all
  | obj ms => simp only [storeIface]; split at h <;> simp_all

theorem storeElems_iface (xs : List JSON) (vs : List Iface) (h : allOf ifaceOf xs = some vs)
    (backing : List Iface) :
    ∃ rest, storeElems storeIface Iface.nil xs backing none = (vs, rest, none) := by
  induction xs generalizing vs backing with
  | nil =>
    simp only [allOf, Option.some.injEq] at h
    subst h
    exact ⟨backing, rfl⟩
  | cons x xs ih =>
    simp only [allOf] at h
    cases hx : ifaceOf x with
    | none => simp [hx] at h
    | some a =>
      cases hxs : allOf ifaceOf xs with
      | none => simp [hx, hxs] at h
      | some as =>
        simp only [hx, hxs, Option.some.injEq] at h
        subst h
        obtain ⟨rest, hrest⟩ := ih as hxs backing.tail
        refine ⟨rest, ?_⟩
        simp only [storeElems, storeIface_of x a hx, hrest]

theorem storeInt_of (j : JSON) (n : Int) (h : intOf j = some n) (cur : Int) :
    storeInt j cur none = (n, none) := by
  cases j <;> simp [intOf] at h
  rename_i lit
  cases hp : ParseInt lit with
  | error e => simp [hp] at h
  | ok m =>
    simp only [hp, Option.some.injEq] at h
    simp [storeInt, hp, h]

theorem storeFloat_of (j : JSON) (x : F64) (h : floatOf j = some x) (cur : F64) :
    storeFloat j cur none = (x, none) := by
  cases j <;> simp [floatOf] at h
  rename_i lit
  cases hp : ParseFloat lit with
  | error e => simp [hp] at h
  | ok m =>
    simp only [hp, Option.some.injEq] at h
    simp [storeFloat, hp, h]

theorem storeSlice_int (xs : List JSON) (ns : List Int) (h : allOf intOf xs = some ns)
    (cur : Slice Int) :
    ∃ sp, storeSlice storeInt 0 "[]int" (.arr xs) cur none = (⟨ns, sp⟩, none) := by
  cases xs with
  | nil =>
    simp only [allOf, Option.some.injEq] at h
    subst h
    exact ⟨[], rfl⟩
  | cons x xs =>
    obtain ⟨rest, hrest⟩ := storeElems_int (x :: xs) ns h (cur.elems ++ cur.spare)
    exact ⟨rest, by simp only [storeSlice, hrest]⟩

theorem storeSlice_iface (xs : List JSON) (vs : List Iface) (h : allOf ifaceOf xs = some vs)
    (cur : Slice Iface) :
    ∃ sp, storeSlice storeIface Iface.nil "[]interface {}" (.arr xs) cur none =
      (⟨vs, sp⟩, none) := by
  cases xs with
  | nil =>
    simp only [allOf, Option.some.injEq] at h
    subst h
    exact ⟨[], rfl⟩
  | cons x xs =>
    obtain ⟨rest, hrest⟩ := storeElems_iface (x :: xs) vs h (cur.elems ++ cur.spare)
    exact ⟨rest, by simp only [storeSlice, hrest]⟩

/-- Storing a well-typed member value: no error, the field holds the value given, every other
field is untouched. -/
theorem storeZoneField_of (f : ZField) (j : JSON) (v : ZValue) (h : literalValue f j = some v)
    (z : Zone) :
    (storeZoneField f j z none).2 = none ∧ (storeZoneField f j z none).1.get f = v ∧
      ∀ g, g ≠ f → (storeZoneField f j z none).1.get g = z.get g := by
  cases f
  case Name =>
    cases j <;> simp [literalValue] at h
    subst h
    refine ⟨?_, ?_, fun g hg => ?_⟩
    · simp only [storeZoneField, storeString]
    · simp only [storeZoneField, storeString, Zone.get]
    · cases g <;> first | exact absurd rfl hg | simp only [storeZoneField, Zone.get]
  case Errors =>
    cases j <;> simp [literalValue] at h
    obtain ⟨vs, hvs, rfl⟩ := h
    obtain ⟨sp, hsp⟩ := storeSlice_iface _ vs hvs z.Errors
    refine ⟨?_, ?_, fun g hg => ?_⟩
    · simp only [storeZoneField, hsp]
    · simp only [storeZoneField, hsp, Zone.get]
    · cases g <;> first | exact absurd rfl hg | simp only [storeZoneField, Zone.get]
  case Modes =>
    cases j <;> simp [literalValue] at h
    obtain ⟨vs, hvs, rfl⟩ := h
    obtain ⟨sp, hsp⟩ := storeSlice_int _ vs hvs z.Modes
    refine ⟨?_, ?_, fun g hg => ?_⟩
    · simp only [storeZoneField, hsp]
    · simp only [storeZoneField, hsp, Zone.get]
    · cases g <;> first | exact absurd rfl hg | simp only [storeZoneField, Zone.get]
  case MaxTemp | MinTemp | Setpoint | RoomTemp =>
    simp only [literalValue, Option.map_eq_some'] at h
    obtain ⟨x, hx, rfl⟩ := h
    refine ⟨?_, ?_, fun g hg => ?_⟩
    · simp only [storeZoneField, storeFloat_of j x hx]
    · simp only [storeZoneField, storeFloat_of j x hx, Zone.get]
    · cases g <;> first | exact absurd rfl hg | simp only [storeZoneField, Zone.get]
  all_goals
    simp only [literalValue, Option.map_eq_some'] at h
    obtain ⟨x, hx, rfl⟩ := h
    refine ⟨?_, ?_, fun g hg => ?_⟩
    · simp only [storeZoneField, storeInt_of j x hx]
    · simp only [storeZoneField, storeInt_of j x hx, Zone.get]
    · cases g <;> first | exact absurd rfl hg | simp only [storeZoneField, Zone.get]

theorem given_cons (m : Bytes × JSON) (ms : List (Bytes × JSON)) (f : ZField) :
    given (m :: ms) f = if m.1 = strBytes f.name then some m.2 else given ms f := by
  unfold given
  by_cases h : m.1 = strBytes f.name <;> simp [List.find?, h]

theorem given_none (ms : List (Bytes × JSON)) (f : ZField)
    (h : strBytes f.name ∉ ms.map Prod.fst) : given ms f = none := by
  induction ms with
  | nil => rfl
  | cons m ms ih =>
    simp only [List.map_cons, List.mem_cons, not_or] at h
    rw [given_cons, if_neg (fun e => h.1 e.symm), ih h.2]

/-- Decoding the members of a valid zone object into a reading: no error, and each field holds
the value given for it, or what it held before when the object has no such member. -/
theorem foldl_storeZoneMember (ms : List (Bytes × JSON))
    (hv : ValidZoneObject selectsNoZoneField ms) (z : Zone) :
    (ms.foldl storeZoneMember (z, none)).2 = none ∧
      ∀ f, (ms.foldl storeZoneMember (z, none)).1.get f =
        match given ms f with
        | some j =>
          match literalValue f j with
          | some v => v
          | none => z.get f
        | none => z.get f := by
  induction ms generalizing z with
  | nil => exact ⟨rfl, fun f => rfl⟩
  | cons m ms ih =>
    obtain ⟨hnd, hmem⟩ := hv
    rw [List.map_cons, List.nodup_cons] at hnd
    have hv' : ValidZoneObject selectsNoZoneField ms :=
      ⟨hnd.2, fun x hx => hmem x (List.mem_cons_of_mem _ hx)⟩
    rcases hmem m (List.mem_cons_self _ _) with ⟨f0, hk, hlit⟩ | hun
    · obtain ⟨v0, hv0⟩ := Option.isSome_iff_exists.mp hlit
      obtain ⟨he, hget, hother⟩ := storeZoneField_of f0 m.2 v0 hv0 z
      have hstep : storeZoneMember (z, none) m = ((storeZoneField f0 m.2 z none).1, none) := by
        simp only [storeZoneMember, hk, matchZoneField_name]
        exact Prod.ext rfl he
      obtain ⟨ih1, ih2⟩ := ih hv' (storeZoneField f0 m.2 z none).1
      rw [List.foldl_cons, hstep]
      refine ⟨ih1, fun f => ?_⟩
      rw [ih2 f, given_cons]
      by_cases hf : m.1 = strBytes f.name
      · have hff : f = f0 := name_injective f f0 (hf.symm.trans hk)
        subst hff
        rw [if_pos hf, given_none ms f (hk ▸ hnd.1)]
        simp only [hv0, hget]
      · have hff : f ≠ f0 := fun e => hf (e ▸ hk)
        rw [if_neg hf, hother f hff]
    · have hstep : storeZoneMember (z, none) m = (z, none) := by
        simp only [selectsNoZoneField] at hun
        simp only [storeZoneMember, hun]
      obtain ⟨ih1, ih2⟩ := ih hv' z
      rw [List.foldl_cons, hstep]
      refine ⟨ih1, fun f => ?_⟩
      have hf : m.1 ≠ strBytes f.name := by
        intro e
        simp only [selectsNoZoneField, e, matchZoneField_name] at hun
        exact Option.noConfusion hun
      rw [ih2 f, given_cons, if_neg hf]

theorem storeZone_valid (ms : List (Bytes × JSON))
    (hv : ValidZoneObject selectsNoZoneField ms) :
    (storeZone (.obj ms) Zone.zero none).2 = none ∧
      (storeZone (.obj ms) Zone.zero none).1.get = expected ms := by
  obtain ⟨h1, h2⟩ := foldl_storeZoneMember ms hv Zone.zero
  refine ⟨h1, funext fun f => ?_⟩
  simp only [storeZone, h2 f, expected]

theorem storeElems_zones (zones : List (List (Bytes × JSON)))
    (hv : ∀ ms ∈ zones, ValidZoneObject selectsNoZoneField ms) :
    ∃ zs, storeElems storeZone Zone.zero (zones.map JSON.obj) [] none = (zs, [], none) ∧
      zs.map Zone.get = zones.map expected := by
  induction zones with
  | nil => exact ⟨[], rfl, rfl⟩
  | cons ms zones ih =>
    obtain ⟨zs, h1, h2⟩ := ih (fun x hx => hv x (List.mem_cons_of_mem _ hx))
    obtain ⟨h3, h4⟩ := storeZone_valid ms (hv ms (List.mem_cons_self _ _))
    refine ⟨(storeZone (.obj ms) Zone.zero none).1 :: zs, ?_, ?_⟩
    · simp only [List.map_cons, storeElems, List.headD_nil, List.tail_nil, h3, h1]
    · simp only [List.map_cons, h4, h2]

theorem foldl_storeSystemMember_skip (ms : List (Bytes × JSON))
    (h : ∀ m ∈ ms, selectsNoData m.1) (acc : AirzoneSystem × Saved) :
    ms.foldl storeSystemMember acc = acc := by
  induction ms generalizing acc with
  | nil => rfl
  | cons m ms ih =>
    have hm : matchesData m.1 = false := h m (List.mem_cons_self _ _)
    rw [List.foldl_cons, ih (fun x hx => h x (List.mem_cons_of_mem _ hx))]
    simp [storeSystemMember, hm]

/-- Storing a valid payload in a fresh `AirzoneSystem`. -/
theorem storeSystem_valid (doc : JSON) (zones : List (List (Bytes × JSON)))
    (hv : ValidPayload selectsNoData selectsNoZoneField doc zones) :
    ∃ sys, storeSystem doc AirzoneSystem.zero none = (sys, none) ∧
      sys.Data.elems.map Zone.get = zones.map expected := by
  obtain ⟨pre, post, rfl, hpre, hpost, hz⟩ := hv
  obtain ⟨zs, h1, h2⟩ := storeElems_zones zones hz
  have hd : matchesData (strBytes "data") = true := by decide
  refine ⟨⟨⟨zs, []⟩⟩, ?_, h2⟩
  simp only [storeSystem, List.foldl_append, List.foldl_cons,
    foldl_storeSystemMember_skip pre hpre]
  rw [foldl_storeSystemMember_skip post hpost]
  simp only [storeSystemMember, hd, if_true, AirzoneSystem.zero]
  cases zones with
  | nil =>
    simp only [storeElems, List.map_nil, Prod.mk.injEq] at h1
    obtain ⟨rfl, -⟩ := h1
    rfl
  | cons ms zones =>
    simp only [List.map_cons] at h1
    simp only [List.map_cons, storeSlice, Slice.nil, List.append_nil, h1]

/-! ## The decoder's walk follows the scanner -/

theorem run_nil (s : Scanner) : run s [] = s := rfl

theorem run_cons (s : Scanner) (c : Nat) (xs : Bytes) :
    run s (c :: xs) = run (s.stepByte c) xs := rfl

theorem run_append (s : Scanner) (xs ys : Bytes) : run s (xs ++ ys) = run (run s xs) ys := by
  simp [run, List.foldl_append]

theorem bad_error (s : Scanner) (ctx : String) : Bad (s.error ctx) := by
  simp [Bad, Scanner.error]

theorem bad_step (s : Scanner) (h : Bad s) (c : Nat) : s.stepByte c = s := by
  simp [Scanner.stepByte, h.1]

theorem bad_run (s : Scanner) (h : Bad s) (xs : Bytes) : run s xs = s := by
  induction xs with
  | nil => rfl
  | cons c xs ih => rw [run_cons, bad_step s h, ih]

theorem bad_eof (s : Scanner) (h : Bad s) : s.eof ≠ none := by
  obtain ⟨-, h2⟩ := h
  cases he : s.err with
  | none => exact absurd he h2
  | some e => simp [Scanner.eof, he]

theorem rej_of_bad (s : Scanner) (pre rest : Bytes) (h : Bad (run s pre)) :
    Rej s (pre ++ rest) := by
  rw [Rej, run_append, bad_run _ h]
  exact bad_eof _ h

theorem rej_of_rej (s : Scanner) (pre rest : Bytes) (h : Rej (run s pre) rest) :
    Rej s (pre ++ rest) := by
  rw [Rej, run_append]
  exact h

/-- At the end of input, a scanner without error that has not finished the top-level value
and does not finish it on the closing space rejects. -/
theorem eof_unfinished (s : Scanner) (h1 : s.err = none) (h2 : s.endTop = false)
    (h3 : (s.stepByte 32).endTop = false) : s.eof ≠ none := by
  simp only [Scanner.eof, h1, h2, h3]
  cases (s.stepByte 32).err <;> simp

theorem rej_nil (s : Scanner) (h1 : s.err = none) (h2 : s.endTop = false)
    (h3 : (s.stepByte 32).endTop = false) : Rej s [] :=
  eof_unfinished s h1 h2 h3

/-! ### String literals -/

theorem inString_step (s : Scanner) (h : s.step = .stateInString) (c : Nat) :
    s.stepByte c = stateInString s c := by
  unfold Scanner.stepByte
  rw [h]

theorem scanString_quote (r : Bytes) : scanString (34 :: r) = some ([], r) := by
  rw [scanString.eq_def]
  simp

theorem scanString_esc_nil : scanString [92] = none := by
  rw [scanString.eq_def]
  simp

theorem scanString_esc (e : Nat) (r : Bytes) :
    scanString (92 :: e :: r) = (scanString r).map (fun p => (92 :: e :: p.1, p.2)) := by
  rw [scanString.eq_def]
  simp

theorem scanString_plain (c : Nat) (r : Bytes) (h1 : c ≠ 34) (h2 : c ≠ 92) :
    scanString (c :: r) = (scanString r).map (fun p => (c :: p.1, p.2)) := by
  rw [scanString.eq_def]
  simp [h1, h2]

theorem hex_plain (c : Nat) (h : isHexByte c = true) : c ≠ 34 ∧ c ≠ 92 ∧ ¬ c < 32 := by
  simp only [isHexByte, Bool.or_eq_true, Bool.and_eq_true, decide_eq_true_eq] at h
  omega

theorem scanString_split (n : Nat) (d raw rest : Bytes) (hn : d.length ≤ n)
    (h : scanString d = some (raw, rest)) : d = raw ++ 34 :: rest := by
  induction n generalizing d raw with
  | zero =>
    cases d with
    | nil => simp [scanString] at h
    | cons c r => simp at hn
  | succ n ih =>
    cases d with
    | nil => simp [scanString] at h
    | cons c r =>
      simp only [List.length_cons, Nat.add_le_add_iff_right] at hn
      by_cases h34 : c = 34
      · subst h34
        rw [scanString_quote] at h
        simp only [Option.some.injEq, Prod.mk.injEq] at h
        obtain ⟨rfl, rfl⟩ := h
        rfl
      · by_cases h92 : c = 92
        · subst h92
          cases r with
          | nil => simp [scanString_esc_nil] at h
          | cons e r1 =>
            rw [scanString_esc] at h
            simp only [Option.map_eq_some', Prod.mk.injEq, Prod.exists] at h
            obtain ⟨a, b, hab, rfl, rfl⟩ := h
            have := ih r1 a (by simp at hn; omega) hab
            rw [this]
            rfl
        · rw [scanString_plain c r h34 h92] at h
          simp only [Option.map_eq_some', Prod.mk.injEq, Prod.exists] at h
          obtain ⟨a, b, hab, rfl, rfl⟩ := h
          have := ih r a hn hab
          rw [this]
          rfl

theorem hexState_step (s : Scanner) (k : Nat) (hk : k < 4) (c : Nat) :
    ({ s with step := hexState (k + 1) } : Scanner).stepByte c =
      if isHexByte c then { s with step := hexState k }
      else ({ s with step := hexState (k + 1) } : Scanner).error
        "in \\u hexadecimal character escape" := by
  have hcases : k = 0 ∨ k = 1 ∨ k = 2 ∨ k = 3 := by omega
  rcases hcases with rfl | rfl | rfl | rfl <;>
    simp [hexState, Scanner.stepByte, stateInStringEscHex]

theorem set_step_self (s : Scanner) (q : ScanStep) (h : s.step = q) :
    ({ s with step := q } : Scanner) = s := by
  cases s
  simp_all

theorem hex_stage (k : Nat) (hk : k ≤ 4) (L : Bytes) (s : Scanner) (he : s.err = none)
    (ht : s.endTop = false) :
    (∃ hs L1, L = hs ++ L1 ∧ hs.length = k ∧ (∀ h ∈ hs, isHexByte h = true) ∧
      run { s with step := hexState k } hs = { s with step := .stateInString }) ∨
    (∃ hs x L1, L = hs ++ x :: L1 ∧ hs.length < k ∧ (∀ h ∈ hs, isHexByte h = true) ∧
      isHexByte x = false ∧ Bad (run { s with step := hexState k } (hs ++ [x]))) ∨
    (L.length < k ∧ (∀ h ∈ L, isHexByte h = true) ∧ Rej { s with step := hexState k } L) := by
  induction k generalizing L with
  | zero => exact Or.inl ⟨[], L, rfl, rfl, by simp, rfl⟩
  | succ k ih =>
    cases L with
    | nil =>
      refine Or.inr (Or.inr ⟨by simp, by simp, ?_⟩)
      refine rej_nil _ he ht ?_
      rw [hexState_step s k (by omega)]
      simp [isHexByte, Scanner.error, ht]
    | cons c L1 =>
      by_cases hc : isHexByte c = true
      · have hstep := hexState_step s k (by omega) c
        rw [if_pos hc] at hstep
        rcases ih (by omega) L1 with ⟨hs, L2, rfl, hl, hh, hr⟩ | ⟨hs, x, L2, rfl, hl, hh, hx, hb⟩ |
          ⟨hl, hh, hr⟩
        · refine Or.inl ⟨c :: hs, L2, rfl, by simp [hl], ?_, ?_⟩
          · intro h hm
            rcases List.mem_cons.mp hm with rfl | hm
            · exact hc
            · exact hh h hm
          · rw [run_cons, hstep, hr]
        · refine Or.inr (Or.inl ⟨c :: hs, x, L2, rfl, by simp [hl], ?_, hx, ?_⟩)
          · intro h hm
            rcases List.mem_cons.mp hm with rfl | hm
            · exact hc
            · exact hh h hm
          · rw [List.cons_append, run_cons, hstep]
            exact hb
        · refine Or.inr (Or.inr ⟨by simp [hl], ?_, ?_⟩)
          · intro h hm
            rcases List.mem_cons.mp hm with rfl | hm
            · exact hc
            · exact hh h hm
          · rw [Rej, run_cons, hstep]
            exact hr
      · have hstep := hexState_step s k (by omega) c
        rw [if_neg hc] at hstep
        refine Or.inr (Or.inl ⟨[], c, L1, rfl, by simp, by simp, by simpa using hc, ?_⟩)
        rw [List.nil_append, run_cons, run_nil, hstep]
        exact bad_error _ _

theorem scanString_plain_list (hs L : Bytes) (h : ∀ x ∈ hs, isHexByte x = true) :
    scanString (hs ++ L) = (scanString L).map (fun p => (hs ++ p.1, p.2)) := by
  induction hs with
  | nil => simp
  | cons c hs ih =>
    obtain ⟨h1, h2, -⟩ := hex_plain c (h c (List.mem_cons_self _ _))
    rw [List.cons_append, scanString_plain c _ h1 h2,
      ih (fun x hx => h x (List.mem_cons_of_mem _ hx))]
    cases scanString L <;> simp

theorem strValid_simple (e : Nat) (r : Bytes)
    (h : e = 98 ∨ e = 102 ∨ e = 110 ∨ e = 114 ∨ e = 116 ∨ e = 92 ∨ e = 47 ∨ e = 34) :
    strValid (92 :: e :: r) = strValid r := by
  rw [strValid.eq_def]
  simp [h]

theorem strValid_hex (a b c d : Nat) (r : Bytes) (ha : isHexByte a = true)
    (hb : isHexByte b = true) (hc : isHexByte c = true) (hd : isHexByte d = true) :
    strValid (92 :: 117 :: a :: b :: c :: d :: r) = strValid r := by
  rw [strValid.eq_def]
  simp [ha, hb, hc, hd]

theorem strValid_plain (c : Nat) (r : Bytes) (h1 : c ≠ 34) (h2 : c ≠ 92) (h3 : ¬ c < 32) :
    strValid (c :: r) = strValid r := by
  rw [strValid.eq_def]
  simp [h1, h2, h3]

theorem inString_plain (s : Scanner) (hs : s.step = .stateInString) (c : Nat)
    (h1 : c ≠ 34) (h2 : c ≠ 92) (h3 : ¬ c < 32) : s.stepByte c = s := by
  rw [inString_step s hs]
  simp [stateInString, h1, h2, h3]

theorem inString_esc (s : Scanner) (hs : s.step = .stateInString) (e : Nat) :
    run s [92, e] =
      if e = 98 ∨ e = 102 ∨ e = 110 ∨ e = 114 ∨ e = 116 ∨ e = 92 ∨ e = 47 ∨ e = 34 then s
      else if e = 117 then { s with step := hexState 4 }
      else ({ s with step := .stateInStringEsc } : Scanner).error "in string escape code" := by
  rw [run_cons, run_cons, run_nil, inString_step s hs]
  simp only [stateInString, Scanner.stepByte, stateInStringEsc, hexState]
  simp only [show (92 : Nat) ≠ 34 by decide, if_false, if_true]
  split
  · exact set_step_self s _ hs
  · rfl

/-- A scanner inside a string literal and the decoder's search for the closing quote: when the
search fails the scanner rejects; when it succeeds, the content found is well-formed and the
scanner is back where it was, or the scanner reports an error before or at the closing quote. -/
theorem string_scan (n : Nat) (d : Bytes) (hn : d.length ≤ n) (s : Scanner)
    (hs : s.step = .stateInString) (he : s.err = none) (ht : s.endTop = false) :
    (scanString d = none → Rej s d) ∧
      ∀ raw rest, scanString d = some (raw, rest) →
        (strValid raw = true ∧ run s raw = s) ∨ Bad (run s (raw ++ [34])) := by
  induction n generalizing d with
  | zero =>
    have : d = [] := List.length_eq_zero.mp (Nat.le_zero.mp hn)
    subst this
    refine ⟨fun _ => rej_nil s he ht ?_, fun raw rest h => by simp [scanString] at h⟩
    rw [inString_plain s hs 32 (by decide) (by decide) (by decide)]
    exact ht
  | succ n ih =>
    cases d with
    | nil =>
      refine ⟨fun _ => rej_nil s he ht ?_, fun raw rest h => by simp [scanString] at h⟩
      rw [inString_plain s hs 32 (by decide) (by decide) (by decide)]
      exact ht
    | cons c r =>
      simp only [List.length_cons, Nat.add_le_add_iff_right] at hn
      by_cases h34 : c = 34
      · subst h34
        rw [scanString_quote]
        refine ⟨fun h => by simp at h, fun raw rest h => ?_⟩
        simp only [Option.some.injEq, Prod.mk.injEq] at h
        obtain ⟨rfl, -⟩ := h
        exact Or.inl ⟨rfl, rfl⟩
      by_cases h92 : c = 92
      · subst h92
        cases r with
        | nil =>
          rw [scanString_esc_nil]
          refine ⟨fun _ => ?_, fun raw rest h => by simp at h⟩
          have hstate : run s [92] = { s with step := .stateInStringEsc } := by
            rw [run_cons, run_nil, inString_step s hs]
            simp [stateInString]
          have := rej_of_rej s [92] [] (by
            rw [hstate]
            exact rej_nil _ he ht (by
              simp [Scanner.stepByte, stateInStringEsc, Scanner.error, ht]))
          simpa using this
        | cons e r1 =>
          have hlen : r1.length ≤ n := by simp at hn; omega
          have hrun := inString_esc s hs e
          rw [scanString_esc]
          by_cases hsimple :
              e = 98 ∨ e = 102 ∨ e = 110 ∨ e = 114 ∨ e = 116 ∨ e = 92 ∨ e = 47 ∨ e = 34
          · rw [if_pos hsimple] at hrun
            obtain ⟨ih1, ih2⟩ := ih r1 hlen
            refine ⟨fun h => ?_, fun raw rest h => ?_⟩
            · have h1 : scanString r1 = none := by
                cases hsc : scanString r1 <;> simp [hsc] at h ⊢
              have := rej_of_rej s [92, e] r1 (by rw [hrun]; exact ih1 h1)
              simpa using this
            · simp only [Option.map_eq_some', Prod.mk.injEq, Prod.exists] at h
              obtain ⟨a, b, hab, rfl, rfl⟩ := h
              rcases ih2 a b hab with ⟨hv, hr⟩ | hb
              · refine Or.inl ⟨by rw [strValid_simple e a hsimple]; exact hv, ?_⟩
                have : (92 :: e :: a) = [92, e] ++ a := rfl
                rw [this, run_append, hrun, hr]
              · refine Or.inr ?_
                have : (92 :: e :: a) ++ [34] = [92, e] ++ (a ++ [34]) := rfl
                rw [this, run_append, hrun]
                exact hb
          · rw [if_neg hsimple] at hrun
            by_cases hu : e = 117
            · subst hu
              rw [if_pos rfl] at hrun
              rcases hex_stage 4 (le_refl _) r1 s he ht with
                ⟨hx, L1, rfl, hl, hh, hr⟩ | ⟨hx, x, L1, rfl, hl, hh, hxn, hb⟩ | ⟨hl, hh, hr⟩
              · -- four hexadecimal digits follow
                have hlen1 : L1.length ≤ n := by simp at hlen; omega
                obtain ⟨ih1, ih2⟩ := ih L1 hlen1
                rw [scanString_plain_list hx L1 hh]
                have hrun2 : run s (92 :: 117 :: hx) = s := by
                  have : (92 :: 117 :: hx) = [92, 117] ++ hx := rfl
                  rw [this, run_append, hrun, hr]
                  exact set_step_self s _ hs
                refine ⟨fun h => ?_, fun raw rest h => ?_⟩
                · have h1 : scanString L1 = none := by
                    cases hsc : scanString L1 <;> simp [hsc] at h ⊢
                  have := rej_of_rej s (92 :: 117 :: hx) L1 (by rw [hrun2]; exact ih1 h1)
                  simpa using this
                · simp only [Option.map_map, Option.map_eq_some', Prod.mk.injEq, Prod.exists,
                    Function.comp] at h
                  obtain ⟨a, b, hab, rfl, rfl⟩ := h
                  have hvalid : strValid (92 :: 117 :: (hx ++ a)) = strValid a := by
                    match hx, hl, hh with
                    | [p, q, u, v], _, hh =>
                      exact strValid_hex p q u v a (hh p (by simp)) (hh q (by simp))
                        (hh u (by simp)) (hh v (by simp))
                  rcases ih2 a b hab with ⟨hv, hr2⟩ | hb
                  · refine Or.inl ⟨by rw [hvalid]; exact hv, ?_⟩
                    have : (92 :: 117 :: (hx ++ a)) = (92 :: 117 :: hx) ++ a := rfl
                    rw [this, run_append, hrun2, hr2]
                  · refine Or.inr ?_
                    have : (92 :: 117 :: (hx ++ a)) ++ [34] = (92 :: 117 :: hx) ++ (a ++ [34]) := by
                      simp
                    rw [this, run_append, hrun2]
                    exact hb
              · -- a byte that is no hexadecimal digit among the four
                have hbad : Bad (run s (92 :: 117 :: (hx ++ [x]))) := by
                  have : (92 :: 117 :: (hx ++ [x])) = [92, 117] ++ (hx ++ [x]) := rfl
                  rw [this, run_append, hrun]
                  exact hb
                refine ⟨fun _ => ?_, fun raw rest h => ?_⟩
                · have := rej_of_bad s (92 :: 117 :: (hx ++ [x])) L1 hbad
                  simpa using this
                · simp only [Option.map_eq_some', Prod.mk.injEq, Prod.exists] at h
                  obtain ⟨a, b, hab, rfl, rfl⟩ := h
                  refine Or.inr ?_
                  have hsplit := scanString_split _ _ a b (le_refl _) hab
                  -- both `hx ++ [x]` and `a ++ [34]` are prefixes of the input
                  have hp1 : (hx ++ [x]) <+: (hx ++ x :: L1) := ⟨L1, by simp⟩
                  have hp2 : (a ++ [34]) <+: (hx ++ x :: L1) := ⟨b, by rw [hsplit]; simp⟩
                  have hle : (hx ++ [x]).length ≤ (a ++ [34]).length := by
                    simp only [List.length_append, List.length_singleton,
                      Nat.add_le_add_iff_right]
                    by_contra hcon
                    have hlt : a.length < hx.length := by omega
                    have h1 : (hx ++ x :: L1)[a.length]? = some 34 := by
                      rw [hsplit, List.getElem?_append_right (le_refl _)]
                      simp
                    rw [List.getElem?_append_left hlt] at h1
                    have hmem : (34 : Nat) ∈ hx := List.getElem?_mem h1
                    have := hh 34 hmem
                    simp [isHexByte] at this
                  obtain ⟨t, ht2⟩ := List.prefix_of_prefix_length_le hp1 hp2 hle
                  have : (92 :: 117 :: a) ++ [34] = (92 :: 117 :: (hx ++ [x])) ++ t := by
                    simp only [List.cons_append, List.cons.injEq, true_and]
                    rw [← ht2]
                  rw [this, run_append, bad_run _ hbad]
                  exact hbad
              · -- the input ends inside the escape
                have hnone : scanString r1 = none := by
                  have := scanString_plain_list r1 [] hh
                  simpa [scanString] using this
                rw [hnone]
                refine ⟨fun _ => ?_, fun raw rest h => by simp at h⟩
                have := rej_of_rej s [92, 117] r1 (by rw [hrun]; exact hr)
                simpa using this
            · rw [if_neg hu] at hrun
              have hbad : Bad (run s [92, e]) := by
                rw [hrun]
                exact bad_error _ _
              refine ⟨fun _ => ?_, fun raw rest h => ?_⟩
              · have := rej_of_bad s [92, e] r1 hbad
                simpa using this
              · simp only [Option.map_eq_some', Prod.mk.injEq, Prod.exists] at h
                obtain ⟨a, b, hab, rfl, rfl⟩ := h
                refine Or.inr ?_
                have : (92 :: e :: a) ++ [34] = [92, e] ++ (a ++ [34]) := rfl
                rw [this, run_append, bad_run _ hbad]
                exact hbad
      · rw [scanString_plain c r h34 h92]
        obtain ⟨ih1, ih2⟩ := ih r hn
        by_cases hctl : c < 32
        · have hbad : Bad (run s [c]) := by
            rw [run_cons, run_nil, inString_step s hs]
            simp only [stateInString, h34, h92, hctl, if_false, if_true]
            exact bad_error _ _
          refine ⟨fun _ => ?_, fun raw rest h => ?_⟩
          · have := rej_of_bad s [c] r hbad
            simpa using this
          · simp only [Option.map_eq_some', Prod.mk.injEq, Prod.exists] at h
            obtain ⟨a, b, hab, rfl, rfl⟩ := h
            refine Or.inr ?_
            have : (c :: a) ++ [34] = [c] ++ (a ++ [34]) := rfl
            rw [this, run_append, bad_run _ hbad]
            exact hbad
        · have hstep := inString_plain s hs c h34 h92 hctl
          refine ⟨fun h => ?_, fun raw rest h => ?_⟩
          · have h1 : scanString r = none := by
              cases hsc : scanString r <;> simp [hsc] at h ⊢
            rw [Rej, run_cons, hstep]
            exact ih1 h1
          · simp only [Option.map_eq_some', Prod.mk.injEq, Prod.exists] at h
            obtain ⟨a, b, hab, rfl, rfl⟩ := h
            rcases ih2 a b hab with ⟨hv, hr⟩ | hb
            · refine Or.inl ⟨by rw [strValid_plain c a h34 h92 hctl]; exact hv, ?_⟩
              rw [run_cons, hstep, hr]
            · refine Or.inr ?_
              rw [List.cons_append, run_cons, hstep]
              exact hb

/-! ### Unquoting a well-formed string -/

theorem hexVal_isSome (c : Nat) (h : isHexByte c = true) : ∃ v, hexVal c = some v := by
  simp only [isHexByte, Bool.or_eq_true, Bool.and_eq_true, decide_eq_true_eq] at h
  unfold hexVal
  split
  · exact ⟨_, rfl⟩
  · split
    · exact ⟨_, rfl⟩
    · split
      · exact ⟨_, rfl⟩
      · omega

theorem isHex_of_hexVal (c v : Nat) (h : hexVal c = some v) : isHexByte c = true := by
  unfold hexVal at h
  simp only [isHexByte, Bool.or_eq_true, Bool.and_eq_true, decide_eq_true_eq]
  split at h
  · omega
  · split at h
    · omega
    · split at h
      · omega
      · simp at h

theorem getu4_hex (a b c d : Nat) (r : Bytes) (ha : isHexByte a = true)
    (hb : isHexByte b = true) (hc : isHexByte c = true) (hd : isHexByte d = true) :
    ∃ v, getu4 (92 :: 117 :: a :: b :: c :: d :: r) = some v := by
  obtain ⟨va, hva⟩ := hexVal_isSome a ha
  obtain ⟨vb, hvb⟩ := hexVal_isSome b hb
  obtain ⟨vc, hvc⟩ := hexVal_isSome c hc
  obtain ⟨vd, hvd⟩ := hexVal_isSome d hd
  exact ⟨((va * 16 + vb) * 16 + vc) * 16 + vd, by simp [getu4, hva, hvb, hvc, hvd]⟩

theorem getu4_shape (L : Bytes) (v : Nat) (h : getu4 L = some v) :
    ∃ a b c d r, L = 92 :: 117 :: a :: b :: c :: d :: r ∧ isHexByte a = true ∧
      isHexByte b = true ∧ isHexByte c = true ∧ isHexByte d = true := by
  unfold getu4 at h
  split at h
  · rename_i a b c d r
    split at h
    · rename_i va vb vc vd ha hb hc hd
      exact ⟨a, b, c, d, r, rfl, isHex_of_hexVal a va ha, isHex_of_hexVal b vb hb,
        isHex_of_hexVal c vc hc, isHex_of_hexVal d vd hd⟩
    · simp at h
  · simp at h

theorem isSome_map {α β : Type} (f : α → β) (o : Option α) (h : o.isSome = true) :
    (o.map f).isSome = true := by
  cases o <;> simp_all

theorem strValid_tail_high (c : Nat) (r : Bytes) (hc : 128 ≤ c) (h : strValid (c :: r) = true) :
    strValid r = true := by
  rw [strValid_plain c r (by omega) (by omega) (by omega)] at h
  exact h

theorem utf8Size_cases (c : Nat) (r : Bytes) (hc : 128 ≤ c) :
    utf8Size (c :: r) = 0 ∨
      (utf8Size (c :: r) = 2 ∧ ∃ b1 r1, r = b1 :: r1 ∧ 128 ≤ b1) ∨
      (utf8Size (c :: r) = 3 ∧ ∃ b1 b2 r2, r = b1 :: b2 :: r2 ∧ 128 ≤ b1 ∧ 128 ≤ b2) ∨
      (utf8Size (c :: r) = 4 ∧
        ∃ b1 b2 b3 r3, r = b1 :: b2 :: b3 :: r3 ∧ 128 ≤ b1 ∧ 128 ≤ b2 ∧ 128 ≤ b3) := by
  by_cases h2 : 194 ≤ c ∧ c ≤ 223
  · cases r with
    | nil => exact Or.inl (by simp [utf8Size, h2]; omega)
    | cons b1 r1 =>
      by_cases hb : isCont b1 = true
      · have hb1 : 128 ≤ b1 := by
          simp only [isCont, Bool.and_eq_true, decide_eq_true_eq] at hb
          exact hb.1
        exact Or.inr (Or.inl ⟨by simp [utf8Size, h2, hb]; omega, b1, r1, rfl, hb1⟩)
      · exact Or.inl (by simp [utf8Size, h2, hb]; omega)
  · by_cases h3 : 224 ≤ c ∧ c ≤ 239
    · match r with
      | [] => exact Or.inl (by simp [utf8Size, h2, h3]; omega)
      | [_] => exact Or.inl (by simp [utf8Size, h2, h3]; omega)
      | b1 :: b2 :: r2 =>
        by_cases hb : (if c = 224 then 160 else 128) ≤ b1 ∧
            (b1 ≤ if c = 237 then 159 else 191) ∧ isCont b2 = true
        · have hb1 : 128 ≤ b1 := by
            obtain ⟨hb1, -, -⟩ := hb
            split at hb1 <;> omega
          have hb2 : 128 ≤ b2 := by
            obtain ⟨-, -, hb2⟩ := hb
            simp only [isCont, Bool.and_eq_true, decide_eq_true_eq] at hb2
            exact hb2.1
          refine Or.inr (Or.inr (Or.inl ⟨?_, b1, b2, r2, rfl, hb1, hb2⟩))
          unfold utf8Size
          simp only [show ¬ c < 128 by omega, h2, h3, and_self, if_true, if_false, if_pos hb]
        · refine Or.inl ?_
          unfold utf8Size
          simp only [show ¬ c < 128 by omega, h2, h3, and_self, if_true, if_false, if_neg hb]
    · by_cases h4 : 240 ≤ c ∧ c ≤ 244
      · match r with
        | [] => exact Or.inl (by simp [utf8Size, h2, h3, h4]; omega)
        | [_] => exact Or.inl (by simp [utf8Size, h2, h3, h4]; omega)
        | [_, _] => exact Or.inl (by simp [utf8Size, h2, h3, h4]; omega)
        | b1 :: b2 :: b3 :: r3 =>
          by_cases hb : (if c = 240 then 144 else 128) ≤ b1 ∧
              (b1 ≤ if c = 244 then 143 else 191) ∧ isCont b2 = true ∧ isCont b3 = true
          · have hb1 : 128 ≤ b1 := by
              obtain ⟨hb1, -, -, -⟩ := hb
              split at hb1 <;> omega
            have hb2 : 128 ≤ b2 := by
              obtain ⟨-, -, hb2, -⟩ := hb
              simp only [isCont, Bool.and_eq_true, decide_eq_true_eq] at hb2
              exact hb2.1
            have hb3 : 128 ≤ b3 := by
              obtain ⟨-, -, -, hb3⟩ := hb
              simp only [isCont, Bool.and_eq_true, decide_eq_true_eq] at hb3
              exact hb3.1
            refine Or.inr (Or.inr (Or.inr ⟨?_, b1, b2, b3, r3, rfl, hb1, hb2, hb3⟩))
            unfold utf8Size
            simp only [show ¬ c < 128 by omega, h2, h3, h4, and_self, if_true, if_false,
              if_pos hb]
          · refine Or.inl ?_
            unfold utf8Size
            simp only [show ¬ c < 128 by omega, h2, h3, h4, and_self, if_true, if_false,
              if_neg hb]
      · refine Or.inl ?_
        unfold utf8Size
        simp only [show ¬ c < 128 by omega, h2, h3, h4, if_false]

/-- Dropping a well-formed multi-byte sequence from a well-formed string content leaves a
well-formed content, shorter than before. -/
theorem strValid_drop_rune (c : Nat) (r : Bytes) (hc : 128 ≤ c)
    (h : strValid (c :: r) = true) (hn : utf8Size (c :: r) ≠ 0) :
    strValid ((c :: r).drop (utf8Size (c :: r))) = true ∧
      ((c :: r).drop (utf8Size (c :: r))).length ≤ r.length := by
  have hr := strValid_tail_high c r hc h
  rcases utf8Size_cases c r hc with h0 | ⟨h2, b1, r1, rfl, hb1⟩ |
    ⟨h3, b1, b2, r2, rfl, hb1, hb2⟩ | ⟨h4, b1, b2, b3, r3, rfl, hb1, hb2, hb3⟩
  · exact absurd h0 hn
  · rw [h2]
    exact ⟨strValid_tail_high b1 r1 hb1 hr, by simp⟩
  · rw [h3]
    exact ⟨strValid_tail_high b2 r2 hb2 (strValid_tail_high b1 _ hb1 hr), by simp; omega⟩
  · rw [h4]
    exact ⟨strValid_tail_high b3 r3 hb3 (strValid_tail_high b2 _ hb2
      (strValid_tail_high b1 _ hb1 hr)), by simp; omega⟩

theorem strValid_cons_inv (c : Nat) (r : Bytes) (h : strValid (c :: r) = true) :
    (c = 92 ∧ ∃ e r1, r = e :: r1 ∧
      (((e = 98 ∨ e = 102 ∨ e = 110 ∨ e = 114 ∨ e = 116 ∨ e = 92 ∨ e = 47 ∨ e = 34) ∧
          strValid r1 = true) ∨
        (e = 117 ∧ ∃ a b c1 d r2, r1 = a :: b :: c1 :: d :: r2 ∧ isHexByte a = true ∧
          isHexByte b = true ∧ isHexByte c1 = true ∧ isHexByte d = true ∧
          strValid r2 = true))) ∨
    (c ≠ 92 ∧ c ≠ 34 ∧ ¬ c < 32 ∧ strValid r = true) := by
  rw [strValid.eq_def] at h
  simp only at h
  by_cases h92 : c = 92
  · simp only [h92, if_true] at h
    refine Or.inl ⟨h92, ?_⟩
    cases r with
    | nil => simp at h
    | cons e r1 =>
      refine ⟨e, r1, rfl, ?_⟩
      simp only at h
      by_cases hs : e = 98 ∨ e = 102 ∨ e = 110 ∨ e = 114 ∨ e = 116 ∨ e = 92 ∨ e = 47 ∨ e = 34
      · rw [if_pos hs] at h
        exact Or.inl ⟨hs, h⟩
      · rw [if_neg hs] at h
        by_cases hu : e = 117
        · rw [if_pos hu] at h
          refine Or.inr ⟨hu, ?_⟩
          match r1, h with
          | a :: b :: c1 :: d :: r2, h =>
            simp only [Bool.and_eq_true] at h
            exact ⟨a, b, c1, d, r2, rfl, h.1.1.1.1, h.1.1.1.2, h.1.1.2, h.1.2, h.2⟩
        · rw [if_neg hu] at h
          simp at h
  · simp only [h92, if_false] at h
    by_cases hq : c = 34 ∨ c < 32
    · rw [if_pos hq] at h
      simp at h
    · rw [if_neg hq] at h
      exact Or.inr ⟨h92, fun e => hq (Or.inl e), fun e => hq (Or.inr e), h⟩

/-- The function `unquoteBytes` accepts every string content the scanner lets through. -/
theorem unquoteLoop_valid (fuel : Nat) (raw : Bytes) (hl : raw.length ≤ fuel)
    (hv : strValid raw = true) : (unquoteLoop fuel raw).isSome = true := by
  induction fuel generalizing raw with
  | zero =>
    have : raw = [] := List.length_eq_zero.mp (Nat.le_zero.mp hl)
    subst this
    rfl
  | succ fuel ih =>
    cases raw with
    | nil => rfl
    | cons c r =>
      simp only [List.length_cons, Nat.add_le_add_iff_right] at hl
      rcases strValid_cons_inv c r hv with ⟨rfl, e, r1, rfl, hcase⟩ | ⟨h92, h34, hctl, hr⟩
      · have hl1 : r1.length ≤ fuel := by simp at hl; omega
        rcases hcase with ⟨hs, hr1⟩ | ⟨rfl, a, b, c1, d, r2, rfl, ha, hb, hc, hd, hr2⟩
        · have := ih r1 hl1 hr1
          simp only [unquoteLoop, if_true]
          rcases hs with rfl | rfl | rfl | rfl | rfl | rfl | rfl | rfl <;>
            simp [isSome_map, this]
        · obtain ⟨v, hvv⟩ := getu4_hex a b c1 d r2 ha hb hc hd
          have hl2 : r2.length ≤ fuel := by simp at hl1; omega
          have h2 := ih r2 hl2 hr2
          simp only [unquoteLoop, if_true, hvv, List.drop_succ_cons, List.drop_zero]
          simp only [show ¬ ((117 : Nat) = 34 ∨ (117 : Nat) = 92 ∨ (117 : Nat) = 47 ∨
            (117 : Nat) = 39) by decide, if_false, show (117 : Nat) ≠ 98 by decide,
            show (117 : Nat) ≠ 102 by decide, show (117 : Nat) ≠ 110 by decide,
            show (117 : Nat) ≠ 114 by decide, show (117 : Nat) ≠ 116 by decide]
          split
          · split
            · rename_i rr1 hrr1
              split
              · obtain ⟨a', b', c', d', r3, rfl, ha', hb', hc', hd'⟩ := getu4_shape r2 rr1 hrr1
                rw [strValid_hex a' b' c' d' r3 ha' hb' hc' hd'] at hr2
                have hl3 : r3.length ≤ fuel := by simp at hl2; omega
                exact isSome_map _ _ (ih r3 hl3 hr2)
              · exact isSome_map _ _ h2
            · exact isSome_map _ _ h2
          · exact isSome_map _ _ h2
      · simp only [unquoteLoop, h92, if_false, h34, hctl, or_self]
        split
        · exact isSome_map _ _ (ih r hl hr)
        · rename_i h128
          split
          · exact isSome_map _ _ (ih r hl hr)
          · rename_i hn
            obtain ⟨hd1, hd2⟩ := strValid_drop_rune c r (by omega) hv hn
            exact isSome_map _ _ (ih _ (le_trans hd2 hl) hd1)

theorem unquoteBytes_valid (raw : Bytes) (hv : strValid raw = true) :
    ∃ s, unquoteBytes raw = some s :=
  Option.isSome_iff_exists.mp (unquoteLoop_valid raw.length raw (le_refl _) hv)

/-! ### Number literals -/

theorem numByte_cases (c : Nat) (h : isNumByte c = true) :
    (48 ≤ c ∧ c ≤ 57) ∨ c = 46 ∨ c = 101 ∨ c = 69 ∨ c = 43 ∨ c = 45 := by
  simp only [isNumByte, isDigitByte, Bool.or_eq_true, Bool.and_eq_true, decide_eq_true_eq] at h
  omega

theorem endValue_numByte (s : Scanner) (c : Nat) (h : isNumByte c = true) :
    Bad (stateEndValue s c) := by
  have hc := numByte_cases c h
  have hsp : isSpace c = false := by
    simp only [isSpace, Bool.or_eq_false_iff, decide_eq_false_iff_not]
    omega
  have h58 : ¬ c = 58 := by omega
  have h44 : ¬ c = 44 := by omega
  have h93 : ¬ c = 93 := by omega
  have h125 : ¬ c = 125 := by omega
  unfold stateEndValue
  split
  · simp only [stateEndTop, hsp]
    exact bad_error _ _
  · rename_i ps rest _
    cases ps
    · simp only [hsp, Bool.false_eq_true, if_false, if_neg h58]
      exact bad_error _ _
    · simp only [hsp, Bool.false_eq_true, if_false, if_neg h44, if_neg h125]
      exact bad_error _ _
    · simp only [hsp, Bool.false_eq_true, if_false, if_neg h44, if_neg h93]
      exact bad_error _ _

theorem scanNumber_spec (L : Bytes) :
    L = (scanNumber L).1 ++ (scanNumber L).2 ∧ (∀ x ∈ (scanNumber L).1, isNumByte x = true) ∧
      ∀ y, (scanNumber L).2.head? = some y → isNumByte y = false := by
  induction L with
  | nil => simp [scanNumber]
  | cons c r ih =>
    by_cases h : isNumByte c = true
    · simp only [scanNumber, h, if_true, List.cons_append, List.mem_cons]
      refine ⟨by rw [← ih.1], ?_, ih.2.2⟩
      intro x hx
      rcases hx with hx | hx
      · rw [hx]; exact h
      · exact ih.2.1 x hx
    · simp only [scanNumber, h, Bool.false_eq_true, if_false, List.nil_append, List.not_mem_nil,
        List.head?_cons, Option.some.injEq, true_and]
      refine ⟨fun _ hx => False.elim hx, ?_⟩
      intro y hy
      rw [← hy]
      simpa using h

theorem num_first (s : Scanner) (c : Nat) (hc : c = 45 ∨ isDigitByte c = true)
    (he : s.err = none) : NumKeeps s (stateBeginValue s c) := by
  have hd : c = 45 ∨ (48 ≤ c ∧ c ≤ 57) := by
    simpa [isDigitByte] using hc
  have hsp : isSpace c = false := by
    simp only [isSpace, Bool.or_eq_false_iff, decide_eq_false_iff_not]
    omega
  unfold stateBeginValue
  simp only [hsp, Bool.false_eq_true, if_false]
  rw [if_neg (by omega), if_neg (by omega), if_neg (by omega)]
  by_cases h45 : c = 45
  · simp [h45, NumKeeps, isNumState, he]
  · rw [if_neg h45]
    by_cases h48 : c = 48
    · simp [h48, NumKeeps, isNumState, he]
    · rw [if_neg h48, if_neg (by omega), if_neg (by omega), if_neg (by omega),
        if_pos (by omega)]
      simp [NumKeeps, isNumState, he]

theorem num_step (s : Scanner) (c : Nat) (hq : isNumState s.step = true) (he : s.err = none)
    (hc : isNumByte c = true) : Bad (s.stepByte c) ∨ NumKeeps s (s.stepByte c) := by
  have hb := endValue_numByte s c hc
  have hcc := numByte_cases c hc
  unfold Scanner.stepByte
  cases hst : s.step <;> rw [hst] at hq <;> simp only [isNumState] at hq <;>
    try (exact absurd hq (by decide))
  all_goals simp only
  · -- stateNeg
    unfold stateNeg
    split
    · right; simp [NumKeeps, isNumState, he]
    · split
      · right; simp [NumKeeps, isNumState, he]
      · left; exact bad_error _ _
  · -- state1
    unfold state1 state0
    split
    · right; simp [NumKeeps, isNumState, he]
    · split
      · right; simp [NumKeeps, isNumState, he]
      · split
        · right; simp [NumKeeps, isNumState, he]
        · left; exact hb
  · -- state0
    unfold state0
    split
    · right; simp [NumKeeps, isNumState, he]
    · split
      · right; simp [NumKeeps, isNumState, he]
      · left; exact hb
  · -- stateDot
    unfold stateDot
    split
    · right; simp [NumKeeps, isNumState, he]
    · left; exact bad_error _ _
  · -- stateDot0
    unfold stateDot0
    split
    · right; simp [NumKeeps, isNumState, he, hst]
    · split
      · right; simp [NumKeeps, isNumState, he]
      · left; exact hb
  · -- stateE
    unfold stateE stateESign
    split
    · right; simp [NumKeeps, isNumState, he]
    · split
      · right; simp [NumKeeps, isNumState, he]
      · left; exact bad_error _ _
  · -- stateESign
    unfold stateESign
    split
    · right; simp [NumKeeps, isNumState, he]
    · left; exact bad_error _ _
  · -- stateE0
    unfold stateE0
    split
    · right; simp [NumKeeps, isNumState, he, hst]
    · left; exact hb

theorem num_run (L : Bytes) (s : Scanner) (hq : isNumState s.step = true) (he : s.err = none)
    (hL : ∀ x ∈ L, isNumByte x = true) : Bad (run s L) ∨ NumKeeps s (run s L) := by
  induction L generalizing s with
  | nil => right; exact ⟨hq, he, rfl, rfl⟩
  | cons c r ih =>
    rw [run_cons]
    rcases num_step s c hq he (hL c (List.mem_cons_self _ _)) with hb | hk
    · left; rw [bad_run _ hb]; exact hb
    · rcases ih (s.stepByte c) hk.1 hk.2.1 (fun x hx => hL x (List.mem_cons_of_mem _ hx)) with
        hb | hk2
      · left; exact hb
      · right; exact ⟨hk2.1, hk2.2.1, hk2.2.2.1.trans hk.2.2.1, hk2.2.2.2.trans hk.2.2.2⟩

theorem num_done_step (s : Scanner) (c : Nat) (hq : isNumDone s.step = true)
    (hc : isNumByte c = false) : s.stepByte c = stateEndValue s c := by
  have hcc : ¬ (48 ≤ c ∧ c ≤ 57) ∧ c ≠ 46 ∧ c ≠ 101 ∧ c ≠ 69 := by
    simp only [isNumByte, isDigitByte, Bool.or_eq_false_iff, Bool.and_eq_false_iff,
      decide_eq_false_iff_not] at hc
    omega
  have hd : isDigitByte c = false := by
    simp only [isDigitByte, Bool.and_eq_false_iff, decide_eq_false_iff_not]
    omega
  unfold Scanner.stepByte
  cases hst : s.step <;> rw [hst] at hq <;> simp only [isNumDone] at hq <;>
    try (exact absurd hq (by decide))
  all_goals simp only
  · unfold state1 state0
    simp [hd, hcc]
  · unfold state0
    simp [hcc]
  · unfold stateDot0
    simp [hd, hcc]
  · unfold stateE0
    simp [hd]

theorem num_open_step (s : Scanner) (c : Nat) (hq : isNumState s.step = true)
    (hn : isNumDone s.step = false) (hc : isNumByte c = false) :
    ∃ ctx, s.stepByte c = s.error ctx := by
  have hcc : ¬ (48 ≤ c ∧ c ≤ 57) ∧ c ≠ 46 ∧ c ≠ 101 ∧ c ≠ 69 ∧ c ≠ 43 ∧ c ≠ 45 := by
    simp only [isNumByte, isDigitByte, Bool.or_eq_false_iff, Bool.and_eq_false_iff,
      decide_eq_false_iff_not] at hc
    omega
  have hd : isDigitByte c = false := by
    simp only [isDigitByte, Bool.and_eq_false_iff, decide_eq_false_iff_not]
    omega
  unfold Scanner.stepByte
  cases hst : s.step <;> rw [hst] at hq hn <;> simp only [isNumState, isNumDone] at hq hn <;>
    try (first | exact absurd hq (by decide) | exact absurd hn (by decide))
  all_goals simp only
  · unfold stateNeg
    rw [if_neg (by omega), if_neg (by omega)]
    exact ⟨_, rfl⟩
  · unfold stateDot
    simp only [hd, Bool.false_eq_true, if_false]
    exact ⟨_, rfl⟩
  · unfold stateE stateESign
    rw [if_neg (by omega)]
    simp only [hd, Bool.false_eq_true, if_false]
    exact ⟨_, rfl⟩
  · unfold stateESign
    simp only [hd, Bool.false_eq_true, if_false]
    exact ⟨_, rfl⟩

theorem number_scan (σ : List ParseState) (s : Scanner) (c : Nat) (r : Bytes)
    (hc : c = 45 ∨ isDigitByte c = true) (he : s.err = none) (hp : s.parseState = σ)
    (ht : s.endTop = false) (hstep : s.stepByte c = stateBeginValue s c) :
    Rej s (c :: r) ∨ ∃ pre, c :: r = pre ++ (scanNumber (c :: r)).2 ∧ pre ≠ [] ∧
      PostValue σ (run s pre) (scanNumber (c :: r)).2 := by
  have hnb : isNumByte c = true := by
    rcases hc with hc | hc
    · simp [isNumByte, hc]
    · simp [isNumByte, hc]
  have hsn : scanNumber (c :: r) = (c :: (scanNumber r).1, (scanNumber r).2) := by
    simp [scanNumber, hnb]
  obtain ⟨hsplit, hall, hhead⟩ := scanNumber_spec r
  have k1 := num_first s c hc he
  have hrun : run s (c :: (scanNumber r).1) = run (stateBeginValue s c) (scanNumber r).1 := by
    rw [run_cons, hstep]
  have hdata : c :: r = (c :: (scanNumber r).1) ++ (scanNumber r).2 := by
    rw [List.cons_append, ← hsplit]
  rw [hsn]
  rcases num_run (scanNumber r).1 (stateBeginValue s c) k1.1 k1.2.1 hall with hb | hk
  · left
    rw [hdata]
    exact rej_of_bad s _ _ (by rw [hrun]; exact hb)
  · have hte : (run s (c :: (scanNumber r).1)).err = none := by rw [hrun]; exact hk.2.1
    have htp : (run s (c :: (scanNumber r).1)).parseState = σ := by
      rw [hrun, hk.2.2.1, k1.2.2.1, hp]
    have htt : (run s (c :: (scanNumber r).1)).endTop = false := by
      rw [hrun, hk.2.2.2, k1.2.2.2, ht]
    have htq : isNumState (run s (c :: (scanNumber r).1)).step = true := by rw [hrun]; exact hk.1
    by_cases hdone : isNumDone (run s (c :: (scanNumber r).1)).step = true
    · right
      refine ⟨c :: (scanNumber r).1, hdata, by simp, hte, htp, fun _ => htt, ?_⟩
      intro y hy
      apply num_done_step _ _ hdone
      rcases hy with hy | hy
      · exact hhead y hy
      · rw [hy]; decide
    · left
      have hopen : isNumDone (run s (c :: (scanNumber r).1)).step = false := by
        simpa using hdone
      rw [hdata]
      cases hrest : (scanNumber r).2 with
      | nil =>
        apply rej_of_rej
        obtain ⟨ctx, hctx⟩ := num_open_step _ 32 htq hopen (by decide)
        refine rej_nil _ hte htt ?_
        rw [hctx]
        exact htt
      | cons y rest =>
        have : (c :: (scanNumber r).1) ++ y :: rest = ((c :: (scanNumber r).1) ++ [y]) ++ rest := by
          simp
        rw [this]
        apply rej_of_bad
        rw [run_append, run_cons, run_nil]
        obtain ⟨ctx, hctx⟩ := num_open_step _ y htq hopen (hhead y (by rw [hrest]; rfl))
        rw [hctx]
        exact bad_error _ _

/-! ### The literals `true`, `false` and `null` -/

theorem lit_step (s : Scanner) (k : Nat) (h : litLeft s.step = k + 1) (c : Nat) :
    litLeft (litNext s.step).2 = k ∧ (litNext s.step).1 ≠ 32 ∧
      (k = 0 → (litNext s.step).2 = .stateEndValue) ∧
      ((c = (litNext s.step).1 ∧ s.stepByte c = { s with step := (litNext s.step).2 }) ∨
        (c ≠ (litNext s.step).1 ∧ ∃ ctx, s.stepByte c = s.error ctx)) := by
  unfold Scanner.stepByte
  cases hst : s.step <;> rw [hst] at h <;> simp only [litLeft] at h <;>
    try (exact absurd h (by omega))
  all_goals
    simp only [litNext, litLeft, stateLit]
    refine ⟨by omega, by decide, by intro hk; first | trivial | omega, ?_⟩
    split
    · left; exact ⟨by assumption, rfl⟩
    · right; exact ⟨by assumption, _, rfl⟩

theorem lit_run (k : Nat) (s : Scanner) (h : litLeft s.step = k) (hz : k = 0 → s.step = .stateEndValue)
    (he : s.err = none) (ht : s.endTop = false) (r : Bytes) :
    Rej s r ∨ (r = r.take k ++ r.drop k ∧ run s (r.take k) = { s with step := .stateEndValue }) := by
  induction k generalizing s r with
  | zero =>
    right
    simp only [List.take_zero, List.drop_zero, List.nil_append, run_nil, true_and]
    cases s
    simp only at hz
    simp [hz trivial]
  | succ k ih =>
    cases r with
    | nil =>
      left
      obtain ⟨_, h32, _, hs⟩ := lit_step s k h 32
      rcases hs with hs | hs
      · exact absurd hs.1.symm h32
      · obtain ⟨ctx, hctx⟩ := hs.2
        refine rej_nil s he ht ?_
        rw [hctx]
        exact ht
    | cons c r =>
      obtain ⟨hl, _, hend, hs⟩ := lit_step s k h c
      rcases hs with hs | hs
      · have := ih { s with step := (litNext s.step).2 } hl hend he ht r
        rcases this with hr | hr
        · left
          have := rej_of_rej s [c] r (by rw [run_cons, run_nil, hs.2]; exact hr)
          simpa using this
        · right
          refine ⟨by simp, ?_⟩
          rw [List.take_succ_cons, run_cons, hs.2, hr.2]
      · left
        obtain ⟨ctx, hctx⟩ := hs.2
        have := rej_of_bad s [c] r (by rw [run_cons, run_nil, hctx]; exact bad_error _ _)
        simpa using this

/-! ### White space, and the states around a value -/

theorem dropSpace_spec (data : Bytes) :
    ∃ sp d, dropSpace data = d ∧ data = sp ++ d ∧ (∀ x ∈ sp, isSpace x = true) ∧
      (∀ c, d.head? = some c → isSpace c = false) ∧ dropSpace d = d := by
  induction data with
  | nil => exact ⟨[], [], rfl, rfl, by simp, by simp, rfl⟩
  | cons c r ih =>
    by_cases h : isSpace c = true
    · obtain ⟨sp, d, h1, h2, h3, h4, h5⟩ := ih
      refine ⟨c :: sp, d, by simp [dropSpace, h, h1], by simp [h2], ?_, h4, h5⟩
      intro x hx
      rcases List.mem_cons.1 hx with hx | hx
      · rw [hx]; exact h
      · exact h3 x hx
    · refine ⟨[], c :: r, by simp [dropSpace, h], rfl, by simp, ?_, by simp [dropSpace, h]⟩
      intro y hy
      simp only [List.head?_cons, Option.some.injEq] at hy
      rw [← hy]
      simpa using h

theorem run_spaces (s : Scanner) (sp : Bytes) (h : ∀ c, isSpace c = true → s.stepByte c = s)
    (hsp : ∀ x ∈ sp, isSpace x = true) : run s sp = s := by
  induction sp with
  | nil => rfl
  | cons c r ih =>
    rw [run_cons, h c (hsp c (List.mem_cons_self _ _))]
    exact ih (fun x hx => hsp x (List.mem_cons_of_mem _ hx))

theorem endValue_space (s : Scanner) (p : ParseState) (σ : List ParseState)
    (hp : s.parseState = p :: σ) (c : Nat) (hc : isSpace c = true) :
    stateEndValue s c = { s with step := .stateEndValue } := by
  unfold stateEndValue
  rw [hp]
  simp [hc]

theorem post_spaces (σ : List ParseState) (p : ParseState) (sp d : Bytes) (s : Scanner)
    (h : PostValue (p :: σ) s (sp ++ d)) (hsp : ∀ x ∈ sp, isSpace x = true) :
    PostValue (p :: σ) (run s sp) d := by
  induction sp generalizing s with
  | nil => simpa using h
  | cons c r ih =>
    rw [run_cons]
    apply ih _ _ (fun x hx => hsp x (List.mem_cons_of_mem _ hx))
    obtain ⟨h1, h2, h3, h4⟩ := h
    rw [h4 c (Or.inl rfl), endValue_space s p σ h2 c (hsp c (List.mem_cons_self _ _))]
    exact ⟨h1, h2, h3, fun y _ => by simp [Scanner.stepByte]⟩

theorem agree_shift {α : Type} (σ : List ParseState) (s t : Scanner) (pre0 data : Bytes)
    (res : Option (α × Bytes)) (hrun : run s pre0 = t) (h : Agree σ t data res) :
    Agree σ s (pre0 ++ data) res := by
  rcases h with h | ⟨j, rest, pre, h1, h2, h3, h4⟩
  · left
    apply rej_of_rej
    rw [hrun]
    exact h
  · right
    refine ⟨j, rest, pre0 ++ pre, h1, by rw [h2, List.append_assoc], by simp [h3], ?_⟩
    rw [run_append, hrun]
    exact h4

theorem agree_done {α : Type} (σ : List ParseState) (s : Scanner) (pre rest : Bytes) (j : α)
    (hpre : pre ≠ []) (h : PostValue σ (run s pre) rest) :
    Agree σ s (pre ++ rest) (some (j, rest)) :=
  Or.inr ⟨j, rest, pre, rfl, rfl, hpre, h⟩

theorem agree_none {α : Type} (σ : List ParseState) (s : Scanner) (data : Bytes)
    (h : Agree σ s data (none : Option (α × Bytes))) : Rej s data := by
  rcases h with h | ⟨j, rest, pre, h1, _⟩
  · exact h
  · cases h1

theorem agree_some {α β : Type} (σ : List ParseState) (s : Scanner) (data : Bytes) (x : α)
    (y : β) (r : Bytes) (h : Agree σ s data (some (x, r))) : Agree σ s data (some (y, r)) := by
  rcases h with h | ⟨j, rest, pre, h1, h2, h3, h4⟩
  · exact Or.inl h
  · simp only [Option.some.injEq, Prod.mk.injEq] at h1
    exact Or.inr ⟨y, rest, pre, by rw [h1.2], h2, h3, h4⟩

theorem begin_space (s : Scanner) (hs : ValueStart s) (c : Nat) (hc : isSpace c = true) :
    s.stepByte c = s := by
  unfold Scanner.stepByte
  rcases hs.2.2 with h | h <;> rw [h] <;> simp [stateBeginValue, stateBeginValueOrEmpty, hc]

theorem begin_step (s : Scanner) (hs : ValueStart s) (c : Nat) (hc : isSpace c = false)
    (h93 : s.step = .stateBeginValueOrEmpty → c ≠ 93) :
    s.stepByte c = stateBeginValue s c := by
  unfold Scanner.stepByte
  rcases hs.2.2 with h | h <;> rw [h]
  simp [stateBeginValueOrEmpty, hc, h93 h]

theorem key_space (s : Scanner) (hs : KeyStart s) (c : Nat) (hc : isSpace c = true) :
    s.stepByte c = s := by
  unfold Scanner.stepByte
  rcases hs.2.2 with h | h <;> rw [h] <;> simp [stateBeginString, stateBeginStringOrEmpty, hc]

theorem key_quote (s : Scanner) (hs : KeyStart s) :
    s.stepByte 34 = { s with step := .stateInString } := by
  unfold Scanner.stepByte
  rcases hs.2.2 with h | h <;> rw [h] <;>
    simp [stateBeginString, stateBeginStringOrEmpty, isSpace]

theorem push_cases (s : Scanner) (p : ParseState) (next : ScanStep) :
    Bad (s.pushParseState p next) ∨
      s.pushParseState p next = { s with step := next, parseState := p :: s.parseState } := by
  unfold Scanner.pushParseState
  simp only
  split
  · right; rfl
  · left; exact bad_error _ _

theorem pop_post (σ : List ParseState) (p : ParseState) (s : Scanner) (rest : Bytes)
    (he : s.err = none) (hp : s.parseState = p :: σ) (ht : s.endTop = false) :
    PostValue σ s.popParseState rest := by
  unfold Scanner.popParseState
  simp only [hp, List.tail_cons]
  split
  · rename_i h
    have hσ : σ = [] := List.length_eq_zero.1 h
    subst hσ
    refine ⟨he, rfl, fun h => absurd rfl h, fun c _ => ?_⟩
    simp [Scanner.stepByte, stateEndValue]
  · exact ⟨he, rfl, fun _ => ht, fun c _ => by simp [Scanner.stepByte]⟩

theorem endValue_arr_comma (s : Scanner) (σ : List ParseState)
    (hp : s.parseState = .parseArrayValue :: σ) :
    stateEndValue s 44 = { s with step := .stateBeginValue } := by
  unfold stateEndValue
  rw [hp]
  simp [isSpace]

theorem endValue_arr_close (s : Scanner) (σ : List ParseState)
    (hp : s.parseState = .parseArrayValue :: σ) : stateEndValue s 93 = s.popParseState := by
  unfold stateEndValue
  rw [hp]
  simp [isSpace]

theorem endValue_arr_other (s : Scanner) (σ : List ParseState)
    (hp : s.parseState = .parseArrayValue :: σ) (c : Nat) (hc : isSpace c = false)
    (h1 : c ≠ 44) (h2 : c ≠ 93) : Bad (stateEndValue s c) := by
  unfold stateEndValue
  rw [hp]
  simp only [hc, Bool.false_eq_true, if_false, if_neg h1, if_neg h2]
  exact bad_error _ _

theorem endValue_obj_comma (s : Scanner) (σ : List ParseState)
    (hp : s.parseState = .parseObjectValue :: σ) :
    stateEndValue s 44 =
      { s with parseState := .parseObjectKey :: σ, step := .stateBeginString } := by
  unfold stateEndValue
  rw [hp]
  simp [isSpace]

theorem endValue_obj_close (s : Scanner) (σ : List ParseState)
    (hp : s.parseState = .parseObjectValue :: σ) : stateEndValue s 125 = s.popParseState := by
  unfold stateEndValue
  rw [hp]
  simp [isSpace]

theorem endValue_obj_other (s : Scanner) (σ : List ParseState)
    (hp : s.parseState = .parseObjectValue :: σ) (c : Nat) (hc : isSpace c = false)
    (h1 : c ≠ 44) (h2 : c ≠ 125) : Bad (stateEndValue s c) := by
  unfold stateEndValue
  rw [hp]
  simp only [hc, Bool.false_eq_true, if_false, if_neg h1, if_neg h2]
  exact bad_error _ _

theorem endValue_key_colon (s : Scanner) (σ : List ParseState)
    (hp : s.parseState = .parseObjectKey :: σ) :
    stateEndValue s 58 =
      { s with parseState := .parseObjectValue :: σ, step := .stateBeginValue } := by
  unfold stateEndValue
  rw [hp]
  simp [isSpace]

theorem endValue_key_other (s : Scanner) (σ : List ParseState)
    (hp : s.parseState = .parseObjectKey :: σ) (c : Nat) (hc : isSpace c = false)
    (h1 : c ≠ 58) : Bad (stateEndValue s c) := by
  unfold stateEndValue
  rw [hp]
  simp only [hc, Bool.false_eq_true, if_false, if_neg h1]
  exact bad_error _ _

theorem post_rej (σ : List ParseState) (p : ParseState) (s : Scanner) (d : Bytes)
    (h : PostValue (p :: σ) s d) (hbad : ∀ c, d.head? = some c → Bad (stateEndValue s c)) :
    Rej s d := by
  obtain ⟨h1, h2, h3, h4⟩ := h
  have ht := h3 (by simp)
  cases d with
  | nil =>
    refine rej_nil s h1 ht ?_
    rw [h4 32 (Or.inr rfl), endValue_space s p σ h2 32 rfl]
    exact ht
  | cons c r =>
    have := rej_of_bad s [c] r (by
      rw [run_cons, run_nil, h4 c (Or.inl rfl)]
      exact hbad c rfl)
    simpa using this

theorem string_value (s : Scanner) (hs : s.step = .stateInString) (he : s.err = none)
    (ht : s.endTop = false) (r : Bytes) :
    (scanString r = none → Rej s r) ∧
      ∀ raw r1, scanString r = some (raw, r1) →
        Rej s r ∨ (r = (raw ++ [34]) ++ r1 ∧ (∃ str, unquoteBytes raw = some str) ∧
          run s (raw ++ [34]) = { s with step := .stateEndValue }) := by
  obtain ⟨h1, h2⟩ := string_scan r.length r (Nat.le_refl _) s hs he ht
  refine ⟨h1, ?_⟩
  intro raw r1 hsc
  have hsplit := scanString_split r.length r raw r1 (Nat.le_refl _) hsc
  have hr : r = (raw ++ [34]) ++ r1 := by simp [hsplit]
  rcases h2 raw r1 hsc with ⟨hv, hrun⟩ | hb
  · right
    refine ⟨hr, unquoteBytes_valid raw hv, ?_⟩
    rw [run_append, hrun, run_cons, run_nil]
    simp [Scanner.stepByte, hs, stateInString]
  · left
    rw [hr]
    exact rej_of_bad s _ _ hb

theorem post_endValue (σ : List ParseState) (s : Scanner) (rest : Bytes) (he : s.err = none)
    (hp : s.parseState = σ) (ht : s.endTop = false) (hstep : s.step = .stateEndValue) :
    PostValue σ s rest :=
  ⟨he, hp, fun _ => ht, fun c _ => by simp [Scanner.stepByte, hstep]⟩

theorem beginValue_obj (s : Scanner) :
    stateBeginValue s 123 = s.pushParseState .parseObjectKey .stateBeginStringOrEmpty := by
  simp [stateBeginValue, isSpace]

theorem beginValue_arr (s : Scanner) :
    stateBeginValue s 91 = s.pushParseState .parseArrayValue .stateBeginValueOrEmpty := by
  simp [stateBeginValue, isSpace]

theorem beginValue_str (s : Scanner) :
    stateBeginValue s 34 = { s with step := .stateInString } := by
  simp [stateBeginValue, isSpace]

theorem beginValue_t (s : Scanner) : stateBeginValue s 116 = { s with step := .stateT } := by
  simp [stateBeginValue, isSpace]

theorem beginValue_f (s : Scanner) : stateBeginValue s 102 = { s with step := .stateF } := by
  simp [stateBeginValue, isSpace]

theorem beginValue_n (s : Scanner) : stateBeginValue s 110 = { s with step := .stateN } := by
  simp [stateBeginValue, isSpace]

theorem beginValue_other (s : Scanner) (c : Nat) (hc : isSpace c = false) (h1 : c ≠ 123)
    (h2 : c ≠ 91) (h3 : c ≠ 34) (h4 : c ≠ 116) (h5 : c ≠ 102) (h6 : c ≠ 110)
    (h7 : ¬ (c = 45 ∨ isDigitByte c = true)) : Bad (stateBeginValue s c) := by
  have h8 : c ≠ 45 ∧ ¬ (48 ≤ c ∧ c ≤ 57) := by
    simpa [isDigitByte] using h7
  unfold stateBeginValue
  simp only [hc, Bool.false_eq_true, if_false]
  rw [if_neg h1, if_neg h2, if_neg h3, if_neg h8.1, if_neg (by omega), if_neg h4, if_neg h5,
    if_neg h6, if_neg (by omega)]
  exact bad_error _ _

theorem literal_value (σ : List ParseState) (s : Scanner) (c k : Nat) (q : ScanStep)
    (r : Bytes) (j : JSON) (he : s.err = none) (hp : s.parseState = σ) (ht : s.endTop = false)
    (hstep : s.stepByte c = { s with step := q }) (hq : litLeft q = k + 1) :
    Agree σ s (c :: r) (some (j, r.drop (k + 1))) := by
  rcases lit_run (k + 1) { s with step := q } hq (fun h => absurd h (by omega)) he ht r with
    h | ⟨h1, h2⟩
  · left
    have := rej_of_rej s [c] r (by rw [run_cons, run_nil, hstep]; exact h)
    simpa using this
  · right
    refine ⟨j, r.drop (k + 1), c :: r.take (k + 1), rfl, ?_, by simp, ?_⟩
    · rw [List.cons_append, List.take_append_drop]
    · rw [run_cons, hstep, h2]
      exact post_endValue σ _ _ he hp ht rfl

theorem value_ok (fuel : Nat) (hE : EOk fuel) (hM : MOk fuel) : VOk (fuel + 1) := by
  intro data σ s hs hp hne hfuel
  obtain ⟨sp, d, hd, hdata, hsp, hhead, _⟩ := dropSpace_spec data
  have hrun : run s sp = s := run_spaces s sp (fun c hc => begin_space s hs c hc) hsp
  rw [parseValue, hd]
  rw [hd] at hne
  subst hdata
  apply agree_shift σ s s sp _ _ hrun
  cases d with
  | nil =>
    left
    refine rej_nil s hs.1 hs.2.1 ?_
    rw [begin_space s hs 32 rfl]
    exact hs.2.1
  | cons c r =>
    have hc := hhead c rfl
    have hstep : s.stepByte c = stateBeginValue s c :=
      begin_step s hs c hc (fun h h93 => hne h (by rw [h93]; rfl))
    have hlen : 2 * r.length + 2 ≤ fuel := by
      simp only [List.length_append, List.length_cons] at hfuel
      omega
    have hrun1 : run s [c] = stateBeginValue s c := by rw [run_cons, run_nil, hstep]
    simp only
    by_cases h123 : c = 123
    · subst h123
      rw [if_pos rfl]
      rcases push_cases s .parseObjectKey .stateBeginStringOrEmpty with hb | hpush
      · left
        have := rej_of_bad s [123] r (by rw [hrun1, beginValue_obj]; exact hb)
        simpa using this
      · have hk : KeyStart (s.pushParseState .parseObjectKey .stateBeginStringOrEmpty) := by
          rw [hpush]
          exact ⟨hs.1, hs.2.1, Or.inr rfl⟩
        have ih := hM r σ _ [] hk (by rw [hpush, hp]) hlen
        have ih2 := agree_shift σ s _ [123] r _ (by rw [hrun1, beginValue_obj]) ih
        cases hres : parseMembers fuel r [] with
        | none =>
          rw [hres] at ih2
          left
          exact agree_none _ _ _ ih2
        | some pr =>
          obtain ⟨ms, r1⟩ := pr
          rw [hres] at ih2
          exact agree_some _ _ _ _ _ _ ih2
    rw [if_neg h123]
    by_cases h91 : c = 91
    · subst h91
      rw [if_pos rfl]
      rcases push_cases s .parseArrayValue .stateBeginValueOrEmpty with hb | hpush
      · left
        have := rej_of_bad s [91] r (by rw [hrun1, beginValue_arr]; exact hb)
        simpa using this
      · have hk : ValueStart (s.pushParseState .parseArrayValue .stateBeginValueOrEmpty) := by
          rw [hpush]
          exact ⟨hs.1, hs.2.1, Or.inr rfl⟩
        have ih := hE r σ _ [] hk (by rw [hpush, hp]) hlen
        have ih2 := agree_shift σ s _ [91] r _ (by rw [hrun1, beginValue_arr]) ih
        cases hres : parseElems fuel r [] with
        | none =>
          rw [hres] at ih2
          left
          exact agree_none _ _ _ ih2
        | some pr =>
          obtain ⟨xs, r1⟩ := pr
          rw [hres] at ih2
          exact agree_some _ _ _ _ _ _ ih2
    rw [if_neg h91]
    by_cases h34 : c = 34
    · subst h34
      rw [if_pos rfl]
      obtain ⟨hnone, hsome⟩ := string_value { s with step := .stateInString } rfl hs.1 hs.2.1 r
      have hrun2 : run s [34] = { s with step := .stateInString } := by
        rw [hrun1, beginValue_str]
      cases hsc : scanString r with
      | none =>
        left
        have := rej_of_rej s [34] r (by rw [hrun2]; exact hnone hsc)
        simpa using this
      | some pr =>
        obtain ⟨raw, r1⟩ := pr
        rcases hsome raw r1 hsc with hr | ⟨h1, ⟨str, h2⟩, h3⟩
        · left
          have := rej_of_rej s [34] r (by rw [hrun2]; exact hr)
          simpa using this
        · simp only [h2]
          have := agree_done σ s (34 :: (raw ++ [34])) r1 (JSON.str str) (by simp) (by
            rw [run_cons, hstep, beginValue_str, h3]
            exact post_endValue σ _ _ hs.1 hp hs.2.1 rfl)
          rw [h1]
          exact this
    rw [if_neg h34]
    by_cases h116 : c = 116
    · subst h116
      rw [if_pos rfl]
      exact literal_value σ s 116 2 .stateT r _ hs.1 hp hs.2.1 (by rw [hstep, beginValue_t]) rfl
    rw [if_neg h116]
    by_cases h102 : c = 102
    · subst h102
      rw [if_pos rfl]
      exact literal_value σ s 102 3 .stateF r _ hs.1 hp hs.2.1 (by rw [hstep, beginValue_f]) rfl
    rw [if_neg h102]
    by_cases h110 : c = 110
    · subst h110
      rw [if_pos rfl]
      exact literal_value σ s 110 2 .stateN r _ hs.1 hp hs.2.1 (by rw [hstep, beginValue_n]) rfl
    rw [if_neg h110]
    by_cases hnum : c = 45 ∨ isDigitByte c = true
    · rw [if_pos hnum]
      rcases number_scan σ s c r hnum hs.1 hp hs.2.1 hstep with h | ⟨pre, h1, h2, h3⟩
      · exact Or.inl h
      · exact Or.inr ⟨_, _, pre, rfl, h1, h2, h3⟩
    · rw [if_neg hnum]
      left
      have := rej_of_bad s [c] r (by
        rw [hrun1]
        exact beginValue_other s c hc h123 h91 h34 h116 h102 h110 hnum)
      simpa using this

theorem head_ne_of_not_cons (d : Bytes) (k : Nat) (h : ∀ r, d = k :: r → False) :
    ∀ c, d.head? = some c → c ≠ k := by
  intro c hc hck
  cases d with
  | nil => simp at hc
  | cons a r =>
    simp only [List.head?_cons, Option.some.injEq] at hc
    exact h r (by rw [hc, hck])

theorem elems_ok (fuel : Nat) (hV : VOk fuel) (hE : EOk fuel) : EOk (fuel + 1) := by
  intro data σ s acc hs hp hfuel
  obtain ⟨sp, d, hd, hdata, hsp, hhead, hidem⟩ := dropSpace_spec data
  have hrun : run s sp = s := run_spaces s sp (fun c hc => begin_space s hs c hc) hsp
  rw [parseElems, hd]
  subst hdata
  apply agree_shift σ s s sp _ _ hrun
  simp only [List.length_append] at hfuel
  split
  · rename_i r
    rcases hs.2.2 with hst | hst
    · left
      have := rej_of_bad s [93] r (by
        rw [run_cons, run_nil]
        unfold Scanner.stepByte
        rw [hst]
        simp only [stateBeginValue, isSpace]
        exact bad_error _ _)
      simpa using this
    · have hstep : s.stepByte 93 = s.popParseState := by
        unfold Scanner.stepByte
        rw [hst]
        simp only [stateBeginValueOrEmpty, isSpace]
        exact endValue_arr_close s σ hp
      have := agree_done σ s [93] r acc.reverse (by simp) (by
        rw [run_cons, run_nil, hstep]
        exact pop_post σ _ s r hs.1 hp hs.2.1)
      simpa using this
  · rename_i dd hnot
    have hh := head_ne_of_not_cons d 93 hnot
    have ih := hV d (.parseArrayValue :: σ) s hs hp
      (by rw [hidem]; intro _ h; exact hh 93 h rfl) (by omega)
    cases hres : parseValue fuel d with
    | none =>
      rw [hres] at ih
      left
      exact agree_none _ _ _ ih
    | some pr =>
      obtain ⟨x, r⟩ := pr
      rw [hres] at ih
      simp only
      rcases ih with h | ⟨j, rest, pre, h1, h2, h3, h4⟩
      · exact Or.inl h
      · simp only [Option.some.injEq, Prod.mk.injEq] at h1
        obtain ⟨_, hrr⟩ := h1
        subst hrr
        obtain ⟨sp2, d2, hd2, hr, hsp2, hhead2, hidem2⟩ := dropSpace_spec r
        rw [hd2]
        subst hr
        have hpost := post_spaces σ .parseArrayValue sp2 d2 (run s pre) h4 hsp2
        subst h2
        have hpl : 1 ≤ pre.length := List.length_pos.2 h3
        simp only [List.length_append] at hfuel
        rw [← List.append_assoc]
        apply agree_shift σ s _ (pre ++ sp2) d2 _ (run_append s pre sp2)
        generalize run (run s pre) sp2 = u at hpost
        obtain ⟨ue, up, ut, ustep⟩ := hpost
        split
        · rename_i r1
          have hu : u.stepByte 44 = { u with step := .stateBeginValue } := by
            rw [ustep 44 (Or.inl rfl), endValue_arr_comma u σ up]
          simp only [List.length_cons] at hfuel
          have hk : ValueStart (u.stepByte 44) := by
            rw [hu]
            exact ⟨ue, ut (by simp), Or.inl rfl⟩
          have hkp : (u.stepByte 44).parseState = .parseArrayValue :: σ := by
            rw [hu]
            exact up
          have ih2 := hE r1 σ (u.stepByte 44) (x :: acc) hk hkp (by omega)
          have := agree_shift σ u _ [44] r1 _ (by rw [run_cons, run_nil]) ih2
          simpa using this
        · rename_i r1
          have := agree_done σ u [93] r1 (x :: acc).reverse (by simp) (by
            rw [run_cons, run_nil, ustep 93 (Or.inl rfl), endValue_arr_close u σ up]
            exact pop_post σ _ u r1 ue up (ut (by simp)))
          simpa using this
        · rename_i h44 h93
          left
          apply post_rej σ .parseArrayValue u _ ⟨ue, up, ut, ustep⟩
          intro c hc
          exact endValue_arr_other u σ up c (hhead2 c hc) (head_ne_of_not_cons _ 44 h44 c hc)
            (head_ne_of_not_cons _ 93 h93 c hc)

theorem key_close (s : Scanner) (σ : List ParseState) (hst : s.step = .stateBeginStringOrEmpty)
    (he : s.err = none) (ht : s.endTop = false) (hp : s.parseState = .parseObjectKey :: σ)
    (rest : Bytes) : PostValue σ (s.stepByte 125) rest := by
  unfold Scanner.stepByte
  rw [hst]
  simp only [stateBeginStringOrEmpty, isSpace]
  rw [hp]
  simp only [Nat.reduceEqDiff, Bool.or_self, decide_False, Bool.false_eq_true, if_false,
    if_true, List.tail_cons]
  rw [endValue_obj_close _ σ rfl]
  exact pop_post σ .parseObjectValue _ rest he rfl ht

theorem key_close_bad (s : Scanner) (hst : s.step = .stateBeginString) :
    Bad (s.stepByte 125) := by
  unfold Scanner.stepByte
  rw [hst]
  simp only [stateBeginString, isSpace]
  exact bad_error _ _

theorem key_other (s : Scanner) (hs : KeyStart s) (c : Nat) (hc : isSpace c = false)
    (h1 : c ≠ 125) (h2 : c ≠ 34) : Bad (s.stepByte c) := by
  unfold Scanner.stepByte
  rcases hs.2.2 with h | h <;> rw [h]
  · simp only [stateBeginString, hc, Bool.false_eq_true, if_false, if_neg h2]
    exact bad_error _ _
  · simp only [stateBeginStringOrEmpty, stateBeginString, hc, Bool.false_eq_true, if_false,
      if_neg h1, if_neg h2]
    exact bad_error _ _

theorem members_ok (fuel : Nat) (hV : VOk fuel) (hM : MOk fuel) : MOk (fuel + 1) := by
  intro data σ s acc hs hp hfuel
  obtain ⟨sp, d, hd, hdata, hsp, hhead, hidem⟩ := dropSpace_spec data
  have hrun : run s sp = s := run_spaces s sp (fun c hc => key_space s hs c hc) hsp
  rw [parseMembers, hd]
  subst hdata
  apply agree_shift σ s s sp _ _ hrun
  simp only [List.length_append] at hfuel
  split
  · rename_i r
    rcases hs.2.2 with hst | hst
    · left
      have := rej_of_bad s [125] r (by
        rw [run_cons, run_nil]
        exact key_close_bad s hst)
      simpa using this
    · have := agree_done σ s [125] r acc.reverse (by simp) (by
        rw [run_cons, run_nil]
        exact key_close s σ hst hs.1 hs.2.1 hp r)
      simpa using this
  · rename_i d1
    have hq := key_quote s hs
    obtain ⟨hnone, hsome⟩ := string_value (s.stepByte 34) (by rw [hq]) (by rw [hq]; exact hs.1)
      (by rw [hq]; exact hs.2.1) d1
    cases hsc : scanString d1 with
    | none =>
      left
      have := rej_of_rej s [34] d1 (by rw [run_cons, run_nil]; exact hnone hsc)
      simpa using this
    | some pr =>
      obtain ⟨raw, r⟩ := pr
      rcases hsome raw r hsc with hr | ⟨h1, ⟨key, h2⟩, h3⟩
      · left
        have := rej_of_rej s [34] d1 (by rw [run_cons, run_nil]; exact hr)
        simpa using this
      · simp only [h2]
        have hpost0 : PostValue (.parseObjectKey :: σ) (run s (34 :: (raw ++ [34]))) r := by
          rw [run_cons, h3]
          exact post_endValue _ _ _ (by rw [hq]; exact hs.1) (by rw [hq]; exact hp)
            (by rw [hq]; exact hs.2.1) rfl
        obtain ⟨sp2, d2, hd2, hr, hsp2, hhead2, hidem2⟩ := dropSpace_spec r
        rw [hd2]
        subst hr
        have hpost := post_spaces σ .parseObjectKey sp2 d2 _ hpost0 hsp2
        subst h1
        simp only [List.length_append, List.length_cons, List.length_nil] at hfuel
        have hshape : 34 :: (raw ++ [34] ++ (sp2 ++ d2)) = (34 :: (raw ++ [34]) ++ sp2) ++ d2 := by
          simp
        rw [hshape]
        apply agree_shift σ s _ (34 :: (raw ++ [34]) ++ sp2) d2 _ (run_append s _ sp2)
        generalize run (run s (34 :: (raw ++ [34]))) sp2 = u at hpost
        obtain ⟨ue, up, ut, ustep⟩ := hpost
        split
        · rename_i r1
          have hu : u.stepByte 58 =
              { u with parseState := .parseObjectValue :: σ, step := .stateBeginValue } := by
            rw [ustep 58 (Or.inl rfl), endValue_key_colon u σ up]
          have hk : ValueStart (u.stepByte 58) := by
            rw [hu]
            exact ⟨ue, ut (by simp), Or.inl rfl⟩
          have hkp : (u.stepByte 58).parseState = .parseObjectValue :: σ := by
            rw [hu]
          simp only [List.length_cons] at hfuel
          have ih := hV r1 (.parseObjectValue :: σ) (u.stepByte 58) hk hkp
            (by rw [hu]; intro h; cases h) (by omega)
          have hsh : run u [58] = u.stepByte 58 := by rw [run_cons, run_nil]
          cases hres : parseValue fuel r1 with
          | none =>
            rw [hres] at ih
            left
            have := rej_of_rej u [58] r1 (by rw [hsh]; exact agree_none _ _ _ ih)
            simpa using this
          | some pr =>
            obtain ⟨x, r2⟩ := pr
            rw [hres] at ih
            simp only
            rcases ih with h | ⟨j, rest, pre, e1, e2, e3, e4⟩
            · left
              have := rej_of_rej u [58] r1 (by rw [hsh]; exact h)
              simpa using this
            · simp only [Option.some.injEq, Prod.mk.injEq] at e1
              obtain ⟨_, hrr⟩ := e1
              subst hrr
              obtain ⟨sp3, d3, hd3, hr3, hsp3, hhead3, hidem3⟩ := dropSpace_spec r2
              rw [hd3]
              subst hr3
              have hpost3 := post_spaces σ .parseObjectValue sp3 d3 _ e4 hsp3
              subst e2
              have hpl : 1 ≤ pre.length := List.length_pos.2 e3
              simp only [List.length_append] at hfuel
              have hshape3 : 58 :: (pre ++ (sp3 ++ d3)) = (58 :: pre ++ sp3) ++ d3 := by simp
              rw [hshape3]
              apply agree_shift σ u _ (58 :: pre ++ sp3) d3 _ (by
                rw [List.cons_append, run_cons, run_append])
              generalize run (run (u.stepByte 58) pre) sp3 = w at hpost3
              obtain ⟨we, wp, wt, wstep⟩ := hpost3
              split
              · rename_i r3
                have hw : w.stepByte 44 =
                    { w with parseState := .parseObjectKey :: σ, step := .stateBeginString } := by
                  rw [wstep 44 (Or.inl rfl), endValue_obj_comma w σ wp]
                have hk3 : KeyStart (w.stepByte 44) := by
                  rw [hw]
                  exact ⟨we, wt (by simp), Or.inl rfl⟩
                have hkp3 : (w.stepByte 44).parseState = .parseObjectKey :: σ := by
                  rw [hw]
                simp only [List.length_cons] at hfuel
                have ih3 := hM r3 σ (w.stepByte 44) ((key, x) :: acc) hk3 hkp3 (by omega)
                have := agree_shift σ w _ [44] r3 _ (by rw [run_cons, run_nil]) ih3
                simpa using this
              · rename_i r3
                have := agree_done σ w [125] r3 ((key, x) :: acc).reverse (by simp) (by
                  rw [run_cons, run_nil, wstep 125 (Or.inl rfl), endValue_obj_close w σ wp]
                  exact pop_post σ _ w r3 we wp (wt (by simp)))
                simpa using this
              · rename_i h44 h125
                left
                apply post_rej σ .parseObjectValue w _ ⟨we, wp, wt, wstep⟩
                intro c hc
                exact endValue_obj_other w σ wp c (hhead3 c hc)
                  (head_ne_of_not_cons _ 44 h44 c hc) (head_ne_of_not_cons _ 125 h125 c hc)
        · rename_i h58
          left
          apply post_rej σ .parseObjectKey u _ ⟨ue, up, ut, ustep⟩
          intro c hc
          exact endValue_key_other u σ up c (hhead2 c hc) (head_ne_of_not_cons _ 58 h58 c hc)
  · rename_i h125 h34
    left
    cases d with
    | nil =>
      refine rej_nil s hs.1 hs.2.1 ?_
      rw [key_space s hs 32 rfl]
      exact hs.2.1
    | cons c r =>
      have := rej_of_bad s [c] r (by
        rw [run_cons, run_nil]
        exact key_other s hs c (hhead c rfl) (head_ne_of_not_cons _ 125 h125 c rfl)
          (head_ne_of_not_cons _ 34 h34 c rfl))
      simpa using this

theorem all_ok (fuel : Nat) : VOk fuel ∧ EOk fuel ∧ MOk fuel := by
  induction fuel with
  | zero =>
    refine ⟨?_, ?_, ?_⟩
    · intro data σ s _ _ _ h
      omega
    · intro data σ s acc _ _ h
      omega
    · intro data σ s acc _ _ h
      omega
  | succ n ih =>
    exact ⟨value_ok n ih.2.1 ih.2.2, elems_ok n ih.1 ih.2.1, members_ok n ih.1 ih.2.2⟩

/-- Every input the scanner accepts is walked to the end by the decoder. -/
theorem parseDocument_of_checkValid (data : Bytes) (h : checkValid data = none) :
    ∃ j, parseDocument data = some j := by
  have hv := (all_ok (2 * data.length + 2)).1 data [] Scanner.reset
    ⟨rfl, rfl, Or.inl rfl⟩ rfl (by intro h; cases h) (by omega)
  rcases hv with hr | ⟨j, rest, pre, h1, _⟩
  · exact absurd h hr
  · exact ⟨j, by rw [parseDocument, h1]; rfl⟩

/-- The decoder is never out of step with the scanner: `Unmarshal` returns, with or without an
error. -/
theorem Unmarshal_returns (data : Bytes) (v : AirzoneSystem) :
    ∃ sys err, Unmarshal data v = .returned sys err := by
  unfold Unmarshal
  cases h : checkValid data with
  | some msg => exact ⟨_, _, rfl⟩
  | none =>
    obtain ⟨j, hj⟩ := parseDocument_of_checkValid data h
    simp only [hj]
    exact ⟨_, _, rfl⟩

/-! ## The claims -/

/-- C1: when the client, the batch and every point are created and the write is accepted,
`pushInflux` hands exactly one batch to `c.Write`; that batch holds as many points as there are
readings, in reading order, and the tags of the i-th point are exactly `systemid`, the decimal
text of `Data[i].SystemID`, and `zoneid`, the decimal text of `Data[i].ZoneID`. -/
theorem pushInflux_batch_tags (cfg : Config) (env : Env) (net : Net) (az : AirzoneSystem)
    (w : World)
    (hc : env.newHTTPClient ⟨cfg.influxURL, cfg.influxUSER, cfg.influxPASS, 10⟩ = none)
    (hb : env.newBatchPoints ⟨cfg.influxDB, "s"⟩ = none)
    (hp : ∀ z ∈ az.Data.elems, ∀ t,
      env.newPoint "metrics" (pointTags z) (pointFields z) t = none)
    (hw : net.writeResult = none) :
    ∃ w1 evs bp, pushInflux cfg env net az w = .ok w1 ∧ w1.trace = w.trace ++ evs ∧
      writes evs = [bp] ∧ bp.points.length = az.Data.elems.length ∧
      bp.points.map Point.tags =
        az.Data.elems.map
          (fun z => [("systemid", Itoa z.SystemID), ("zoneid", Itoa z.ZoneID)]) := by
  obtain ⟨w1, evs, h1, h2, h3, -, -⟩ := pushInflux_ok cfg env net az w hc hb hp hw
  exact ⟨w1, evs, _, h1, h2, h3, pointsFrom_length _ _ _, pointsFrom_tags _ _ _⟩

/-- C1, on the sample response with two readings. -/
theorem pushInflux_batch_tags_witness :
    sampleEnv.newHTTPClient
        ⟨sampleCfg.influxURL, sampleCfg.influxUSER, sampleCfg.influxPASS, 10⟩ = none ∧
      sampleEnv.newBatchPoints ⟨sampleCfg.influxDB, "s"⟩ = none ∧
      (∀ z ∈ sampleSystem.Data.elems, ∀ t,
        sampleEnv.newPoint "metrics" (pointTags z) (pointFields z) t = none) ∧
      (replies []).writeResult = none ∧
      ∃ w1 evs bp, pushInflux sampleCfg sampleEnv (replies []) sampleSystem startWorld = .ok w1 ∧
        w1.trace = startWorld.trace ++ evs ∧ writes evs = [bp] ∧
        bp.points.length = sampleSystem.Data.elems.length ∧
        bp.points.map Point.tags =
          sampleSystem.Data.elems.map
            (fun z => [("systemid", Itoa z.SystemID), ("zoneid", Itoa z.ZoneID)]) :=
  ⟨rfl, rfl, fun _ _ _ => rfl, rfl,
    pushInflux_batch_tags sampleCfg sampleEnv (replies []) sampleSystem startWorld rfl rfl
      (fun _ _ _ => rfl) rfl⟩

/-- C2: every point `pushInflux` builds has the measurement name `metrics` and exactly the
fields `roomtemp`, `humidity`, `setpoint`, holding `RoomTemp`, `Humidity` and `Setpoint` of its
reading unchanged; and the scenario payload decodes to one reading from which one point is
built, with tags `systemid` = "1", `zoneid` = "0" and fields `roomtemp` = 21.5, `humidity` = 45,
`setpoint` = 22. -/
theorem pushInflux_point_fields (cfg : Config) (env : Env) (net : Net) (w : World)
    (hc : env.newHTTPClient ⟨cfg.influxURL, cfg.influxUSER, cfg.influxPASS, 10⟩ = none)
    (hb : env.newBatchPoints ⟨cfg.influxDB, "s"⟩ = none)
    (hp : ∀ z t, env.newPoint "metrics" (pointTags z) (pointFields z) t = none)
    (hw : net.writeResult = none) :
    (∀ az : AirzoneSystem, ∃ w1 evs bp, pushInflux cfg env net az w = .ok w1 ∧
      w1.trace = w.trace ++ evs ∧ writes evs = [bp] ∧
      bp.points.map (fun p => (p.name, p.fields)) =
        az.Data.elems.map (fun z => ("metrics",
          [("roomtemp", FieldValue.float z.RoomTemp), ("humidity", FieldValue.int z.Humidity),
           ("setpoint", FieldValue.float z.Setpoint)]))) ∧
    ∃ az w1 evs r s t, Unmarshal scenarioPayload AirzoneSystem.zero = .returned az none ∧
      az.Data.elems.length = 1 ∧
      pushInflux cfg env net az w = .ok w1 ∧ w1.trace = w.trace ++ evs ∧
      writes evs = [⟨cfg.influxDB, "s", [⟨"metrics", [("systemid", "1"), ("zoneid", "0")],
        [("roomtemp", .float r), ("humidity", .int 45), ("setpoint", .float s)], t⟩]⟩] ∧
      r.toRat = 43 / 2 ∧ s.toRat = 22 := by
  constructor
  · intro az
    obtain ⟨w1, evs, h1, h2, h3, -, -⟩ :=
      pushInflux_ok cfg env net az w hc hb (fun z _ t => hp z t) hw
    exact ⟨w1, evs, _, h1, h2, h3, pointsFrom_name_fields _ _ _⟩
  · have hdec : Unmarshal scenarioPayload AirzoneSystem.zero =
        .returned ⟨⟨[{ Zone.zero with
          SystemID := 1, ZoneID := 0, On := 1,
          RoomTemp := F64.finite false 6051711999279104 (-48),
          Setpoint := F64.finite false 6192449487634432 (-48), Humidity := 45 }], []⟩⟩
          none := by
      rfl
    obtain ⟨w1, evs, h1, h2, h3, -, -⟩ :=
      pushInflux_ok cfg env net _ w hc hb (fun z _ t => hp z t) hw
    refine ⟨_, w1, evs, _, _, _, hdec, rfl, h1, h2, h3, ?_, ?_⟩
    · norm_num [F64.toRat]
    · norm_num [F64.toRat]

/-- C2, in the sample surroundings. -/
theorem pushInflux_point_fields_witness :
    sampleEnv.newHTTPClient
        ⟨sampleCfg.influxURL, sampleCfg.influxUSER, sampleCfg.influxPASS, 10⟩ = none ∧
      sampleEnv.newBatchPoints ⟨sampleCfg.influxDB, "s"⟩ = none ∧
      (∀ z t, sampleEnv.newPoint "metrics" (pointTags z) (pointFields z) t = none) ∧
      (replies scenarioPayload).writeResult = none ∧
      ∃ az w1 evs r s t, Unmarshal scenarioPayload AirzoneSystem.zero = .returned az none ∧
        az.Data.elems.length = 1 ∧
        pushInflux sampleCfg sampleEnv (replies scenarioPayload) az startWorld = .ok w1 ∧
        w1.trace = startWorld.trace ++ evs ∧
        writes evs = [⟨sampleCfg.influxDB, "s", [⟨"metrics", [("systemid", "1"), ("zoneid", "0")],
          [("roomtemp", .float r), ("humidity", .int 45), ("setpoint", .float s)], t⟩]⟩] ∧
        r.toRat = 43 / 2 ∧ s.toRat = 22 :=
  ⟨rfl, rfl, fun _ _ => rfl, rfl,
    (pushInflux_point_fields sampleCfg sampleEnv (replies scenarioPayload) startWorld rfl rfl
      (fun _ _ => rfl) rfl).2⟩

/-- C3 as stated fails: the payload whose zone object has `systemID` and, as an extra member, a
string under the key `SYSTEMID` is valid JSON and a valid payload when "unknown" means "not the
name of a field", yet decoding it returns an error: the decoder matches keys without regard to
letter case and stores the extra member in `SystemID`. -/
theorem case_variant_key_fails_decoding :
    checkValid caseVariantPayload = none ∧
      (∃ doc, parseDocument caseVariantPayload = some doc ∧
        ValidPayload notData notAZoneField doc [caseVariantZone]) ∧
      ∃ v, Unmarshal caseVariantPayload AirzoneSystem.zero =
        .returned v (some (.typeError ⟨"string", "int"⟩)) := by
  refine ⟨by decide, ⟨_, rfl, [], [], rfl, by simp, by simp, ?_⟩, ⟨_, rfl⟩⟩
  intro ms hms
  simp only [List.mem_singleton] at hms
  subst hms
  refine ⟨by decide, ?_⟩
  intro m hm
  simp only [caseVariantZone, List.mem_cons, List.mem_singleton, List.not_mem_nil, or_false]
    at hm
  rcases hm with rfl | rfl
  · exact Or.inl ⟨.SystemID, rfl, rfl⟩
  · refine Or.inr (fun f => ?_)
    cases f <;> decide

/-- C3, amended: for every body that is valid JSON and denotes a valid payload with the zone
objects `zones` (distinct keys in each; members named after a field carry a value of the field's
type; every other key, at either level, selects no field even when letter case is ignored),
decoding succeeds and yields exactly one reading per zone object, in payload order, each field
holding the value given for it, or the zero value when the zone object does not have it. -/
theorem decode_valid_payload (body : Bytes) (doc : JSON) (zones : List (List (Bytes × JSON)))
    (hjson : checkValid body = none) (hdoc : parseDocument body = some doc)
    (hv : ValidPayload selectsNoData selectsNoZoneField doc zones) :
    ∃ sys, Unmarshal body AirzoneSystem.zero = .returned sys none ∧
      sys.Data.elems.length = zones.length ∧
      sys.Data.elems.map Zone.get = zones.map expected := by
  obtain ⟨sys, h1, h2⟩ := storeSystem_valid doc zones hv
  refine ⟨sys, ?_, ?_, h2⟩
  · simp only [Unmarshal, hjson, hdoc, h1, Option.map_none']
  · simpa using congrArg List.length h2

/-- C3, amended, on the scenario payload: a zone object without `name`, `modes` and `mode`. -/
theorem decode_valid_payload_witness :
    checkValid scenarioPayload = none ∧
      ∃ doc, parseDocument scenarioPayload = some doc ∧
        ValidPayload selectsNoData selectsNoZoneField doc [scenarioZone] ∧
        ∃ sys, Unmarshal scenarioPayload AirzoneSystem.zero = .returned sys none ∧
          sys.Data.elems.length = [scenarioZone].length ∧
          sys.Data.elems.map Zone.get = [scenarioZone].map expected := by
  have hv : ValidPayload selectsNoData selectsNoZoneField
      (.obj [(strBytes "data", .arr [.obj scenarioZone])]) [scenarioZone] := by
    refine ⟨[], [], rfl, by simp, by simp, ?_⟩
    intro ms hms
    simp only [List.mem_singleton] at hms
    subst hms
    refine ⟨by decide, ?_⟩
    intro m hm
    simp only [scenarioZone, List.mem_cons, List.mem_singleton, List.not_mem_nil, or_false]
      at hm
    rcases hm with rfl | rfl | rfl | rfl | rfl | rfl
    · exact Or.inl ⟨.SystemID, rfl, rfl⟩
    · exact Or.inl ⟨.ZoneID, rfl, rfl⟩
    · exact Or.inl ⟨.On, rfl, rfl⟩
    · exact Or.inl ⟨.RoomTemp, rfl, rfl⟩
    · exact Or.inl ⟨.Setpoint, rfl, rfl⟩
    · exact Or.inl ⟨.Humidity, rfl, rfl⟩
  exact ⟨by decide, _, rfl, hv, decode_valid_payload scenarioPayload _ _ (by decide) rfl hv⟩

/-- C4: for non-negative identifiers, parsing the two tag strings `pushInflux` builds
(`strconv.Itoa` of `SystemID` and of `ZoneID`) as decimal integers gives the identifiers back,
and readings with distinct identifier pairs get distinct tags. -/
theorem tags_roundtrip (z z' : Zone)
    (hs : 0 ≤ z.SystemID ∧ z.SystemID < 2 ^ 63) (hz : 0 ≤ z.ZoneID ∧ z.ZoneID < 2 ^ 63)
    (hs' : 0 ≤ z'.SystemID ∧ z'.SystemID < 2 ^ 63) (hz' : 0 ≤ z'.ZoneID ∧ z'.ZoneID < 2 ^ 63) :
    (pointTags z).map (fun kv => (kv.1, Atoi kv.2)) =
        [("systemid", .ok z.SystemID), ("zoneid", .ok z.ZoneID)] ∧
      ((z.SystemID, z.ZoneID) ≠ (z'.SystemID, z'.ZoneID) → pointTags z ≠ pointTags z') := by
  constructor
  · simp only [pointTags, List.map_cons, List.map_nil, Atoi_Itoa _ hs.1 hs.2,
      Atoi_Itoa _ hz.1 hz.2]
  · intro hne heq
    apply hne
    simp only [pointTags, List.cons.injEq, Prod.mk.injEq, true_and, and_true] at heq
    have h1 := congrArg Atoi heq.1
    have h2 := congrArg Atoi heq.2
    rw [Atoi_Itoa _ hs.1 hs.2, Atoi_Itoa _ hs'.1 hs'.2] at h1
    rw [Atoi_Itoa _ hz.1 hz.2, Atoi_Itoa _ hz'.1 hz'.2] at h2
    rw [Except.ok.inj h1, Except.ok.inj h2]

/-- C4, on the two readings of the sample response. -/
theorem tags_roundtrip_witness :
    ((0 : Int) ≤ 1 ∧ (1 : Int) < 2 ^ 63) ∧ ((0 : Int) ≤ 2 ∧ (2 : Int) < 2 ^ 63) ∧
      (pointTags { Zone.zero with SystemID := 1, ZoneID := 1 }).map
          (fun kv => (kv.1, Atoi kv.2)) = [("systemid", .ok 1), ("zoneid", .ok 1)] ∧
      pointTags { Zone.zero with SystemID := 1, ZoneID := 1 } ≠
        pointTags { Zone.zero with SystemID := 1, ZoneID := 2 } :=
  have h := tags_roundtrip { Zone.zero with SystemID := 1, ZoneID := 1 }
    { Zone.zero with SystemID := 1, ZoneID := 2 } (by decide) (by decide) (by decide) (by decide)
  ⟨by decide, by decide, h.1, h.2 (by decide)⟩

/-- C5 as stated fails: the empty object is valid JSON without a `data` key, `json.Unmarshal`
returns no error for it and leaves `Data` empty, and the cycle logs the empty-response message,
not the decode-failure message. -/
theorem missing_data_key_is_not_a_decode_error :
    checkValid noDataPayload = none ∧ parseDocument noDataPayload = some (.obj []) ∧
      Unmarshal noDataPayload AirzoneSystem.zero = .returned AirzoneSystem.zero none ∧
      ∃ w1 evs, airzoneCycle sampleCfg sampleEnv (replies noDataPayload) startWorld = .ok w1 ∧
        w1.trace = startWorld.trace ++ evs ∧
        logged "Error unmarshalling POST Response %s\n" evs = false ∧
        logged "Json answer Data structure is empty" evs = true := by
  refine ⟨by decide, rfl, rfl, ?_⟩
  obtain ⟨w1, evs, h1, h2, -, h4, h5, -⟩ := empty_response_cycle sampleCfg sampleEnv
    (replies noDataPayload) startWorld noDataPayload AirzoneSystem.zero rfl rfl rfl rfl rfl
  exact ⟨w1, evs, h1, h2, h4, h5⟩

/-- C5, amended: when the body is a JSON object none of whose keys selects `Data` (no key is
`data` in any letter case), `json.Unmarshal` returns no error and no readings, and the cycle
takes the empty-response branch: it logs "Json answer Data structure is empty", not the decode
failure, does not call `pushInflux`, sleeps 60 seconds and goes on with the next cycle. -/
theorem missing_data_key_cycle (cfg : Config) (env : Env) (nets : Nat → Net) (k : Nat)
    (w : World) (body : Bytes) (ms : List (Bytes × JSON))
    (hreq : env.newRequest (url cfg) = none) (hdo : (nets k).doResult = none)
    (hread : (nets k).readResult = .ok body) (hjson : checkValid body = none)
    (hdoc : parseDocument body = some (.obj ms)) (hno : ∀ m ∈ ms, selectsNoData m.1) :
    Unmarshal body AirzoneSystem.zero = .returned AirzoneSystem.zero none ∧
      ∃ w1 evs, airzoneCycle cfg env (nets k) w = .ok w1 ∧ w1.trace = w.trace ++ evs ∧
        unmarshals evs = [body] ∧
        logged "Error unmarshalling POST Response %s\n" evs = false ∧
        logged "Json answer Data structure is empty" evs = true ∧
        logged "pushInflux call\n" evs = false ∧ influxCalls evs = [] ∧
        sleeps evs = [60] ∧ evs.getLast? = some (.sleep 60) ∧
        ∀ m, airzoneWorker cfg env nets (m + 1) k w = airzoneWorker cfg env nets m (k + 1) w1 := by
  have hdec : Unmarshal body AirzoneSystem.zero = .returned AirzoneSystem.zero none := by
    simp only [Unmarshal, hjson, hdoc, storeSystem, foldl_storeSystemMember_skip ms hno,
      Option.map_none']
  obtain ⟨w1, evs, h1, h2, h3⟩ := empty_response_cycle cfg env (nets k) w body
    AirzoneSystem.zero hreq hdo hread hdec rfl
  exact ⟨hdec, w1, evs, h1, h2, h3.1, h3.2.1, h3.2.2.1, h3.2.2.2.1, h3.2.2.2.2.1,
    h3.2.2.2.2.2.1, h3.2.2.2.2.2.2, worker_step cfg env nets k w w1 h1⟩

/-- C5, amended, on the empty object. -/
theorem missing_data_key_cycle_witness :
    sampleEnv.newRequest (url sampleCfg) = none ∧ (replies noDataPayload).doResult = none ∧
      (replies noDataPayload).readResult = .ok noDataPayload ∧
      checkValid noDataPayload = none ∧ parseDocument noDataPayload = some (.obj []) ∧
      ∃ w1 evs, airzoneCycle sampleCfg sampleEnv (replies noDataPayload) startWorld = .ok w1 ∧
        w1.trace = startWorld.trace ++ evs ∧ logged "pushInflux call\n" evs = false ∧
        sleeps evs = [60] :=
  have h := missing_data_key_cycle sampleCfg sampleEnv (fun _ => replies noDataPayload) 0
    startWorld noDataPayload [] rfl rfl rfl (by decide) rfl (by simp)
  ⟨rfl, rfl, rfl, by decide, rfl,
    h.2.elim fun w1 h1 => h1.elim fun evs h2 =>
      ⟨w1, evs, h2.1, h2.2.1, h2.2.2.2.2.2.1, h2.2.2.2.2.2.2.2.1⟩⟩

/-- C6, the code at the failing input: when `client.NewHTTPClient` returns an error in a cycle
whose payload has at least one reading, `pushInflux` logs the error and then panics at
`defer c.Close()`; the cycle does not reach the pause and the worker's loop ends there, for
every number of iterations asked for. -/
theorem session_failure_ends_process (cfg : Config) (env : Env) (nets : Nat → Net) (k : Nat)
    (w : World) (body : Bytes) (v : AirzoneSystem) (err : String)
    (hreq : env.newRequest (url cfg) = none) (hdo : (nets k).doResult = none)
    (hread : (nets k).readResult = .ok body)
    (hdec : Unmarshal body AirzoneSystem.zero = .returned v none)
    (hne : v.Data.elems ≠ [])
    (hc : env.newHTTPClient ⟨cfg.influxURL, cfg.influxUSER, cfg.influxPASS, 10⟩ = some err) :
    ∃ w1 evs, airzoneCycle cfg env (nets k) w =
        .panic w1 "runtime error: invalid memory address or nil pointer dereference" ∧
      w1.trace = w.trace ++ evs ∧
      logged "ERROR: Can't create HTTP client to influxdb :%s\n" evs = true ∧
      sleeps evs = [] ∧ writes evs = [] ∧
      ∀ m, airzoneWorker cfg env nets (m + 1) k w =
        .panic w1 "runtime error: invalid memory address or nil pointer dereference" := by
  have ht : "ERROR: Can't create HTTP client to influxdb :%s\n" ∉ doLogTexts := by decide
  have hlen : v.Data.elems.length > 0 := List.length_pos.mpr hne
  obtain ⟨W, hW⟩ : ∃ W, W = doLog cfg env
    ⟨"ERROR: Can't create HTTP client to influxdb :%s\n", []⟩ [.err err]
    ((doLog cfg env ⟨"pushInflux call\n", []⟩ []
      (doLog cfg env ⟨"# of zones found in answer: %d\n", []⟩ [.int v.Data.elems.length]
        ((doLog cfg env ⟨"Airzone Response", body⟩ []
          ((((doLog cfg env ⟨"Connecting Airzone interface\n", []⟩ [] w).emit
            (.newRequest (url cfg) pay)).emit (.httpDo (url cfg) "AirZombie")).emit
              .readAll)).emit (.unmarshal body)))).emit
      (.newHTTPClient ⟨cfg.influxURL, cfg.influxUSER, cfg.influxPASS, 10⟩)) := ⟨_, rfl⟩
  have hrun : airzoneCycle cfg env (nets k) w =
      .panic W "runtime error: invalid memory address or nil pointer dereference" := by
    unfold airzoneCycle
    simp only [hreq, hdo, hread, hdec, hlen, if_true, pushInflux, hc, hW]
  have htr := congrArg World.trace hW
  simp only [doLog_trace, World.emit, List.append_assoc] at htr
  refine ⟨W, _, hrun, htr, ?_, ?_, ?_, fun m => ?_⟩
  · simp [logged_doLogEvents _ ht, logged]
  · simp [sleeps]
  · simp [writes]
  · simp only [airzoneWorker, hrun]

/-- C6, the failing input: no `-influx_url` flag, and the scenario payload. -/
theorem session_failure_ends_process_witness :
    sampleEnv.newHTTPClient
        ⟨noUrlCfg.influxURL, noUrlCfg.influxUSER, noUrlCfg.influxPASS, 10⟩ =
        some "Unsupported protocol scheme: , your address must start with http:// or https://" ∧
      ∃ w1 evs, airzoneCycle noUrlCfg sampleEnv (replies scenarioPayload) startWorld =
          .panic w1 "runtime error: invalid memory address or nil pointer dereference" ∧
        w1.trace = startWorld.trace ++ evs ∧ sleeps evs = [] ∧
        airzoneWorker noUrlCfg sampleEnv (fun _ => replies scenarioPayload) 3 0 startWorld =
          .panic w1 "runtime error: invalid memory address or nil pointer dereference" :=
  have hdec : Unmarshal scenarioPayload AirzoneSystem.zero =
      .returned ⟨⟨[{ Zone.zero with
        SystemID := 1, ZoneID := 0, On := 1,
        RoomTemp := F64.finite false 6051711999279104 (-48),
        Setpoint := F64.finite false 6192449487634432 (-48), Humidity := 45 }], []⟩⟩ none := rfl
  have h := session_failure_ends_process noUrlCfg sampleEnv
    (fun _ => replies scenarioPayload) 0 startWorld scenarioPayload _ _ rfl rfl rfl hdec
    (by simp) rfl
  ⟨rfl, h.elim fun w1 h1 => h1.elim fun evs h2 =>
    ⟨w1, evs, h2.1, h2.2.1, h2.2.2.2.1, h2.2.2.2.2.2 2⟩⟩

/-- C7 as stated fails: with a clock that advances by one second from one reading to the next,
the two points `pushInflux` builds for the sample response carry different timestamps, also
when cut to whole seconds, the precision of the batch. -/
theorem timestamps_can_differ :
    ∃ w1 evs p q, pushInflux sampleCfg sampleEnv (replies []) sampleSystem startWorld = .ok w1 ∧
      w1.trace = startWorld.trace ++ evs ∧ writes evs = [⟨"airzone", "s", [p, q]⟩] ∧
      p.time ≠ q.time ∧ p.time / 1000000000 ≠ q.time / 1000000000 := by
  obtain ⟨w1, evs, h1, h2, h3, -, -⟩ := pushInflux_ok sampleCfg sampleEnv (replies [])
    sampleSystem startWorld rfl rfl (fun _ _ _ => rfl) rfl
  exact ⟨w1, evs, _, _, h1, h2, h3, by decide, by decide⟩

/-- C7, amended: each point of the batch carries the value the clock returned when that point
was built, which for the i-th point is clock read number `2 + 2 * i` after entry to
`pushInflux` (the function's log lines read the clock in between); so the points of a batch
carry one and the same timestamp whenever the clock returned the same value on those reads. -/
theorem point_timestamps (cfg : Config) (env : Env) (net : Net) (az : AirzoneSystem) (w : World)
    (hc : env.newHTTPClient ⟨cfg.influxURL, cfg.influxUSER, cfg.influxPASS, 10⟩ = none)
    (hb : env.newBatchPoints ⟨cfg.influxDB, "s"⟩ = none)
    (hp : ∀ z ∈ az.Data.elems, ∀ t,
      env.newPoint "metrics" (pointTags z) (pointFields z) t = none)
    (hw : net.writeResult = none) :
    ∃ w1 evs bp, pushInflux cfg env net az w = .ok w1 ∧ w1.trace = w.trace ++ evs ∧
      writes evs = [bp] ∧
      (∀ i, i < az.Data.elems.length →
        (bp.points.get? i).map Point.time = some (env.now (w.reads + 2 + 2 * i))) ∧
      ((∀ i, i < az.Data.elems.length → env.now (w.reads + 2 + 2 * i) = env.now (w.reads + 2)) →
        ∀ p ∈ bp.points, p.time = env.now (w.reads + 2)) := by
  obtain ⟨w1, evs, h1, h2, h3, -, -⟩ := pushInflux_ok cfg env net az w hc hb hp hw
  have htime : ∀ i, i < az.Data.elems.length →
      ((pointsFrom env (w.reads + 2) az.Data.elems).get? i).map Point.time =
        some (env.now (w.reads + 2 + 2 * i)) :=
    fun i hi => pointsFrom_time env (w.reads + 2) az.Data.elems i hi
  refine ⟨w1, evs, _, h1, h2, h3, htime, fun hsame p hmem => ?_⟩
  obtain ⟨i, hi⟩ := List.mem_iff_get?.mp hmem
  have hlt : i < az.Data.elems.length := by
    have := List.get?_eq_some.mp hi
    obtain ⟨hl, -⟩ := this
    simpa [pointsFrom_length] using hl
  have h4 := htime i hlt
  simp only at hi
  rw [hi, Option.map_some', Option.some.injEq] at h4
  rw [h4, hsame i hlt]

/-- C7, amended, on the sample response. -/
theorem point_timestamps_witness :
    sampleEnv.newHTTPClient
        ⟨sampleCfg.influxURL, sampleCfg.influxUSER, sampleCfg.influxPASS, 10⟩ = none ∧
      sampleEnv.newBatchPoints ⟨sampleCfg.influxDB, "s"⟩ = none ∧
      (∀ z ∈ sampleSystem.Data.elems, ∀ t,
        sampleEnv.newPoint "metrics" (pointTags z) (pointFields z) t = none) ∧
      (replies []).writeResult = none ∧
      ∃ w1 evs bp, pushInflux sampleCfg sampleEnv (replies []) sampleSystem startWorld = .ok w1 ∧
        w1.trace = startWorld.trace ++ evs ∧ writes evs = [bp] ∧
        ∀ i, i < sampleSystem.Data.elems.length →
          (bp.points.get? i).map Point.time = some (sampleEnv.now (startWorld.reads + 2 + 2 * i)) :=
  have h := point_timestamps sampleCfg sampleEnv (replies []) sampleSystem startWorld rfl rfl
    (fun _ _ _ => rfl) rfl
  ⟨rfl, rfl, fun _ _ _ => rfl, rfl,
    h.elim fun w1 h1 => h1.elim fun evs h2 => h2.elim fun bp h3 =>
      ⟨w1, evs, bp, h3.1, h3.2.1, h3.2.2.1, h3.2.2.2.1⟩⟩

/-- C8: when the body decodes without error to no readings (an empty `data` array), the cycle
does not take the decode-error branch, does not call `pushInflux` (no call into the InfluxDB
client either), logs the empty response, sleeps 60 seconds as its last step, and the worker goes
on with the next cycle. -/
theorem empty_data_cycle (cfg : Config) (env : Env) (nets : Nat → Net) (k : Nat) (w : World)
    (body : Bytes) (v : AirzoneSystem)
    (hreq : env.newRequest (url cfg) = none) (hdo : (nets k).doResult = none)
    (hread : (nets k).readResult = .ok body)
    (hdec : Unmarshal body AirzoneSystem.zero = .returned v none)
    (hempty : v.Data.elems = []) :
    ∃ w1 evs, airzoneCycle cfg env (nets k) w = .ok w1 ∧ w1.trace = w.trace ++ evs ∧
      unmarshals evs = [body] ∧
      logged "Error unmarshalling POST Response %s\n" evs = false ∧
      logged "Json answer Data structure is empty" evs = true ∧
      logged "pushInflux call\n" evs = false ∧ influxCalls evs = [] ∧
      sleeps evs = [60] ∧ evs.getLast? = some (.sleep 60) ∧
      ∀ m, airzoneWorker cfg env nets (m + 1) k w = airzoneWorker cfg env nets m (k + 1) w1 := by
  obtain ⟨w1, evs, h1, h2, h3⟩ := empty_response_cycle cfg env (nets k) w body v hreq hdo hread
    hdec hempty
  exact ⟨w1, evs, h1, h2, h3.1, h3.2.1, h3.2.2.1, h3.2.2.2.1, h3.2.2.2.2.1,
    h3.2.2.2.2.2.1, h3.2.2.2.2.2.2, worker_step cfg env nets k w w1 h1⟩

/-- C8, on the payload with an empty `data` array. -/
theorem empty_data_cycle_witness :
    sampleEnv.newRequest (url sampleCfg) = none ∧ (replies emptyDataPayload).doResult = none ∧
      (replies emptyDataPayload).readResult = .ok emptyDataPayload ∧
      Unmarshal emptyDataPayload AirzoneSystem.zero = .returned AirzoneSystem.zero none ∧
      AirzoneSystem.zero.Data.elems = [] ∧
      ∃ w1 evs, airzoneCycle sampleCfg sampleEnv (replies emptyDataPayload) startWorld = .ok w1 ∧
        w1.trace = startWorld.trace ++ evs ∧ logged "pushInflux call\n" evs = false ∧
        influxCalls evs = [] ∧ sleeps evs = [60] :=
  have h := empty_data_cycle sampleCfg sampleEnv (fun _ => replies emptyDataPayload) 0
    startWorld emptyDataPayload AirzoneSystem.zero rfl rfl rfl rfl rfl
  ⟨rfl, rfl, rfl, rfl, rfl,
    h.elim fun w1 h1 => h1.elim fun evs h2 =>
      ⟨w1, evs, h2.1, h2.2.1, h2.2.2.2.2.2.1, h2.2.2.2.2.2.2.1, h2.2.2.2.2.2.2.2.1⟩⟩

/-- C9: when the body is not valid JSON (the scanner reports a syntax error, as for a truncated
body), `json.Unmarshal` returns that error, and the cycle logs the decode failure, does not call
`pushInflux` (no call into the InfluxDB client either), sleeps 60 seconds as its last step, and
the worker goes on with the next cycle. -/
theorem malformed_json_cycle (cfg : Config) (env : Env) (nets : Nat → Net) (k : Nat)
    (w : World) (body : Bytes) (msg : String)
    (hreq : env.newRequest (url cfg) = none) (hdo : (nets k).doResult = none)
    (hread : (nets k).readResult = .ok body) (hbad : checkValid body = some msg) :
    Unmarshal body AirzoneSystem.zero =
        .returned AirzoneSystem.zero (some (.syntaxError msg)) ∧
      ∃ w1 evs, airzoneCycle cfg env (nets k) w = .ok w1 ∧ w1.trace = w.trace ++ evs ∧
        unmarshals evs = [body] ∧
        logged "Error unmarshalling POST Response %s\n" evs = true ∧
        logged "pushInflux call\n" evs = false ∧ influxCalls evs = [] ∧
        sleeps evs = [60] ∧ evs.getLast? = some (.sleep 60) ∧
        ∀ m, airzoneWorker cfg env nets (m + 1) k w = airzoneWorker cfg env nets m (k + 1) w1 := by
  have hdec := unmarshal_syntax_error body msg AirzoneSystem.zero hbad
  obtain ⟨w1, evs, h1, h2, h3⟩ := decode_error_cycle cfg env (nets k) w body _ _ hreq hdo hread
    hdec
  exact ⟨hdec, w1, evs, h1, h2, h3.1, h3.2.1, h3.2.2.2.1, h3.2.2.2.2.1,
    h3.2.2.2.2.2.1, h3.2.2.2.2.2.2, worker_step cfg env nets k w w1 h1⟩

/-- C9, on the truncated scenario payload. -/
theorem malformed_json_cycle_witness :
    sampleEnv.newRequest (url sampleCfg) = none ∧ (replies truncatedPayload).doResult = none ∧
      (replies truncatedPayload).readResult = .ok truncatedPayload ∧
      checkValid truncatedPayload = some "unexpected end of JSON input" ∧
      ∃ w1 evs, airzoneCycle sampleCfg sampleEnv (replies truncatedPayload) startWorld = .ok w1 ∧
        w1.trace = startWorld.trace ++ evs ∧ logged "pushInflux call\n" evs = false ∧
        influxCalls evs = [] ∧ sleeps evs = [60] :=
  have h := malformed_json_cycle sampleCfg sampleEnv (fun _ => replies truncatedPayload) 0
    startWorld truncatedPayload "unexpected end of JSON input" rfl rfl rfl (by decide)
  ⟨rfl, rfl, rfl, by decide,
    h.2.elim fun w1 h1 => h1.elim fun evs h2 =>
      ⟨w1, evs, h2.1, h2.2.1, h2.2.2.2.2.1, h2.2.2.2.2.2.1, h2.2.2.2.2.2.2.1⟩⟩

/-- C10: when acquisition fails in a cycle (creating the request, sending it, or reading the
body returns an error), the cycle calls neither `json.Unmarshal` nor `pushInflux` (no call into
the InfluxDB client either), sleeps exactly once, for 60 seconds, as its last step, and the
worker's loop does not exit: it goes on with the next cycle. -/
theorem acquisition_failure_skips_to_pause (cfg : Config) (env : Env) (nets : Nat → Net)
    (k : Nat) (w : World) (h : acquisitionFails cfg env (nets k)) :
    ∃ w1 evs, airzoneCycle cfg env (nets k) w = .ok w1 ∧ w1.trace = w.trace ++ evs ∧
      unmarshals evs = [] ∧ influxCalls evs = [] ∧ logged "pushInflux call\n" evs = false ∧
      sleeps evs = [60] ∧ evs.getLast? = some (.sleep 60) ∧
      ∀ m, airzoneWorker cfg env nets (m + 1) k w = airzoneWorker cfg env nets m (k + 1) w1 := by
  obtain ⟨w1, evs, h1, h2, h3⟩ := acquisition_failure_cycle cfg env (nets k) w h
  exact ⟨w1, evs, h1, h2, h3.1, h3.2.1, h3.2.2.1, h3.2.2.2.1, h3.2.2.2.2,
    worker_step cfg env nets k w w1 h1⟩

/-- C10, on a request that times out. -/
theorem acquisition_failure_skips_to_pause_witness :
    acquisitionFails sampleCfg sampleEnv timesOut ∧
      ∃ w1 evs, airzoneCycle sampleCfg sampleEnv timesOut startWorld = .ok w1 ∧
        w1.trace = startWorld.trace ++ evs ∧ unmarshals evs = [] ∧ influxCalls evs = [] ∧
        sleeps evs = [60] :=
  have hf : acquisitionFails sampleCfg sampleEnv timesOut := Or.inr (Or.inl (by simp [timesOut]))
  have h := acquisition_failure_skips_to_pause sampleCfg sampleEnv (fun _ => timesOut) 0
    startWorld hf
  ⟨hf, h.elim fun w1 h1 => h1.elim fun evs h2 =>
    ⟨w1, evs, h2.1, h2.2.1, h2.2.2.1, h2.2.2.2.1, h2.2.2.2.2.2.1⟩⟩

end Airzombie
